import Mathlib

/-!
Verification development for the `stac-geoparquet` repository.

The development shallowly embeds the core of the JSON <-> GeoParquet
conversion pipeline:

* `stac_geoparquet/arrow/_batch.py` (`StacJsonBatch.from_dicts`,
  `StacJsonBatch.iter_dicts`, `StacJsonBatch.to_arrow_batch`,
  `StacArrowBatch.to_json_batch`),
* `stac_geoparquet/arrow/_util.py` (`batched_iter`,
  `_bring_properties_to_top_level`, `_convert_timestamp_columns`,
  `_convert_timestamp_column`, `_is_bbox_3d`, `_convert_bbox_to_struct`),
* `stac_geoparquet/arrow/_from_arrow.py` (`_convert_timestamp_columns_to_string`,
  `_lower_properties_from_top_level`, `_convert_bbox_to_array`,
  `convert_tuples_to_lists`, `set_by_path`),
* `stac_geoparquet/arrow/_to_parquet.py` (`create_parquet_metadata`,
  `schema_version_has_bbox_mapping`).

Python dict/list/scalar values are modelled by the inductive `JVal`;
Arrow record batches are modelled as named, typed columns of cells
(`Batch`, `AType`, `ACell`).  JSON numbers are modelled as rationals
(the pipeline at issue stores them as 64-bit floats without narrowing,
so the identity of the numeric value is preserved; file-format float
quantisation is outside the model).  WKB byte strings produced by
`shapely.to_wkb` are abstracted by the geometry they encode (`to_wkb`
is injective and `from_wkb` is its inverse; the byte-level codec of the
external `shapely` library is not re-implemented).  Python exceptions
are modelled by the `PyErr` sum type and fallible code returns
`Except PyErr`.
-/

namespace StacGeoparquet

/-- Python exceptions raised (directly or by the libraries the code calls)
are modelled as values of this sum type. -/
inductive PyErr where
  | keyError (msg : String)
  | valueError (msg : String)
  | attributeError (msg : String)
  | typeError (msg : String)
  | indexError
  | arrowInvalid (msg : String)
  | assertionError (msg : String)
  deriving Repr, DecidableEq

/-! ## Timestamps

`ciso8601.parse_rfc3339` and `pyarrow.compute.strftime` with format
`%Y-%m-%dT%H:%M:%SZ` are the only timestamp codecs used by the pipeline.
A parsed timestamp is modelled as a civil UTC record.  The model covers
RFC-3339 strings with a UTC offset (`Z` / `z` / `+00:00` / `-00:00`);
strings with a non-zero UTC offset (which `ciso8601` would also accept,
converting to a different instant) are outside the modelled domain and
are rejected by the model's parser. -/

/-- A parsed UTC timestamp: the value carried by a Python `datetime`
returned by `ciso8601.parse_rfc3339`, and by an Arrow `timestamp("us")`
cell. -/
structure TsRec where
  year : Nat
  month : Nat
  day : Nat
  hour : Nat
  minute : Nat
  second : Nat
  usec : Nat
  deriving Repr, DecidableEq

/-- Gregorian leap-year rule (as used by `datetime` / `ciso8601`). -/
def isLeap (y : Nat) : Bool := y % 4 = 0 && (y % 100 != 0 || y % 400 = 0)

/-- Number of days in a month (as validated by `ciso8601`). -/
def days_in_month (y mo : Nat) : Nat :=
  if mo = 2 then (if isLeap y then 29 else 28)
  else if mo = 4 || mo = 6 || mo = 9 || mo = 11 then 30
  else 31

/-- Field-range validity of a civil timestamp record. -/
def TsRec.valid (t : TsRec) : Bool :=
  1 ≤ t.year && t.year ≤ 9999 && 1 ≤ t.month && t.month ≤ 12 &&
  1 ≤ t.day && t.day ≤ days_in_month t.year t.month &&
  t.hour ≤ 23 && t.minute ≤ 59 && t.second ≤ 59 && t.usec ≤ 999999

/-- Character of a single decimal digit. -/
def digitChar (n : Nat) : Char := Char.ofNat (48 + n)

/-- Numeric value of a decimal digit character. -/
def dval (c : Char) : Option Nat :=
  if 48 ≤ c.toNat && c.toNat ≤ 57 then some (c.toNat - 48) else none

/-- Two-digit zero-padded decimal rendering (as `strftime` `%m`, `%d`, …). -/
def pad2 (n : Nat) : List Char := [digitChar (n / 10), digitChar (n % 10)]

/-- Four-digit zero-padded decimal rendering (as `strftime` `%Y`). -/
def pad4 (n : Nat) : List Char :=
  [digitChar (n / 1000), digitChar (n / 100 % 10), digitChar (n / 10 % 10),
   digitChar (n % 10)]

/-- Six-digit zero-padded decimal rendering (the fractional-second part
Arrow's `%S` prints for a microsecond-precision timestamp). -/
def pad6 (n : Nat) : List Char :=
  [digitChar (n / 100000), digitChar (n / 10000 % 10),
   digitChar (n / 1000 % 10), digitChar (n / 100 % 10),
   digitChar (n / 10 % 10), digitChar (n % 10)]

/-- `pyarrow.compute.strftime` with format `%Y-%m-%dT%H:%M:%SZ` applied to one
microsecond-precision timestamp value.  Arrow's `%S` prints the seconds
together with the fractional part at the precision of the input type, so a
`timestamp("us")` value always renders six fractional digits
(`SS.ffffff`), trailing zeros included. -/
def strftime_iso (t : TsRec) : String :=
  ⟨pad4 t.year ++ ('-' :: (pad2 t.month ++ ('-' :: (pad2 t.day ++
   ('T' :: (pad2 t.hour ++ (':' :: (pad2 t.minute ++
   (':' :: (pad2 t.second ++ ('.' :: (pad6 t.usec ++ ['Z']))))))))))))⟩

/-- Read two decimal digits from the front of a character list. -/
def read2 : List Char → Option (Nat × List Char)
  | c1 :: c2 :: rest => do
    let d1 ← dval c1
    let d2 ← dval c2
    pure (10 * d1 + d2, rest)
  | _ => none

/-- Read four decimal digits from the front of a character list. -/
def read4 : List Char → Option (Nat × List Char)
  | c1 :: c2 :: c3 :: c4 :: rest => do
    let d1 ← dval c1
    let d2 ← dval c2
    let d3 ← dval c3
    let d4 ← dval c4
    pure (1000 * d1 + 100 * d2 + 10 * d3 + d4, rest)
  | _ => none

/-- Read a run of decimal digits (at least one), returning the digits
and the rest. -/
def readDigits : List Char → List Nat → (List Nat × List Char)
  | c :: rest, acc =>
    match dval c with
    | some d => readDigits rest (acc ++ [d])
    | none => (acc, c :: rest)
  | [], acc => (acc, [])

/-- Scale a fractional-second digit run to microseconds (at most six digits
are significant, as in `ciso8601`). -/
def fracToUsec (ds : List Nat) : Nat :=
  ((ds.take 6).foldl (fun acc d => 10 * acc + d) 0) * 10 ^ (6 - min ds.length 6)

/-- UTC-offset tail of an RFC-3339 string.  The model accepts `Z`, `z`,
`+00:00` and `-00:00`; a non-zero offset (accepted by `ciso8601`, which
would shift the instant) is outside the modelled domain. -/
def readUtcOffset : List Char → Option Unit
  | ['Z'] => some ()
  | ['z'] => some ()
  | ['+', '0', '0', ':', '0', '0'] => some ()
  | ['-', '0', '0', ':', '0', '0'] => some ()
  | _ => none

/-- Consume one expected character from the front of the list. -/
def expectChar (c : Char) : List Char → Option (List Char)
  | x :: rest => if x = c then some rest else none
  | [] => none

/-- Optional fractional-second part: `.digits` scaled to microseconds, or
zero when absent. -/
def readFrac : List Char → Option (Nat × List Char)
  | '.' :: rf =>
    match readDigits rf [] with
    | ([], _) => none
    | (ds, rest) => some (fracToUsec ds, rest)
  | other => some (0, other)

/-- Date part `YYYY-MM-DD` of an RFC-3339 string. -/
def readDatePart (cs : List Char) : Option (Nat × Nat × Nat × List Char) := do
  let py ← read4 cs
  let r2 ← expectChar '-' py.2
  let pmo ← read2 r2
  let r4 ← expectChar '-' pmo.2
  let pd ← read2 r4
  pure (py.1, pmo.1, pd.1, pd.2)

/-- Time part `THH:MM:SS` of an RFC-3339 string. -/
def readTimePart (cs : List Char) : Option (Nat × Nat × Nat × List Char) := do
  let r6 ← expectChar 'T' cs
  let ph ← read2 r6
  let r8 ← expectChar ':' ph.2
  let pmi ← read2 r8
  let r10 ← expectChar ':' pmi.2
  let pse ← read2 r10
  pure (ph.1, pmi.1, pse.1, pse.2)

/-- Model of `ciso8601.parse_rfc3339` restricted to UTC offsets: parse
`YYYY-MM-DDTHH:MM:SS[.ffffff](Z|+00:00)` and validate field ranges. -/
def parse_rfc3339? (s : String) : Option TsRec := do
  let pd ← readDatePart s.data
  let pt ← readTimePart pd.2.2.2
  let pus ← readFrac pt.2.2.2
  let _ ← readUtcOffset pus.2
  let t : TsRec := ⟨pd.1, pd.2.1, pd.2.2.1, pt.1, pt.2.1, pt.2.2.1, pus.1⟩
  if t.valid then some t else none

/-- `ciso8601.parse_rfc3339` as called by the pipeline: a parse failure is a
Python `ValueError`. -/
def parse_rfc3339 (s : String) : Except PyErr TsRec :=
  match parse_rfc3339? s with
  | some t => .ok t
  | none => .error (.valueError ("ciso8601: invalid RFC 3339 string " ++ s))

theorem dval_digitChar : ∀ d : Nat, d < 10 → dval (digitChar d) = some d := by
  decide

theorem read2_pad2 (n : Nat) (h : n < 100) (rest : List Char) :
    read2 (pad2 n ++ rest) = some (n, rest) := by
  have h1 : n / 10 < 10 := by omega
  have h2 : n % 10 < 10 := by omega
  simp [pad2, read2, dval_digitChar _ h1, dval_digitChar _ h2]
  omega

theorem read4_pad4 (n : Nat) (h : n < 10000) (rest : List Char) :
    read4 (pad4 n ++ rest) = some (n, rest) := by
  have h1 : n / 1000 < 10 := by omega
  have h2 : n / 100 % 10 < 10 := by omega
  have h3 : n / 10 % 10 < 10 := by omega
  have h4 : n % 10 < 10 := by omega
  simp [pad4, read4, dval_digitChar _ h1, dval_digitChar _ h2,
    dval_digitChar _ h3, dval_digitChar _ h4]
  omega

theorem days_in_month_le (y mo : Nat) : days_in_month y mo ≤ 31 := by
  simp only [days_in_month]
  split_ifs <;> omega

theorem expectChar_cons_self (c : Char) (rest : List Char) :
    expectChar c (c :: rest) = some rest := by
  simp [expectChar]

/-- Reading back a six-digit fractional part terminated by `Z`. -/
theorem readFrac_pad6 (us : Nat) (h : us < 1000000) :
    readFrac ('.' :: (pad6 us ++ ['Z'])) = some (us, ['Z']) := by
  have h1 : us / 100000 < 10 := by omega
  have h2 : us / 10000 % 10 < 10 := by omega
  have h3 : us / 1000 % 10 < 10 := by omega
  have h4 : us / 100 % 10 < 10 := by omega
  have h5 : us / 10 % 10 < 10 := by omega
  have h6 : us % 10 < 10 := by omega
  simp only [readFrac, pad6, List.cons_append, List.nil_append, readDigits,
    dval_digitChar _ h1, dval_digitChar _ h2, dval_digitChar _ h3,
    dval_digitChar _ h4, dval_digitChar _ h5, dval_digitChar _ h6,
    show dval 'Z' = none from rfl, List.append_nil, List.nil_append,
    List.cons_append, List.singleton_append]
  simp only [fracToUsec, List.take, List.foldl, List.length_cons,
    List.length_nil, min_self, Nat.sub_self, pow_zero, mul_one,
    Option.some.injEq, Prod.mk.injEq]
  constructor
  · omega
  · trivial

theorem readDatePart_format (y mo d : Nat) (hy : y < 10000) (hmo : mo < 100)
    (hd : d < 100) (rest : List Char) :
    readDatePart (pad4 y ++ ('-' :: (pad2 mo ++ ('-' :: (pad2 d ++ rest))))) =
      some (y, mo, d, rest) := by
  simp only [readDatePart, Option.bind_eq_bind]
  rw [read4_pad4 y hy, Option.some_bind, expectChar_cons_self, Option.some_bind,
      read2_pad2 mo hmo, Option.some_bind, expectChar_cons_self, Option.some_bind,
      read2_pad2 d hd, Option.some_bind]
  rfl

theorem readTimePart_format (h mi se : Nat) (hh : h < 100) (hmi : mi < 100)
    (hse : se < 100) (rest : List Char) :
    readTimePart ('T' :: (pad2 h ++ (':' :: (pad2 mi ++
        (':' :: (pad2 se ++ rest)))))) = some (h, mi, se, rest) := by
  simp only [readTimePart, Option.bind_eq_bind]
  rw [expectChar_cons_self, Option.some_bind,
      read2_pad2 h hh, Option.some_bind, expectChar_cons_self, Option.some_bind,
      read2_pad2 mi hmi, Option.some_bind, expectChar_cons_self, Option.some_bind,
      read2_pad2 se hse, Option.some_bind]
  rfl

/-- Parsing inverts formatting: a valid timestamp — fractional seconds
included — is recovered exactly from its `%Y-%m-%dT%H:%M:%SZ` rendering
(Arrow's `%S` having printed the six-digit fractional part). -/
theorem parse_strftime_iso (t : TsRec) (hv : t.valid = true) :
    parse_rfc3339? (strftime_iso t) = some t := by
  obtain ⟨y, mo, d, h, mi, se, us⟩ := t
  simp only [TsRec.valid, Bool.and_eq_true, decide_eq_true_eq] at hv
  have hmo : mo < 100 := by omega
  have hd' : d < 100 := by
    have h31 := days_in_month_le y mo
    omega
  have hh : h < 100 := by omega
  have hmi : mi < 100 := by omega
  have hse : se < 100 := by omega
  have hy : y < 10000 := by omega
  have hus : us < 1000000 := by omega
  have hvv : TsRec.valid ⟨y, mo, d, h, mi, se, us⟩ = true := by
    simp only [TsRec.valid, Bool.and_eq_true, decide_eq_true_eq]
    omega
  have hfrac := readFrac_pad6 us hus
  have hoff : readUtcOffset ['Z'] = some () := rfl
  simp only [strftime_iso, parse_rfc3339?, Option.bind_eq_bind]
  rw [readDatePart_format y mo d hy hmo hd', Option.some_bind,
      readTimePart_format h mi se hh hmi hse, Option.some_bind,
      hfrac, Option.some_bind, hoff, Option.some_bind]
  simp [hvv]

/-- The model parser only returns field-valid records. -/
theorem parse_rfc3339?_valid {s : String} {t : TsRec}
    (h : parse_rfc3339? s = some t) : t.valid = true := by
  simp only [parse_rfc3339?, Option.bind_eq_bind] at h
  rcases h1 : readDatePart s.data with - | pd
  · rw [h1] at h
    cases h
  · rw [h1, Option.some_bind] at h
    rcases h2 : readTimePart pd.2.2.2 with - | pt
    · rw [h2] at h
      cases h
    · rw [h2, Option.some_bind] at h
      rcases h3 : readFrac pt.2.2.2 with - | pus
      · rw [h3] at h
        cases h
      · rw [h3, Option.some_bind] at h
        rcases h4 : readUtcOffset pus.2 with - | u
        · rw [h4] at h
          cases h
        · rw [h4, Option.some_bind] at h
          by_cases hvv : TsRec.valid
              ⟨pd.1, pd.2.1, pd.2.2.1, pt.1, pt.2.1, pt.2.2.1, pus.1⟩
          · simp only [hvv, if_true, reduceIte, Option.some.injEq] at h
            rw [← h]
            exact hvv
          · simp only [hvv, if_false, Bool.false_eq_true, reduceIte] at h
            cases h


/-! ## Geometry

`shapely.geometry.shape`, `shapely.to_wkb(..., flavor="iso")` and
`shapely.from_wkb` are external library calls.  A geometry object is
modelled by its GeoJSON content (type tag and coordinate tree); the WKB
byte string produced by `to_wkb` is abstracted by the geometry it encodes
(`to_wkb` is injective on the modelled domain and `from_wkb` inverts it;
coordinates are IEEE doubles in both the JSON and the WKB form, so no
value is altered by the codec). -/

mutual
inductive Coord where
  | num (q : ℚ)
  | arr (cs : CoordList)
  deriving DecidableEq, Repr
inductive CoordList where
  | nil
  | cons (c : Coord) (t : CoordList)
  deriving DecidableEq, Repr
end

/-- A shapely geometry object, identified by its GeoJSON content. -/
structure Geom where
  gtype : String
  coords : Coord
  deriving DecidableEq, Repr

/-- Geometry types understood by `shapely.geometry.shape`
(`GeometryCollection`, which carries `geometries` instead of
`coordinates`, is outside the modelled domain). -/
def shapely_geometry_types : List String :=
  ["Point", "LineString", "LinearRing", "Polygon", "MultiPoint",
   "MultiLineString", "MultiPolygon"]

/-! ## JSON values -/

mutual
/-- A Python value as produced by `orjson.loads` / consumed by
`orjson.dumps`, extended with the two non-JSON values that flow through
the pipeline: `datetime` objects (`dt`) and WKB byte strings (`wkb`). -/
inductive JVal where
  | null
  | bool (b : Bool)
  | num (q : ℚ)
  | str (s : String)
  | dt (t : TsRec)
  | wkb (g : Geom)
  | arr (xs : JArr)
  | obj (kvs : JObj)
  deriving DecidableEq, Repr
/-- A Python list of `JVal`. -/
inductive JArr where
  | nil
  | cons (v : JVal) (t : JArr)
  deriving DecidableEq, Repr
/-- A Python dict keyed by strings, in insertion order. -/
inductive JObj where
  | nil
  | cons (k : String) (v : JVal) (t : JObj)
  deriving DecidableEq, Repr
end

/-- Dict lookup (`d[k]` / `d.get(k)`), first occurrence. -/
def JObj.get : JObj → String → Option JVal
  | .nil, _ => none
  | .cons k v t, key => if k = key then some v else t.get key

/-- Membership test (`k in d`). -/
def JObj.hasKey (kvs : JObj) (key : String) : Bool := (kvs.get key).isSome

/-- Dict update `d[k] = v`: replaces the value in place if the key exists,
appends otherwise (Python dict semantics). -/
def JObj.set : JObj → String → JVal → JObj
  | .nil, key, v => .cons key v .nil
  | .cons k w t, key, v =>
    if k = key then .cons k v t else .cons k w (t.set key v)

/-- Key list of a dict, in insertion order. -/
def JObj.keys : JObj → List String
  | .nil => []
  | .cons k _ t => k :: t.keys

/-- Value list of a dict, in insertion order. -/
def JObj.values : JObj → List JVal
  | .nil => []
  | .cons _ v t => v :: t.values

def JObj.length : JObj → Nat
  | .nil => 0
  | .cons _ _ t => t.length + 1

def JArr.toList : JArr → List JVal
  | .nil => []
  | .cons v t => v :: t.toList

def JArr.length : JArr → Nat
  | .nil => 0
  | .cons _ t => t.length + 1

mutual
/-- Well-formedness of a value that entered the pipeline from JSON text:
every dict has pairwise-distinct keys (Python dicts cannot hold
duplicates), and no `datetime` or WKB leaves occur (JSON text cannot
produce them). -/
def wfJ : JVal → Bool
  | .null | .bool _ | .num _ | .str _ => true
  | .dt _ | .wkb _ => false
  | .arr xs => wfJArr xs
  | .obj kvs => wfJObj kvs
def wfJArr : JArr → Bool
  | .nil => true
  | .cons v t => wfJ v && wfJArr t
def wfJObj : JObj → Bool
  | .nil => true
  | .cons k v t => !t.hasKey k && wfJ v && wfJObj t
end

mutual
/-- Coordinate tree of a GeoJSON `coordinates` member (numbers and
nested arrays only). -/
def coordOfJVal : JVal → Option Coord
  | .num q => some (.num q)
  | .arr xs => (coordOfJArr xs).map .arr
  | _ => none
def coordOfJArr : JArr → Option CoordList
  | .nil => some .nil
  | .cons v t => do
    let c ← coordOfJVal v
    let ct ← coordOfJArr t
    pure (.cons c ct)
end

mutual
/-- Coordinates of a geometry rendered back to Python values.  In the
source, `shapely`'s `__geo_interface__` yields nested tuples; the model
does not distinguish tuples from lists. -/
def jvalOfCoord : Coord → JVal
  | .num q => .num q
  | .arr cs => .arr (jvalOfCoordList cs)
def jvalOfCoordList : CoordList → JArr
  | .nil => .nil
  | .cons c t => .cons (jvalOfCoord c) (jvalOfCoordList t)
end

/-- `convert_tuples_to_lists` from `_from_arrow.py`: rewrites nested tuples
to nested lists.  The model has a single sequence former, so this is the
identity; it is kept as a named stage for traceability. -/
def convert_tuples_to_lists (v : JVal) : JVal := v

/-- `shapely.geometry.shape(context)`: reads `context["type"]` and
`context["coordinates"]` and builds a geometry object.  Called on `None`
(or any non-mapping), the `context.get` attribute access raises
`AttributeError`; an unknown or missing geometry type raises a shapely
`GeometryTypeError`. -/
def shape (v : JVal) : Except PyErr Geom :=
  match v with
  | .obj kvs =>
    match kvs.get "type" with
    | some (.str t) =>
      if t ∈ shapely_geometry_types then
        match kvs.get "coordinates" with
        | some c =>
          match coordOfJVal c with
          | some cc => .ok ⟨t, cc⟩
          | none => .error (.typeError "shapely: malformed coordinates")
        | none => .error (.keyError "coordinates")
      else .error (.valueError ("shapely: unknown geometry type " ++ t))
    | _ => .error (.valueError "shapely: missing or non-string geometry type")
  | .null => .error (.attributeError "NoneType object has no attribute get")
  | _ => .error (.attributeError "object has no attribute get")

/-- `shapely.to_wkb(geom, flavor="iso")`: the byte string is abstracted by
the geometry it encodes. -/
def to_wkb (g : Geom) : Geom := g

/-- `shapely.from_wkb(bytes)`: inverse of `to_wkb`. -/
def from_wkb (g : Geom) : Geom := g

/-- `geom.__geo_interface__` followed by `convert_tuples_to_lists` on the
coordinates, as performed per row in `iter_dicts`. -/
def geo_interface (g : Geom) : JVal :=
  .obj (.cons "type" (.str g.gtype)
    (.cons "coordinates" (convert_tuples_to_lists (jvalOfCoord g.coords)) .nil))

/-! ## Round-trip comparison

The equivalence the round-trip claim is stated against (mirroring
`tests/json_equals.py` and the spec's §8 wording): numbers agree within
`10⁻⁹` relative, strings that both parse as RFC-3339 agree by parsed
value, a key mapped to `null` is equivalent to the key being absent, and
everything else agrees exactly. -/

/-- Relative numeric tolerance of the round-trip claim. -/
def numTolerance : ℚ := 1 / 1000000000

/-- Numbers equal within `10⁻⁹` relative. -/
def numClose (a b : ℚ) : Bool :=
  a == b || |a - b| ≤ numTolerance * max |a| |b|

/-- String comparison of the round-trip claim: timestamps by parsed value
(allowing reformatting), other strings exactly. -/
def strEquiv (a b : String) : Bool :=
  match parse_rfc3339? a, parse_rfc3339? b with
  | some ta, some tb => ta == tb
  | _, _ => a == b

def isNullJ : JVal → Bool
  | .null => true
  | _ => false

/-- Keys of the second dict that are missing from the first must map to
`null`. -/
def jeqMissing : JObj → JObj → Bool
  | .nil, _ => true
  | .cons k w t, a => (a.hasKey k || isNullJ w) && jeqMissing t a

mutual
/-- The round-trip equivalence on values. -/
def jeq : JVal → JVal → Bool
  | .null, .null => true
  | .bool a, .bool b => a == b
  | .num a, .num b => numClose a b
  | .str a, .str b => strEquiv a b
  | .dt a, .dt b => a == b
  | .wkb a, .wkb b => a == b
  | .arr a, .arr b => jeqArr a b
  | .obj a, .obj b => jeqFwd a b && jeqMissing b a
  | _, _ => false
/-- Sequences compare element-wise (equal lengths). -/
def jeqArr : JArr → JArr → Bool
  | .nil, .nil => true
  | .cons v t, .cons w u => jeq v w && jeqArr t u
  | _, _ => false
/-- Every key of the first dict is either equivalent in the second or
maps to `null` and is absent there. -/
def jeqFwd : JObj → JObj → Bool
  | .nil, _ => true
  | .cons k v t, b =>
    (match b.get k with
     | some w => jeq v w
     | none => isNullJ v) && jeqFwd t b
end

/-! ## Arrow types and cells -/

inductive ATimeUnit where
  | s | ms | us | ns
  deriving DecidableEq, Repr

mutual
/-- An Arrow data type, as far as the pipeline inspects it
(`pa.types.is_timestamp` / `is_null` / `is_string` / `is_list` /
`is_struct`, field lists of structs, timestamp unit and timezone). -/
inductive AType where
  | anull
  | abool
  | anum
  | astr
  | abin
  | ats (unit : ATimeUnit) (tz : Option String)
  | alist (elem : AType)
  | astruct (fields : AFields)
  deriving DecidableEq, Repr
/-- Named fields of a struct type, in order. -/
inductive AFields where
  | nil
  | cons (name : String) (ty : AType) (t : AFields)
  deriving DecidableEq, Repr
end

mutual
/-- One Arrow array element. -/
inductive ACell where
  | cnull
  | cbool (b : Bool)
  | cnum (q : ℚ)
  | cstr (s : String)
  | cbin (g : Geom)
  | cts (t : TsRec)
  | clist (xs : ACells)
  | cstruct (fs : APairs)
  deriving DecidableEq, Repr
inductive ACells where
  | nil
  | cons (c : ACell) (t : ACells)
  deriving DecidableEq, Repr
inductive APairs where
  | nil
  | cons (name : String) (c : ACell) (t : APairs)
  deriving DecidableEq, Repr
end

def AFields.get : AFields → String → Option AType
  | .nil, _ => none
  | .cons n ty t, name => if n = name then some ty else t.get name

def AFields.hasName (fs : AFields) (name : String) : Bool := (fs.get name).isSome

def AFields.names : AFields → List String
  | .nil => []
  | .cons n _ t => n :: t.names

def AFields.append : AFields → AFields → AFields
  | .nil, gs => gs
  | .cons n ty t, gs => .cons n ty (t.append gs)

/-- Fields of `gs` whose name does not occur in `fs` (in `gs` order). -/
def AFields.notIn : AFields → AFields → AFields
  | .nil, _ => .nil
  | .cons n ty t, fs =>
    if fs.hasName n then t.notIn fs else .cons n ty (t.notIn fs)

def APairs.get : APairs → String → Option ACell
  | .nil, _ => none
  | .cons n c t, name => if n = name then some c else t.get name

def ACells.toList : ACells → List ACell
  | .nil => []
  | .cons c t => c :: t.toList

mutual
/-- Join of two Arrow types as `pyarrow` infers a common type across
values: `null` is absorbed, equal scalar types join to themselves, lists
join element-wise and structs join to the union of their field lists
(first-appearance order, missing fields nullable). -/
def unify : AType → AType → Option AType
  | .anull, t => some t
  | .abool, .anull => some .abool
  | .abool, .abool => some .abool
  | .anum, .anull => some .anum
  | .anum, .anum => some .anum
  | .astr, .anull => some .astr
  | .astr, .astr => some .astr
  | .abin, .anull => some .abin
  | .abin, .abin => some .abin
  | .ats u z, .anull => some (.ats u z)
  | .ats u z, .ats u' z' => if u = u' && z = z' then some (.ats u z) else none
  | .alist a, .anull => some (.alist a)
  | .alist a, .alist b => (unify a b).map .alist
  | .astruct fs, .anull => some (.astruct fs)
  | .astruct fs, .astruct gs =>
    (unifyShared fs gs).map fun hd => .astruct (hd.append (gs.notIn fs))
  | _, _ => none
/-- First component of a struct join: the fields of `fs`, with the type
joined against the same-named field of `gs` when one exists. -/
def unifyShared : AFields → AFields → Option AFields
  | .nil, _ => some .nil
  | .cons n ty t, gs =>
    match gs.get n with
    | some ty' => do
      let u ← unify ty ty'
      let rest ← unifyShared t gs
      pure (.cons n u rest)
    | none => do
      let rest ← unifyShared t gs
      pure (.cons n ty rest)
end

mutual
/-- The Arrow type `pyarrow` infers for a single Python value. -/
def inferJ : JVal → Option AType
  | .null => some .anull
  | .bool _ => some .abool
  | .num _ => some .anum
  | .str _ => some .astr
  | .wkb _ => some .abin
  | .dt _ => some (.ats .us none)
  | .arr xs => (inferArr xs).map .alist
  | .obj kvs => (inferObj kvs).map .astruct
/-- Join of the element types of a sequence (`null` when empty). -/
def inferArr : JArr → Option AType
  | .nil => some .anull
  | .cons v t => do
    let tv ← inferJ v
    let tt ← inferArr t
    unify tv tt
def inferObj : JObj → Option AFields
  | .nil => some .nil
  | .cons k v t => do
    let tv ← inferJ v
    let tt ← inferObj t
    pure (.cons k tv tt)
end

/-- Every key of the dict occurs among the struct's fields (conversion at
an explicit type rejects unknown fields). -/
def objKeysSub : JObj → AFields → Bool
  | .nil, _ => true
  | .cons k _ t, fs => fs.hasName k && objKeysSub t fs

/-- Lay out converted cells in the field order of the struct type, with
`null` for fields the dict does not carry. -/
def arrangePairs : AFields → APairs → APairs
  | .nil, _ => .nil
  | .cons n _ rest, cs => .cons n ((cs.get n).getD .cnull) (arrangePairs rest cs)

mutual
/-- Conversion of one Python value to an Arrow cell at a given type
(`pa.array` semantics: `None` is valid at every type, dict keys must be
fields of the struct type, missing struct fields become `null`). -/
def mkCell : AType → JVal → Option ACell
  | _, .null => some .cnull
  | .abool, .bool b => some (.cbool b)
  | .anum, .num q => some (.cnum q)
  | .astr, .str s => some (.cstr s)
  | .abin, .wkb g => some (.cbin g)
  | .ats _ _, .dt t => some (.cts t)
  | .alist e, .arr xs => (mkCells e xs).map .clist
  | .astruct fs, .obj kvs =>
    if objKeysSub kvs fs then
      (mkObjCells kvs fs).map fun cs => .cstruct (arrangePairs fs cs)
    else none
  | _, _ => none
def mkCells : AType → JArr → Option ACells
  | _, .nil => some .nil
  | e, .cons v t => do
    let c ← mkCell e v
    let ct ← mkCells e t
    pure (.cons c ct)
/-- Convert the values of a dict at the types of the same-named struct
fields. -/
def mkObjCells : JObj → AFields → Option APairs
  | .nil, _ => some .nil
  | .cons k v t, fs =>
    match fs.get k with
    | some ty => do
      let c ← mkCell ty v
      let rest ← mkObjCells t fs
      pure (.cons k c rest)
    | none => none
end

mutual
/-- `as_py` of one Arrow cell: structs yield dicts carrying every field
name (a `null` sub-cell yields the key mapped to `None`), binary cells
yield the WKB bytes, timestamp cells yield `datetime` objects. -/
def readCell : ACell → JVal
  | .cnull => .null
  | .cbool b => .bool b
  | .cnum q => .num q
  | .cstr s => .str s
  | .cbin g => .wkb g
  | .cts t => .dt t
  | .clist xs => .arr (readCells xs)
  | .cstruct fs => .obj (readPairs fs)
def readCells : ACells → JArr
  | .nil => .nil
  | .cons c t => .cons (readCell c) (readCells t)
def readPairs : APairs → JObj
  | .nil => .nil
  | .cons n c t => .cons n (readCell c) (readPairs t)
end

mutual
/-- Compatibility of a value with an Arrow type: the domain on which
`mkCell` succeeds. -/
def compat : AType → JVal → Bool
  | _, .null => true
  | .abool, .bool _ => true
  | .anum, .num _ => true
  | .astr, .str _ => true
  | .abin, .wkb _ => true
  | .ats _ _, .dt _ => true
  | .alist e, .arr xs => compatArr e xs
  | .astruct fs, .obj kvs => objKeysSub kvs fs && compatObj kvs fs
  | _, _ => false
def compatArr : AType → JArr → Bool
  | _, .nil => true
  | e, .cons v t => compat e v && compatArr e t
def compatObj : JObj → AFields → Bool
  | .nil, _ => true
  | .cons k v t, fs =>
    (match fs.get k with
     | some ty => compat ty v
     | none => false) && compatObj t fs
end

/-! ## Record batches -/

/-- One record-batch column: its Arrow data type and its cells (one per
row). -/
structure Col where
  ty : AType
  cells : List ACell
  deriving DecidableEq, Repr

/-- A `pyarrow.RecordBatch`: named columns in order.  Arrow schemas allow
duplicate field names, so the name list is not assumed to be duplicate
free. -/
abbrev Batch := List (String × Col)

/-- `batch[name]` / `schema.field(name)`: first column with the name,
`none` standing for the `KeyError` case. -/
def getColumn? (batch : Batch) (name : String) : Option Col :=
  (batch.find? fun p => p.1 == name).map (·.2)

/-- `schema.get_field_index(name)` for a present field (pyarrow returns
`-1` when the name is missing; the claims below only concern batches
where the looked-up field exists, so the missing case is surfaced as
`none`). -/
def get_field_index (batch : Batch) (name : String) : Option Nat :=
  batch.findIdx? fun p => p.1 == name

/-- `batch.set_column(i, name, column)`. -/
def set_column (batch : Batch) (i : Nat) (name : String) (col : Col) : Batch :=
  batch.set i (name, col)

/-- `batch.append_column(field, column)`: appended at the end, duplicate
names permitted. -/
def append_column (batch : Batch) (name : String) (col : Col) : Batch :=
  batch ++ [(name, col)]

/-- `batch.drop_columns([name])` / `table.drop(name)`: removes every
column carrying the name. -/
def drop_columns (batch : Batch) (name : String) : Batch :=
  batch.filter fun p => p.1 ≠ name

/-- Number of rows of a batch (pyarrow keeps all columns the same
length). -/
def nrows (batch : Batch) : Nat :=
  (batch.head?.map fun p => p.2.cells.length).getD 0

def APairs.at? : APairs → Nat → Option ACell
  | .nil, _ => none
  | .cons _ c _, 0 => some c
  | .cons _ _ t, n + 1 => t.at? n

/-- `pc.struct_field(column, idx)` applied to one cell: a `null` struct
row yields `null`. -/
def structProjAt (i : Nat) : ACell → ACell
  | .cstruct ps => (ps.at? i).getD .cnull
  | _ => .cnull

/-! ## Batcher (`_util.batched_iter`) -/

/-- Successive `n`-sized contiguous chunks (`tuple(islice(it, n))` until
exhausted; the final chunk may be short, an empty chunk ends the loop
without being yielded). -/
def chunksOf (n : Nat) : List α → List (List α)
  | [] => []
  | x :: xs => (x :: xs.take (n - 1)) :: chunksOf n (xs.drop (n - 1))
  termination_by l => l.length
  decreasing_by
    simp only [List.length_cons]
    have := List.length_drop (n - 1) xs
    omega

/-- `batched_iter` from `stac_geoparquet/arrow/_util.py`: `n < 1` raises
`ValueError`, otherwise the iterable is yielded in `n`-sized chunks. -/
def batched_iter (lst : List α) (n : Nat) : Except PyErr (List (List α)) :=
  if n < 1 then .error (.valueError "n must be at least one")
  else .ok (chunksOf n lst)

/-- Modelled from the spec: the `limit` keyword of the batcher used by
`json_reader.read_json_chunked` (the `batched_iter` revision under `src/`
lacks the parameter its caller passes).  Per spec §4.2, an optional
global `limit` caps the total number of items yielded. -/
def read_json_chunked (lst : List α) (chunk_size : Nat) (limit : Option Nat) :
    Except PyErr (List (List α)) :=
  batched_iter (match limit with | some l => lst.take l | none => lst) chunk_size

/-! ## Normalisation (`StacJsonBatch.to_arrow_batch`) -/

/-- `_bring_properties_to_top_level` from `_util.py`: append every
subfield of the `properties` struct as a top-level column (extracted by
field index), then drop `properties`.  A missing `properties` column
raises `KeyError`; a non-struct `properties` column has `num_fields == 0`
and contributes nothing. -/
def bring_properties_to_top_level (batch : Batch) : Except PyErr Batch :=
  match getColumn? batch "properties" with
  | none => .error (.keyError "properties")
  | some propCol =>
    let fields := match propCol.ty with
      | .astruct fs => fs
      | _ => .nil
    .ok (drop_columns (batch ++ promoteFields fields 0 propCol.cells) "properties")
where
  promoteFields : AFields → Nat → List ACell → Batch
    | .nil, _, _ => []
    | .cons n ty t, i, cells =>
      (n, ⟨ty, cells.map (structProjAt i)⟩) :: promoteFields t (i + 1) cells

/-- The closed set of timestamp column names from
`_convert_timestamp_columns` (written as a `set` literal in the source;
iteration order does not affect the result because each step only
replaces its own column in place). -/
def timestamp_allowed_column_names : List String :=
  ["datetime", "start_datetime", "end_datetime", "created", "updated",
   "expires", "published", "unpublished"]

/-- `str(t)` of a `pyarrow` scalar, as fed to `ciso8601.parse_rfc3339` by
`_convert_timestamp_column`: a null scalar prints as `"None"`. -/
def scalarStr : ACell → String
  | .cstr s => s
  | .cnull => "None"
  | _ => "<scalar>"

/-- `_convert_timestamp_column` from `_util.py`:
`pa.array([ciso8601.parse_rfc3339(str(t)) for t in column],
pa.timestamp("us", tz="UTC"))`.  Every cell of the column is parsed —
including null cells, whose `str()` form `"None"` makes the parse raise
`ValueError`. -/
def convert_timestamp_column (cells : List ACell) : Except PyErr (List ACell) :=
  cells.mapM fun c => (parse_rfc3339 (scalarStr c)).map .cts

def isTimestampTy : AType → Bool
  | .ats _ _ => true
  | _ => false

/-- The per-column dispatch of `_convert_timestamp_columns`:
timestamp-typed → untouched; null-typed → cast to `pa.timestamp("us")`
(no timezone); string-typed → per-cell RFC-3339 parse into
`pa.timestamp("us", tz="UTC")`; any other type → `ValueError`. -/
def tsStepCol (name : String) (col : Col) : Except PyErr Col :=
  if isTimestampTy col.ty then .ok col
  else if col.ty = .anull then .ok ⟨.ats .us none, col.cells⟩
  else if col.ty = .astr then
    (convert_timestamp_column col.cells).map fun cells =>
      ⟨.ats .us (some "UTC"), cells⟩
  else
    .error (.valueError ("Inferred time column " ++ name ++
      " was expected to be a string or timestamp data type"))

/-- One column step of `_convert_timestamp_columns`: a missing column is
skipped (`KeyError` → `continue`); otherwise the column is dispatched on
its type and replaced in place. -/
def convertTsStep (batch : Batch) (name : String) : Except PyErr Batch :=
  match get_field_index batch name with
  | none => .ok batch
  | some field_index =>
    match batch.get? field_index with
    | none => .ok batch
    | some (_, col) =>
      (tsStepCol name col).map fun col' =>
        set_column batch field_index name col'

/-- `_convert_timestamp_columns` from `_util.py`. -/
def convert_timestamp_columns (batch : Batch) : Except PyErr Batch :=
  timestamp_allowed_column_names.foldlM convertTsStep batch

/-- Length contributed by one bbox cell to the list-offset differences
(`offsets[1:] - offsets[:-1]`): a null list slot repeats the previous
offset, contributing `0`. -/
def cellLen : ACell → Nat
  | .clist xs => xs.toList.length
  | _ => 0

def isListTy : AType → Bool
  | .alist _ => true
  | _ => false

/-- `_is_bbox_3d` from `_util.py`: collect the distinct list lengths; more
than one distinct length raises the mixed-dimension `ValueError`; a single
length of 6 or 4 answers 3-d or 2-d; any other single length raises
`ValueError`; an empty batch leaves the set empty and `list(...)[0]`
raises `IndexError`. -/
def is_bbox_3d (col : Col) : Except PyErr Bool :=
  if !isListTy col.ty then
    .error (.attributeError "offsets")
  else
    let offsets_set := (col.cells.map cellLen).dedup
    if offsets_set.length > 1 then
      .error (.valueError "Mixed 2d-3d bounding boxes not yet supported")
    else
      match offsets_set with
      | [] => .error .indexError
      | offset :: _ =>
        if offset = 6 then .ok true
        else if offset = 4 then .ok false
        else .error (.valueError "Unexpected bbox offset")

def cellNum? : ACell → Except PyErr ℚ
  | .cnum q => .ok q
  | _ => .error (.arrowInvalid "to_numpy on a non-numeric or null value")

def zipPairs : List String → List ℚ → APairs
  | n :: ns, q :: qs => .cons n (.cnum q) (zipPairs ns qs)
  | _, _ => .nil

def numFieldsOf : List String → AFields
  | [] => .nil
  | n :: ns => .cons n .anum (numFieldsOf ns)

/-- Modelled from the spec (§4.5 step 3): `convert_bbox_to_struct` as
called by `StacJsonBatch.to_arrow_batch` — flatten the bbox list column
into an `(n, 4)` or `(n, 6)` matrix and rebuild it as a struct column
with the canonical field order.  The nearby revision kept under `src/`
(`_util._convert_bbox_to_struct`) is identical except for an optional
float32 `downcast` knob that the `StacJsonBatch` pipeline does not use
(the spec's round-trip is exact, so no narrowing happens here). -/
def convert_bbox_to_struct (batch : Batch) : Except PyErr Batch :=
  match get_field_index batch "bbox" with
  | none => .error (.keyError "bbox")
  | some i =>
    match batch.get? i with
    | none => .error (.keyError "bbox")
    | some (_, col) => do
      let bbox_3d ← is_bbox_3d col
      if !isListTy col.ty then
        .error (.assertionError "bbox column must be a list type")
      else do
        let names := if bbox_3d then ["xmin", "ymin", "zmin", "xmax", "ymax", "zmax"]
                     else ["xmin", "ymin", "xmax", "ymax"]
        let rows ← col.cells.mapM fun c =>
          match c with
          | .clist xs => xs.toList.mapM cellNum?
          | _ => .error (.arrowInvalid "to_numpy on a null bbox row")
        let structCells := rows.map fun qs => ACell.cstruct (zipPairs names qs)
        pure (set_column batch i "bbox" ⟨.astruct (numFieldsOf names), structCells⟩)

/-- `_assign_geoarrow_metadata`: re-sets the `geometry` column with
`ARROW:extension:name = geoarrow.wkb` and the WGS-84 CRS on the field
metadata.  Field metadata is not part of the value-level model, so the
columns are unchanged; the `geometry` field lookup is kept. -/
def assign_geoarrow_metadata (batch : Batch) : Except PyErr Batch :=
  match get_field_index batch "geometry" with
  | none => .error (.keyError "geometry")
  | some _ => .ok batch

/-- `StacJsonBatch.to_arrow_batch` from `_batch.py`: promote properties,
type the timestamp columns, convert bbox to a struct, attach GeoArrow
metadata. -/
def to_arrow_batch (batch : Batch) : Except PyErr Batch := do
  let b1 ← bring_properties_to_top_level batch
  let b2 ← convert_timestamp_columns b1
  let b3 ← convert_bbox_to_struct b2
  assign_geoarrow_metadata b3

/-! ## Denormalisation (`StacArrowBatch.to_json_batch`) -/

/-- `pc.strftime(column, format="%Y-%m-%dT%H:%M:%SZ")`: only defined on
timestamp columns; null cells stay null. -/
def strftime_col (col : Col) : Except PyErr Col :=
  match col.ty with
  | .ats _ _ => do
    let cells ← col.cells.mapM fun c =>
      match c with
      | .cnull => Except.ok ACell.cnull
      | .cts t => Except.ok (ACell.cstr (strftime_iso t))
      | _ => Except.error (PyErr.arrowInvalid "strftime on a non-timestamp cell")
    pure ⟨.astr, cells⟩
  | _ => .error (.arrowInvalid "strftime: no kernel for this type")

/-- One column step of `_convert_timestamp_columns_to_string` from
`_from_arrow.py`: `table.drop(name).append_column(name, pc.strftime(col))`
— the stringified column moves to the end. -/
def convertTsToStringStep (batch : Batch) (name : String) : Except PyErr Batch :=
  match getColumn? batch name with
  | none => .ok batch
  | some col =>
    (strftime_col col).map fun col' =>
      append_column (drop_columns batch name) name col'

/-- `_convert_timestamp_columns_to_string` from `_from_arrow.py`. -/
def convert_timestamp_columns_to_string (batch : Batch) : Except PyErr Batch :=
  timestamp_allowed_column_names.foldlM convertTsToStringStep batch

/-- The canonical STAC top-level keys from
`_lower_properties_from_top_level` (a `set` literal in the source). -/
def stac_top_level_keys : List String :=
  ["stac_version", "stac_extensions", "type", "id", "bbox", "geometry",
   "collection", "links", "assets"]

def fieldsOfCols : List (String × Col) → AFields
  | [] => .nil
  | (n, c) :: t => .cons n c.ty (fieldsOfCols t)

def pairsOfColsAt (i : Nat) : List (String × Col) → APairs
  | [] => .nil
  | (n, c) :: t => .cons n ((c.cells.get? i).getD .cnull) (pairsOfColsAt i t)

/-- `_lower_properties_from_top_level` from `_from_arrow.py`: every column
whose name is not a canonical STAC top-level key is moved into a new
`properties` struct column appended at the end.
`pa.StructArray.from_arrays([], fields=[])` builds a length-0 array, so a
batch with rows but no property columns fails the `append_column` length
check. -/
def lower_properties_from_top_level (batch : Batch) : Except PyErr Batch :=
  let props := batch.filter fun p => p.1 ∉ stac_top_level_keys
  let keep := batch.filter fun p => p.1 ∈ stac_top_level_keys
  let n := nrows batch
  if props.isEmpty && n > 0 then
    .error (.arrowInvalid "added column's length must match the table's length")
  else
    .ok (append_column keep "properties"
      ⟨.astruct (fieldsOfCols props), (List.range n).map fun i =>
        ACell.cstruct (pairsOfColsAt i props)⟩)

/-- Read one numeric bbox struct member (`chunk.field(name)` followed by
`to_numpy`). -/
def bboxStructFieldNum (c : ACell) (name : String) : Except PyErr ℚ :=
  match c with
  | .cstruct ps =>
    match ps.get name with
    | some (.cnum q) => .ok q
    | some _ => .error (.arrowInvalid "to_numpy on a non-numeric bbox field")
    | none => .error (.keyError name)
  | _ => .error (.arrowInvalid "to_numpy on a null bbox row")

/-- `_convert_bbox_to_array` from `_from_arrow.py`: rebuild the 4- or
6-element fixed-size list column from the struct members (a fixed-size
list reads back exactly like a list, so a single list former models
both). -/
def convert_bbox_to_array (batch : Batch) : Except PyErr Batch :=
  match get_field_index batch "bbox" with
  | none => .error (.keyError "bbox")
  | some i =>
    match batch.get? i with
    | none => .error (.keyError "bbox")
    | some (_, col) =>
      match col.ty with
      | .astruct fs =>
        let names :=
          if fs.names.length = 4 then some ["xmin", "ymin", "xmax", "ymax"]
          else if fs.names.length = 6 then
            some ["xmin", "ymin", "zmin", "xmax", "ymax", "zmax"]
          else none
        match names with
        | none => .error (.valueError "Expected 4 or 6 fields in bbox struct.")
        | some names => do
          let cells ← col.cells.mapM fun c => do
            let qs ← names.mapM (bboxStructFieldNum c)
            pure (ACell.clist (listCells qs))
          pure (set_column batch i "bbox" ⟨.alist .anum, cells⟩)
      | _ => .error (.assertionError "bbox column must be a struct type")
where
  listCells : List ℚ → ACells
    | [] => .nil
    | q :: qs => .cons (.cnum q) (listCells qs)

/-- `StacArrowBatch.to_json_batch` from `_batch.py`: stringify timestamps,
re-nest properties, rebuild the bbox list. -/
def to_json_batch (batch : Batch) : Except PyErr Batch := do
  let b1 ← convert_timestamp_columns_to_string batch
  let b2 ← lower_properties_from_top_level b1
  convert_bbox_to_array b2

/-! ## Encoding (`StacJsonBatch.from_dicts`) -/

/-- WKB conversion of the `proj:geometry` member of the asset values
(`for asset_value in wkb_item["assets"].values()`).  A non-mapping asset
value makes the `in` test fail with `TypeError` (except for strings,
where Python `in` is a substring test that leaves the value alone). -/
def wkbAssets : JObj → Except PyErr JObj
  | .nil => .ok .nil
  | .cons k v t => do
    let v' ←
      match v with
      | .obj akvs =>
        match akvs.get "proj:geometry" with
        | some pg => do
          let g ← shape pg
          pure (JVal.obj (akvs.set "proj:geometry" (.wkb (to_wkb g))))
        | none => pure (JVal.obj akvs)
      | .str s => pure (JVal.str s)
      | _ => .error (.typeError "argument of type is not iterable")
    let t' ← wkbAssets t
    pure (.cons k v' t')

/-- The per-item preprocessing of `StacJsonBatch.from_dicts` (on a deep
copy): `geometry`, `properties["proj:geometry"]` (when present) and each
asset's `proj:geometry` (when present) are replaced by their ISO-flavor
WKB. -/
def wkb_preprocess (item : JVal) : Except PyErr JVal := do
  match item with
  | .obj kvs => do
    let geomv ←
      match kvs.get "geometry" with
      | some g => pure g
      | none => Except.error (PyErr.keyError "geometry")
    let g ← shape geomv
    let kvs1 := kvs.set "geometry" (.wkb (to_wkb g))
    let props ←
      match kvs1.get "properties" with
      | some p => pure p
      | none => Except.error (PyErr.keyError "properties")
    let kvs2 ←
      match props with
      | .obj pkvs =>
        match pkvs.get "proj:geometry" with
        | some pg => do
          let g2 ← shape pg
          pure (kvs1.set "properties"
            (.obj (pkvs.set "proj:geometry" (.wkb (to_wkb g2)))))
        | none => pure kvs1
      | .str _ => pure kvs1
      | _ => Except.error (PyErr.typeError "argument of type is not iterable")
    let assets ←
      match kvs2.get "assets" with
      | some a => pure a
      | none => Except.error (PyErr.keyError "assets")
    match assets with
    | .obj akvs => do
      let akvs' ← wkbAssets akvs
      pure (JVal.obj (kvs2.set "assets" (.obj akvs')))
    | _ => Except.error (PyErr.attributeError "object has no attribute values")
  | _ => .error (.typeError "item is not a mapping")

/-- The common Arrow type `pa.array(wkb_items)` infers across the items
(join of the per-item types; `null` when the list is empty). -/
def inferItems (items : List JVal) : Except PyErr AType := do
  let tys ← items.mapM fun v =>
    match inferJ v with
    | some t => Except.ok t
    | none => Except.error (PyErr.arrowInvalid "cannot infer a common type")
  tys.foldlM (fun acc t =>
    match unify acc t with
    | some u => Except.ok u
    | none => Except.error (PyErr.arrowInvalid "cannot mix incompatible values"))
    AType.anull

/-- `pa.RecordBatch.from_struct_array`: one column per struct field, each
row's cell projected out by field position. -/
def from_struct_array (ty : AType) (rows : List ACell) : Except PyErr Batch :=
  match ty with
  | .astruct fs => .ok (columnsOfAux fs 0 rows)
  | _ => .error (.arrowInvalid "from_struct_array expects a struct array")
where
  columnsOfAux : AFields → Nat → List ACell → Batch
    | .nil, _, _ => []
    | .cons n fty t, i, rows =>
      (n, ⟨fty, rows.map (structProjAt i)⟩) :: columnsOfAux t (i + 1) rows

/-- `StacJsonBatch.from_dicts` from `_batch.py` with no explicit schema:
WKB-preprocess every item, infer the common struct type, build the struct
array and split it into a record batch. -/
def from_dicts (items : List JVal) : Except PyErr Batch := do
  let wkb_items ← items.mapM wkb_preprocess
  let ty ← inferItems wkb_items
  let rows ← wkb_items.mapM fun v =>
    match mkCell ty v with
    | some c => Except.ok c
    | none => Except.error (PyErr.arrowInvalid "conversion failed")
  from_struct_array ty rows

/-- `stac_items_to_arrow` (as in `_api.py` and `_util.py`): encode the
items and normalise the batch to the STAC-GeoParquet layout. -/
def stac_items_to_arrow (items : List JVal) : Except PyErr Batch := do
  let raw ← from_dicts items
  to_arrow_batch raw

/-! ## Decoding (`StacJsonBatch.iter_dicts`) -/

/-- Asset-level geometry paths: `assets.<k>.proj:geometry` for every
asset field whose struct carries a `proj:geometry` child. -/
def assetGeomPaths : AFields → List (List String)
  | .nil => []
  | .cons n ty t =>
    (match ty with
     | .astruct fs =>
       if fs.hasName "proj:geometry" then [["assets", n, "proj:geometry"]] else []
     | _ => []) ++ assetGeomPaths t

/-- The geometry paths `iter_dicts` discovers from the schema: the
primary `geometry`, `properties.proj:geometry` when the properties struct
carries it (`KeyError` is caught, so a missing column or child is
skipped), and each `assets.<k>.proj:geometry`.  The `assets` field lookup
is not guarded, so a batch without an `assets` column raises
`KeyError`. -/
def geometry_paths (batch : Batch) : Except PyErr (List (List String)) := do
  let propPaths :=
    match getColumn? batch "properties" with
    | some col =>
      match col.ty with
      | .astruct fs =>
        if fs.hasName "proj:geometry" then [["properties", "proj:geometry"]]
        else []
      | _ => []
    | none => []
  let assetsCol ←
    match getColumn? batch "assets" with
    | some c => pure c
    | none => Except.error (PyErr.keyError "assets")
  let assetPaths :=
    match assetsCol.ty with
    | .astruct fs => assetGeomPaths fs
    | _ => []
  pure ([["geometry"]] ++ propPaths ++ assetPaths)

/-- Walk one path segment below a column (`pc.struct_field(col, seg)` by
name): a null struct row yields null, and the batch is only well typed
when the segment exists in the struct type. -/
def struct_field_seg (ty : AType) (cells : List ACell) (seg : String) :
    Except PyErr (AType × List ACell) :=
  match ty with
  | .astruct fs =>
    match fs.get seg with
    | some segTy => do
      let cells' ← cells.mapM fun c =>
        match c with
        | .cstruct ps => Except.ok ((ps.get seg).getD .cnull)
        | .cnull => Except.ok ACell.cnull
        | _ => Except.error (PyErr.typeError "struct_field on a non-struct cell")
      pure (segTy, cells')
    | none => .error (.keyError seg)
  | _ => .error (.assertionError "unexpected type")

/-- Resolve a geometry path to its column of cells. -/
def resolve_path (batch : Batch) : List String → Except PyErr (List ACell)
  | [] => .error .indexError
  | name :: rest => do
    let col ←
      match getColumn? batch name with
      | some c => pure c
      | none => Except.error (PyErr.keyError name)
    let r ← rest.foldlM (fun acc seg => struct_field_seg acc.1 acc.2 seg)
      (col.ty, col.cells)
    pure r.2

/-- `shapely.from_wkb` over one column: null slots stay missing
(`None`). -/
def from_wkb_col (cells : List ACell) : Except PyErr (List (Option Geom)) :=
  cells.mapM fun c =>
    match c with
    | .cbin g => Except.ok (some (from_wkb g))
    | .cnull => Except.ok none
    | _ => Except.error (PyErr.typeError "from_wkb expects bytes")

/-- `set_by_path` from `_from_arrow.py`
(`get_by_path(root, items[:-1])[items[-1]] = value`). -/
def set_by_path (root : JVal) (path : List String) (v : JVal) :
    Except PyErr JVal :=
  match path with
  | [] => .error .indexError
  | [k] =>
    match root with
    | .obj kvs => .ok (.obj (kvs.set k v))
    | .null => .error (.typeError "NoneType does not support item assignment")
    | _ => .error (.typeError "object does not support item assignment")
  | k :: rest =>
    match root with
    | .obj kvs =>
      match kvs.get k with
      | some inner => do
        let inner' ← set_by_path inner rest v
        pure (JVal.obj (kvs.set k inner'))
      | none => .error (.keyError k)
    | .null => .error (.typeError "NoneType is not subscriptable")
    | _ => .error (.typeError "object is not subscriptable")

/-- `batch.to_struct_array()[i].as_py()`: the row as a dict over all
columns. -/
def rowDict (batch : Batch) (i : Nat) : JVal :=
  .obj (rowPairs batch i)
where
  rowPairs : Batch → Nat → JObj
    | [], _ => .nil
    | (n, col) :: t, i =>
      .cons n (readCell ((col.cells.get? i).getD .cnull)) (rowPairs t i)

/-- Substitute each decoded geometry into one materialised row:
`geometry_column[row_idx].__geo_interface__` raises `AttributeError` when
the slot is null (`shapely.from_wkb` mapped it to `None`). -/
def substitute_geoms (row : JVal)
    (pgs : List (List String × List (Option Geom))) (i : Nat) :
    Except PyErr JVal :=
  pgs.foldlM (fun acc pg =>
    match pg.2.get? i with
    | some (some g) => set_by_path acc pg.1 (geo_interface g)
    | some none =>
      .error (.attributeError "NoneType object has no attribute geo_interface")
    | none => .error .indexError) row

/-- `StacJsonBatch.iter_dicts` from `_batch.py`: discover the geometry
paths, decode each geometry column with `shapely.from_wkb`, then
materialise every row as a dict and substitute the GeoJSON geometries at
their paths. -/
def iter_dicts (batch : Batch) : Except PyErr (List JVal) := do
  let paths ← geometry_paths batch
  let geometries ← paths.mapM fun p => do
    let cells ← resolve_path batch p
    from_wkb_col cells
  (List.range (nrows batch)).mapM fun i =>
    substitute_geoms (rowDict batch i) (paths.zip geometries) i

/-- The full item → columnar → item pipeline of the round-trip claim:
`StacJsonBatch.from_dicts`, `to_arrow_batch`, `to_json_batch`,
`iter_dicts`. -/
def round_trip (items : List JVal) : Except PyErr (List JVal) := do
  let raw ← from_dicts items
  let norm ← to_arrow_batch raw
  let json ← to_json_batch norm
  iter_dicts json

/-! ## GeoParquet metadata (`_to_parquet.py`) -/

/-- The WGS-84 PROJJSON document from `stac_geoparquet/arrow/_crs.py`,
abbreviated to its identifying EPSG reference (the claims only compare
this constant for identity). -/
def WGS84_CRS_JSON : JVal :=
  .obj (.cons "id" (.obj (.cons "authority" (.str "EPSG")
    (.cons "code" (.num 4326) .nil))) .nil)

/-- The two members of `SUPPORTED_PARQUET_SCHEMA_VERSIONS`. -/
def supported_parquet_schema_versions : List String := ["1.0.0", "1.1.0"]

/-- `str.split(sep)` on a one-character separator. -/
def splitChars (sep : Char) : List Char → List (List Char)
  | [] => [[]]
  | c :: cs =>
    if c = sep then [] :: splitChars sep cs
    else
      match splitChars sep cs with
      | h :: t => (c :: h) :: t
      | [] => [[c]]

/-- `int(digits)` on a digit run (the version literals' components). -/
def intOfChars (cs : List Char) : Nat :=
  cs.foldl (fun acc c => 10 * acc + ((dval c).getD 0)) 0

/-- `schema_version_has_bbox_mapping` from `_to_parquet.py`:
`int(schema_version.split(".")[1]) >= 1`.  On the supported version
literals the split always yields three components and the parse succeeds,
so the partial steps are collapsed. -/
def schema_version_has_bbox_mapping (schema_version : String) : Bool :=
  intOfChars ((splitChars '.' schema_version.data).getD 1 []) ≥ 1

/-- The version's minor component, as the claim phrases it. -/
def version_minor (schema_version : String) : Nat :=
  intOfChars ((splitChars '.' schema_version.data).getD 1 [])

/-- `create_parquet_metadata` from `_to_parquet.py`, restricted to the
`geo` document the claims inspect (the `stac-geoparquet` sibling document
carries no geometry metadata).  Takes the schema's field names and the
version string. -/
def create_parquet_metadata (schema_names : List String)
    (schema_version : String) : JVal :=
  let column_meta : JObj :=
    .cons "encoding" (.str "WKB")
      (.cons "geometry_types" (.arr .nil)
        (.cons "crs" WGS84_CRS_JSON
          (.cons "edges" (.str "planar") .nil)))
  let column_meta :=
    if schema_version_has_bbox_mapping schema_version then
      column_meta.set "covering" (.obj
        (.cons "bbox" (.obj
          (.cons "xmin" (.arr (.cons (.str "bbox") (.cons (.str "xmin") .nil)))
            (.cons "ymin" (.arr (.cons (.str "bbox") (.cons (.str "ymin") .nil)))
              (.cons "xmax" (.arr (.cons (.str "bbox") (.cons (.str "xmax") .nil)))
                (.cons "ymax" (.arr (.cons (.str "bbox") (.cons (.str "ymax") .nil)))
                  .nil))))) .nil))
    else column_meta
  let columns : JObj := .cons "geometry" (.obj column_meta) .nil
  let columns :=
    if schema_names.contains "proj:geometry" then
      columns.set "proj:geometry" (.obj
        (.cons "encoding" (.str "WKB")
          (.cons "geometry_types" (.arr .nil)
            (.cons "crs" .null .nil))))
    else columns
  .obj (.cons "version" (.str schema_version)
    (.cons "columns" (.obj columns)
      (.cons "primary_column" (.str "geometry") .nil)))

/-- Member access `doc[key]` on a JSON document. -/
def jget (v : JVal) (key : String) : Option JVal :=
  match v with
  | .obj kvs => kvs.get key
  | _ => none

/-! ## Properties of the batcher (claim C4) -/

theorem chunksOf_join {α : Type} (n : Nat) (l : List α) :
    (chunksOf n l).flatten = l := by
  induction l using chunksOf.induct n with
  | case1 => simp [chunksOf]
  | case2 x xs ih =>
    rw [chunksOf]
    simp only [List.flatten_cons, ih, List.cons_append]
    rw [List.take_append_drop]

theorem chunksOf_ne_nil {α : Type} (n : Nat) (l : List α) :
    ∀ b ∈ chunksOf n l, b ≠ [] := by
  induction l using chunksOf.induct n with
  | case1 => simp [chunksOf]
  | case2 x xs ih =>
    rw [chunksOf]
    intro b hb
    rcases List.mem_cons.mp hb with h | h
    · subst h; simp
    · exact ih b h

theorem chunksOf_length_le {α : Type} (n : Nat) (hn : 1 ≤ n) (l : List α) :
    ∀ b ∈ chunksOf n l, b.length ≤ n := by
  induction l using chunksOf.induct n with
  | case1 => simp [chunksOf]
  | case2 x xs ih =>
    rw [chunksOf]
    intro b hb
    rcases List.mem_cons.mp hb with h | h
    · subst h
      simp only [List.length_cons]
      have := List.length_take_le (n - 1) xs
      omega
    · exact ih b h

theorem chunksOf_dropLast_length {α : Type} (n : Nat) (hn : 1 ≤ n)
    (l : List α) : ∀ b ∈ (chunksOf n l).dropLast, b.length = n := by
  induction l using chunksOf.induct n with
  | case1 => simp [chunksOf]
  | case2 x xs ih =>
    rw [chunksOf]
    intro b hb
    by_cases hrest : xs.drop (n - 1) = []
    · rw [hrest] at hb
      simp [chunksOf] at hb
    · have hne : chunksOf n (xs.drop (n - 1)) ≠ [] := by
        cases hd : xs.drop (n - 1) with
        | nil => exact absurd hd hrest
        | cons y ys => simp [chunksOf]
      rw [List.dropLast_cons_of_ne_nil hne] at hb
      rcases List.mem_cons.mp hb with h | h
      · subst h
        have hlen : n - 1 ≤ xs.length := by
          by_contra hgt
          exact hrest (List.drop_eq_nil_of_le (by omega))
        simp only [List.length_cons, List.length_take]
        omega
      · exact ih b h

/-- Claim C4: for every input, every batch size and every optional limit,
the batcher yields contiguous batches of exactly `n` items except for a
possibly shorter final batch, never yields an empty batch, yields at most
`limit` items in total when a limit is given (their concatenation is
exactly the limited prefix of the input), and raises `ValueError` when
`n < 1`. -/
theorem batched_iter_correct {α : Type} (lst : List α) (n : Nat)
    (limit : Option Nat) (hn : 1 ≤ n) :
    (∃ bs, read_json_chunked lst n limit = .ok bs ∧
      bs.flatten = (match limit with | some l => lst.take l | none => lst) ∧
      (∀ b ∈ bs, b ≠ []) ∧
      (∀ b ∈ bs.dropLast, b.length = n) ∧
      (∀ b ∈ bs, b.length ≤ n)) ∧
    (∀ m : Nat, m < 1 →
      read_json_chunked lst m limit = .error (.valueError "n must be at least one")) := by
  constructor
  · refine ⟨chunksOf n (match limit with | some l => lst.take l | none => lst),
      ?_, ?_, ?_, ?_, ?_⟩
    · simp [read_json_chunked, batched_iter, Nat.not_lt.mpr hn]
    · exact chunksOf_join n _
    · exact chunksOf_ne_nil n _
    · exact chunksOf_dropLast_length n hn _
    · exact chunksOf_length_le n hn _
  · intro m hm
    simp [read_json_chunked, batched_iter, hm]

/-- Witness for C4 at a concrete input: chunking five items by two under a
limit of four yields `[[a, b], [c, d]]`. -/
theorem batched_iter_correct_witness :
    1 ≤ 2 ∧
    read_json_chunked [10, 20, 30, 40, 50] 2 (some 4) = .ok [[10, 20], [30, 40]] := by
  refine ⟨by decide, ?_⟩
  obtain ⟨⟨bs, hok, hjoin, _, _, _⟩, _⟩ :=
    batched_iter_correct [10, 20, 30, 40, 50] 2 (some 4) (by decide)
  rw [hok]
  have h2 : chunksOf 2 [10, 20, 30, 40] = bs := by
    simpa [read_json_chunked, batched_iter] using hok
  rw [← h2]
  simp [chunksOf]

/-! ## GeoParquet metadata content (claim C7) -/

def jget2 (v : JVal) (k1 k2 : String) : Option JVal :=
  (jget v k1).bind fun w => jget w k2

def jget3 (v : JVal) (k1 k2 k3 : String) : Option JVal :=
  (jget2 v k1 k2).bind fun w => jget w k3

/-- The covering document claimed for version ≥ 1.1: `bbox` pointing at
the bbox struct's `xmin`/`ymin`/`xmax`/`ymax` members. -/
def bboxCoveringDoc : JVal :=
  .obj (.cons "bbox" (.obj
    (.cons "xmin" (.arr (.cons (.str "bbox") (.cons (.str "xmin") .nil)))
      (.cons "ymin" (.arr (.cons (.str "bbox") (.cons (.str "ymin") .nil)))
        (.cons "xmax" (.arr (.cons (.str "bbox") (.cons (.str "xmax") .nil)))
          (.cons "ymax" (.arr (.cons (.str "bbox") (.cons (.str "ymax") .nil)))
            .nil))))) .nil)

/-- Claim C7: for every schema and every supported GeoParquet version, the
written `geo` metadata has `primary_column == "geometry"` and a geometry
column entry with WKB encoding, empty geometry types, the WGS-84 CRS and
planar edges; a `proj:geometry` column in the schema yields a second WKB
entry with null CRS and no covering; and exactly when the version's minor
component is at least 1, `columns.geometry.covering` maps `bbox` onto the
bbox struct's members. -/
theorem create_parquet_metadata_correct (schema_names : List String)
    (v : String) (hv : v ∈ supported_parquet_schema_versions) :
    jget (create_parquet_metadata schema_names v) "primary_column" =
      some (.str "geometry") ∧
    jget3 (create_parquet_metadata schema_names v) "columns" "geometry"
      "encoding" = some (.str "WKB") ∧
    jget3 (create_parquet_metadata schema_names v) "columns" "geometry"
      "geometry_types" = some (.arr .nil) ∧
    jget3 (create_parquet_metadata schema_names v) "columns" "geometry"
      "crs" = some WGS84_CRS_JSON ∧
    jget3 (create_parquet_metadata schema_names v) "columns" "geometry"
      "edges" = some (.str "planar") ∧
    ((jget3 (create_parquet_metadata schema_names v) "columns" "geometry"
      "covering").isSome = true ↔ 1 ≤ version_minor v) ∧
    (1 ≤ version_minor v →
      jget3 (create_parquet_metadata schema_names v) "columns" "geometry"
        "covering" = some bboxCoveringDoc) ∧
    (schema_names.contains "proj:geometry" = true →
      jget3 (create_parquet_metadata schema_names v) "columns" "proj:geometry"
        "encoding" = some (.str "WKB") ∧
      jget3 (create_parquet_metadata schema_names v) "columns" "proj:geometry"
        "geometry_types" = some (.arr .nil) ∧
      jget3 (create_parquet_metadata schema_names v) "columns" "proj:geometry"
        "crs" = some .null ∧
      jget3 (create_parquet_metadata schema_names v) "columns" "proj:geometry"
        "covering" = none) ∧
    (schema_names.contains "proj:geometry" = false →
      jget2 (create_parquet_metadata schema_names v) "columns" "proj:geometry"
        = none) := by
  simp only [supported_parquet_schema_versions, List.mem_cons,
    List.not_mem_nil, or_false] at hv
  rcases hv with rfl | rfl <;>
    by_cases hp : "proj:geometry" ∈ schema_names <;>
      simp [create_parquet_metadata, jget, jget2, jget3, JObj.get, JObj.set,
        version_minor, schema_version_has_bbox_mapping, splitChars,
        intOfChars, dval, bboxCoveringDoc, List.elem_iff,
        decide_eq_true_eq, hp]

/-- Witness for C7 at a concrete schema (with `proj:geometry`) and the
version `1.1.0`. -/
theorem create_parquet_metadata_correct_witness :
    "1.1.0" ∈ supported_parquet_schema_versions ∧
    jget (create_parquet_metadata ["geometry", "proj:geometry"] "1.1.0")
      "primary_column" = some (.str "geometry") :=
  ⟨by decide,
   (create_parquet_metadata_correct ["geometry", "proj:geometry"] "1.1.0"
     (by decide)).1⟩

/-! ## Bbox conversion (claim C8) -/

theorem error_bind {α β : Type} (e : PyErr) (f : α → Except PyErr β) :
    (Except.error e >>= f : Except PyErr β) = .error e := rfl

theorem ok_bind {α β : Type} (a : α) (f : α → Except PyErr β) :
    (Except.ok a >>= f : Except PyErr β) = f a := rfl

theorem isOk_error {α : Type} (e : PyErr) :
    (Except.error e : Except PyErr α).isOk = false := rfl

theorem isOk_ok {α : Type} (a : α) :
    (Except.ok a : Except PyErr α).isOk = true := rfl

theorem map_ok {α β : Type} (f : α → β) (a : α) :
    (f <$> (Except.ok a : Except PyErr α)) = .ok (f a) := rfl

theorem mapM_ok_of_forall {α β : Type} (f : α → Except PyErr β) :
    ∀ l : List α, (∀ x ∈ l, ∃ y, f x = .ok y) → ∃ ys, l.mapM f = .ok ys
  | [], _ => ⟨[], rfl⟩
  | x :: t, h => by
    obtain ⟨y, hy⟩ := h x (by simp)
    obtain ⟨ys, hys⟩ :=
      mapM_ok_of_forall f t (fun z hz => h z (by simp [hz]))
    exact ⟨y :: ys, by rw [List.mapM_cons, hy, ok_bind, hys]; rfl⟩

/-- The rationals of an all-numeric cell sequence. -/
def ratsOfCells : ACells → Option (List ℚ)
  | .nil => some []
  | .cons (.cnum q) t => (ratsOfCells t).map (q :: ·)
  | .cons _ _ => none

/-- A bbox entry that is a list of numbers, as the data model requires. -/
def cellRats? : ACell → Option (List ℚ)
  | .clist xs => ratsOfCells xs
  | _ => none

theorem ratsOfCells_len : ∀ (xs : ACells) (qs : List ℚ),
    ratsOfCells xs = some qs → xs.toList.length = qs.length
  | .nil, qs, h => by
    simp only [ratsOfCells, Option.some.injEq] at h
    subst h
    rfl
  | .cons (.cnum q) t, qs, h => by
    simp only [ratsOfCells, Option.map_eq_some'] at h
    obtain ⟨qs', hqs', rfl⟩ := h
    simp [ACells.toList, ratsOfCells_len t qs' hqs']
  | .cons .cnull _, _, h => by simp [ratsOfCells] at h
  | .cons (.cbool _) _, _, h => by simp [ratsOfCells] at h
  | .cons (.cstr _) _, _, h => by simp [ratsOfCells] at h
  | .cons (.cbin _) _, _, h => by simp [ratsOfCells] at h
  | .cons (.cts _) _, _, h => by simp [ratsOfCells] at h
  | .cons (.clist _) _, _, h => by simp [ratsOfCells] at h
  | .cons (.cstruct _) _, _, h => by simp [ratsOfCells] at h

theorem cellRats_len (c : ACell) (qs : List ℚ) (h : cellRats? c = some qs) :
    cellLen c = qs.length := by
  match c with
  | .clist xs =>
    simp only [cellRats?] at h
    simp only [cellLen]
    exact ratsOfCells_len xs qs h
  | .cnull | .cbool _ | .cnum _ | .cstr _ | .cbin _ | .cts _ | .cstruct _ =>
    simp [cellRats?] at h

/-- An all-numeric cell sequence survives `to_numpy` (`cellNum?`). -/
theorem ratsOfCells_mapM : ∀ (xs : ACells) (qs : List ℚ),
    ratsOfCells xs = some qs → xs.toList.mapM cellNum? = .ok qs
  | .nil, qs, h => by
    simp only [ratsOfCells, Option.some.injEq] at h
    subst h
    rfl
  | .cons (.cnum q) t, qs, h => by
    simp only [ratsOfCells, Option.map_eq_some'] at h
    obtain ⟨qs', hqs', rfl⟩ := h
    have ih := ratsOfCells_mapM t qs' hqs'
    simp only [ACells.toList, List.mapM_cons, ih, cellNum?, ok_bind]
    rfl
  | .cons .cnull _, _, h => by simp [ratsOfCells] at h
  | .cons (.cbool _) _, _, h => by simp [ratsOfCells] at h
  | .cons (.cstr _) _, _, h => by simp [ratsOfCells] at h
  | .cons (.cbin _) _, _, h => by simp [ratsOfCells] at h
  | .cons (.cts _) _, _, h => by simp [ratsOfCells] at h
  | .cons (.clist _) _, _, h => by simp [ratsOfCells] at h
  | .cons (.cstruct _) _, _, h => by simp [ratsOfCells] at h

theorem dedup_eq_singleton_iff (l : List Nat) (a : Nat) :
    l.dedup = [a] ↔ l ≠ [] ∧ ∀ x ∈ l, x = a := by
  constructor
  · intro h
    constructor
    · intro hl; subst hl; simp at h
    · intro x hx
      have := List.mem_dedup.mpr hx
      rw [h] at this
      simpa using this
  · rintro ⟨hne, hall⟩
    induction l with
    | nil => exact absurd rfl hne
    | cons x t ih =>
      have hx : x = a := hall x (by simp)
      subst hx
      by_cases ht : t = []
      · subst ht; simp
      · have := ih ht (fun y hy => hall y (by simp [hy]))
        rw [List.dedup_cons_of_mem, this]
        rw [List.mem_dedup.symm, this]
        simp

/-- Claim C8 as stated is refuted by the empty batch: all of its bbox
entries (vacuously) share a common length in `{4, 6}`, yet the conversion
fails (`list(offsets_set)[0]` raises `IndexError`), where the claim
demands success. -/
theorem convert_bbox_to_struct_empty_cx :
    (convert_bbox_to_struct [("bbox", ⟨.alist .anum, []⟩)]).isOk = false ∧
    (∃ L, (L = 4 ∨ L = 6) ∧
      ∀ c ∈ (⟨.alist .anum, []⟩ : Col).cells,
        ∃ qs, cellRats? c = some qs ∧ qs.length = L) := by
  refine ⟨by decide, 4, Or.inl rfl, ?_⟩
  intro c hc
  simp at hc

/-- Claim C8, amended for the empty batch: on a list-typed bbox column
whose entries are numeric lists or nulls, the conversion succeeds exactly
when the batch is nonempty and all entries are numeric lists of one
common length in `{4, 6}` (so mixed dimensions, a uniform length outside
`{4, 6}`, null entries, and the empty batch are all rejected), and the
dimension is inferred from that length (6 means 3-D). -/
theorem convert_bbox_to_struct_characterisation (batch : Batch) (i : Nat)
    (col : Col) (e : AType)
    (hidx : get_field_index batch "bbox" = some i)
    (hget : batch.get? i = some ("bbox", col))
    (hty : col.ty = .alist e)
    (hcells : ∀ c ∈ col.cells, c = ACell.cnull ∨ ∃ qs, cellRats? c = some qs) :
    ((convert_bbox_to_struct batch).isOk = true ↔
      (col.cells ≠ [] ∧ ∃ L, (L = 4 ∨ L = 6) ∧
        ∀ c ∈ col.cells, ∃ qs, cellRats? c = some qs ∧ qs.length = L)) ∧
    (∀ L, col.cells ≠ [] → (L = 4 ∨ L = 6) →
      (∀ c ∈ col.cells, ∃ qs, cellRats? c = some qs ∧ qs.length = L) →
      is_bbox_3d col = .ok (decide (L = 6))) := by
  have hlist : isListTy col.ty = true := by rw [hty]; rfl
  have hbody : ∀ L, col.cells ≠ [] → (L = 4 ∨ L = 6) →
      (∀ c ∈ col.cells, ∃ qs, cellRats? c = some qs ∧ qs.length = L) →
      is_bbox_3d col = .ok (decide (L = 6)) := by
    intro L hne hL hall
    have hded : (col.cells.map cellLen).dedup = [L] := by
      rw [dedup_eq_singleton_iff]
      refine ⟨by simpa using hne, ?_⟩
      intro x hx
      obtain ⟨c, hc, rfl⟩ := List.mem_map.mp hx
      obtain ⟨qs, hqs, hlen⟩ := hall c hc
      rw [cellRats_len c qs hqs, hlen]
    rw [is_bbox_3d, hlist]
    simp only [Bool.not_true, Bool.false_eq_true, if_false, hded]
    rcases hL with rfl | rfl <;> simp
  refine ⟨?_, hbody⟩
  constructor
  · intro hok
    simp only [convert_bbox_to_struct, hidx, hget] at hok
    rcases h3 : is_bbox_3d col with err | b3
    · rw [h3, error_bind] at hok
      simp [isOk_error] at hok
    · rw [is_bbox_3d, hlist] at h3
      simp only [Bool.not_true, Bool.false_eq_true, if_false] at h3
      rcases hded : (col.cells.map cellLen).dedup with _ | ⟨d, rest⟩
      · rw [hded] at h3; simp at h3
      · rcases rest with _ | ⟨d2, rest2⟩
        · rw [hded] at h3
          have hall : col.cells ≠ [] ∧ ∀ x ∈ col.cells.map cellLen, x = d := by
            have := (dedup_eq_singleton_iff _ d).mp hded
            exact ⟨by simpa using this.1, this.2⟩
          have hd46 : d = 4 ∨ d = 6 := by
            by_cases h6 : d = 6
            · exact Or.inr h6
            by_cases h4 : d = 4
            · exact Or.inl h4
            exfalso
            simp [h6, h4] at h3
          refine ⟨hall.1, d, hd46, ?_⟩
          intro c hc
          rcases hcells c hc with rfl | ⟨qs, hqs⟩
          · exfalso
            have h0 : (0 : Nat) = d :=
              hall.2 0 (List.mem_map.mpr ⟨.cnull, hc, rfl⟩)
            omega
          · refine ⟨qs, hqs, ?_⟩
            have := hall.2 (cellLen c) (List.mem_map.mpr ⟨c, hc, rfl⟩)
            rw [← cellRats_len c qs hqs]
            exact this
        · rw [hded] at h3
          simp at h3
  · rintro ⟨hne, L, hL, hall⟩
    simp only [convert_bbox_to_struct, hidx, hget, hbody L hne hL hall]
    have hrows : ∀ c ∈ col.cells, ∃ qs,
        (fun c => match c with
         | ACell.clist xs => xs.toList.mapM cellNum?
         | _ => Except.error (PyErr.arrowInvalid "to_numpy on a null bbox row")) c
          = Except.ok qs := by
      intro c hc
      obtain ⟨qs, hqs, _⟩ := hall c hc
      match c, hqs with
      | .clist xs, hqs =>
        exact ⟨qs, ratsOfCells_mapM xs qs hqs⟩
    obtain ⟨rows, hrowsok⟩ := mapM_ok_of_forall _ col.cells hrows
    rw [ok_bind]
    simp only [hlist, Bool.not_true, Bool.false_eq_true, if_false, hrowsok,
      map_ok, isOk_ok]
    rw [ok_bind]
    rfl

/-- Witness for the amended C8 at a concrete batch: one 2-D bbox row
converts successfully and is inferred 2-D. -/
theorem convert_bbox_to_struct_characterisation_witness :
    (convert_bbox_to_struct
        [("bbox", ⟨.alist .anum,
          [.clist (.cons (.cnum 0) (.cons (.cnum 1)
            (.cons (.cnum 2) (.cons (.cnum 3) .nil))))]⟩)]).isOk = true := by
  have h := convert_bbox_to_struct_characterisation
    [("bbox", ⟨.alist .anum,
      [.clist (.cons (.cnum 0) (.cons (.cnum 1)
        (.cons (.cnum 2) (.cons (.cnum 3) .nil))))]⟩)] 0
    ⟨.alist .anum,
      [.clist (.cons (.cnum 0) (.cons (.cnum 1)
        (.cons (.cnum 2) (.cons (.cnum 3) .nil))))]⟩ .anum
    (by decide) (by decide) (by decide)
    (by intro c hc; right; simp at hc; exact ⟨[0, 1, 2, 3], by rw [hc]; decide⟩)
  exact h.1.mpr ⟨by decide, 4, Or.inl rfl, by
    intro c hc; simp at hc; exact ⟨[0, 1, 2, 3], by rw [hc]; decide, by decide⟩⟩

/-! ## List helpers for in-place column replacement -/

theorem set_self {α : Type} : ∀ (l : List α) (i : Nat) (a : α),
    l.get? i = some a → l.set i a = l
  | [], _, _, h => by exact absurd h (by simp [List.get?])
  | x :: t, 0, a, h => by
    have hx : x = a := Option.some.inj h
    simp [List.set, hx]
  | x :: t, i + 1, a, h => by
    have := set_self t i a h
    simp [List.set, this]

/-- `findIdx?`, started at offset `i`, answers the first index at which
the predicate holds. -/
theorem findIdx?_first {α : Type} (p : α → Bool) :
    ∀ (l : List α) (i j : Nat), List.findIdx? p l i = some j →
      i ≤ j ∧ ∃ a, l.get? (j - i) = some a ∧ p a = true ∧
        ∀ k b, k < j - i → l.get? k = some b → p b = false
  | [], i, j, h => by simp [List.findIdx?] at h
  | x :: t, i, j, h => by
    rw [List.findIdx?_cons] at h
    by_cases hx : p x
    · simp only [hx, if_true, Option.some.injEq] at h
      subst h
      refine ⟨le_refl i, x, ?_, hx, ?_⟩
      · simp [List.get?]
      · intro k b hk _; omega
    · simp only [hx, if_false] at h
      obtain ⟨h1, a, h2, h3, h4⟩ := findIdx?_first p t (i + 1) j h
      refine ⟨by omega, a, ?_, h3, ?_⟩
      · have : j - i = (j - (i + 1)) + 1 := by omega
        rw [this]
        exact h2
      · intro k b hk hb
        match k, hb with
        | 0, hb => exact (Option.some.inj hb) ▸ (by simpa using hx)
        | k' + 1, hb =>
          exact h4 k' b (by omega) hb

theorem find?_first {α : Type} (p : α → Bool) :
    ∀ (l : List α) (i : Nat) (a : α), l.get? i = some a → p a = true →
      (∀ k b, k < i → l.get? k = some b → p b = false) →
      l.find? p = some a
  | [], i, a, h, _, _ => by exact absurd h (by simp [List.get?])
  | x :: t, 0, a, h, hp, _ => by
    have hx : x = a := Option.some.inj h
    subst hx
    simp [List.find?, hp]
  | x :: t, i + 1, a, h, hp, hfirst => by
    have hx : p x = false := hfirst 0 x (by omega) rfl
    have := find?_first p t i a h hp
      (fun k b hk hb => hfirst (k + 1) b (by omega) hb)
    simp [List.find?, hx, this]

theorem find?_set_first {α : Type} (p : α → Bool) :
    ∀ (l : List α) (i : Nat) (a a' : α), l.get? i = some a → p a = true →
      (∀ k b, k < i → l.get? k = some b → p b = false) →
      p a' = true → (l.set i a').find? p = some a'
  | [], i, a, a', h, _, _, _ => by exact absurd h (by simp [List.get?])
  | x :: t, 0, a, a', h, hp, _, hp' => by
    simp [List.set, List.find?, hp']
  | x :: t, i + 1, a, a', h, hp, hfirst, hp' => by
    have hx : p x = false := hfirst 0 x (by omega) rfl
    have := find?_set_first p t i a a' h hp
      (fun k b hk hb => hfirst (k + 1) b (by omega) hb) hp'
    simp [List.set, List.find?, hx, this]

theorem find?_set_irrelevant {α : Type} (q : α → Bool) :
    ∀ (l : List α) (i : Nat) (a a' : α), l.get? i = some a →
      q a = false → q a' = false → (l.set i a').find? q = l.find? q
  | [], _, _, _, h, _, _ => by exact absurd h (by simp [List.get?])
  | x :: t, 0, a, a', h, ha, ha' => by
    have hx : x = a := Option.some.inj h
    subst hx
    simp [List.set, List.find?, ha, ha']
  | x :: t, i + 1, a, a', h, ha, ha' => by
    have := find?_set_irrelevant q t i a a' h ha ha'
    by_cases hx : q x <;> simp [List.set, List.find?, hx, this]

theorem map_fst_set {α β : Type} :
    ∀ (l : List (α × β)) (i : Nat) (a a' : α × β), l.get? i = some a →
      a'.1 = a.1 → (l.set i a').map Prod.fst = l.map Prod.fst
  | [], _, _, _, h, _ => by exact absurd h (by simp [List.get?])
  | x :: t, 0, a, a', h, he => by
    have hx : x = a := Option.some.inj h
    subst hx
    simp [List.set, he]
  | x :: t, i + 1, a, a', h, he => by
    have := map_fst_set t i a a' h he
    simp [List.set, this]

theorem except_map_eq_ok {α β : Type} {e : Except PyErr α} {f : α → β}
    {b : β} (h : e.map f = .ok b) : ∃ a, e = .ok a ∧ b = f a := by
  cases e with
  | error err => exact absurd h (by simp [Except.map])
  | ok a => exact ⟨a, rfl, (Except.ok.inj h).symm⟩

theorem except_bind_eq_ok {α β : Type} {e : Except PyErr α}
    {g : α → Except PyErr β} {b : β} (h : e >>= g = .ok b) :
    ∃ a, e = .ok a ∧ g a = .ok b := by
  cases e with
  | error err => exact absurd h (by simp [Bind.bind, Except.bind])
  | ok a => exact ⟨a, rfl, h⟩

/-! ## Timestamp column conversion: per-step facts -/

/-- `schema.get_field_index` answers the position of the first column
carrying the name; that column is also what `getColumn?` answers, and no
earlier column carries the name. -/
theorem get_field_index_spec (batch : Batch) (name : String) (i : Nat)
    (h : get_field_index batch name = some i) :
    ∃ col, batch.get? i = some (name, col) ∧
      getColumn? batch name = some col ∧
      ∀ k q, k < i → batch.get? k = some q → (q.1 == name) = false := by
  obtain ⟨-, a, h2, h3, h4⟩ := findIdx?_first _ batch 0 i h
  simp only [Nat.sub_zero] at h2 h4
  have hname : a.1 = name := by simpa using h3
  have ha : (name, a.2) = a := by rw [← hname]
  refine ⟨a.2, ?_, ?_, h4⟩
  · rw [h2]
    exact congrArg some ha.symm
  · have hfind := find?_first (fun p => p.1 == name) batch i a h2 h3 h4
    simp [getColumn?, hfind]

theorem tsStepCol_cases {name : String} {col col' : Col}
    (h : tsStepCol name col = .ok col') :
    (isTimestampTy col.ty = true ∧ col' = col) ∨
    (col.ty = .anull ∧ col' = ⟨.ats .us none, col.cells⟩) ∨
    (col.ty = .astr ∧ ∃ cells, convert_timestamp_column col.cells = .ok cells ∧
      col' = ⟨.ats .us (some "UTC"), cells⟩) := by
  unfold tsStepCol at h
  by_cases h1 : isTimestampTy col.ty
  · simp only [h1, if_true] at h
    exact Or.inl ⟨h1, (Except.ok.inj h).symm⟩
  · simp only [h1, if_false, Bool.false_eq_true] at h
    by_cases h2 : col.ty = .anull
    · simp only [h2, if_true, reduceIte] at h
      exact Or.inr (Or.inl ⟨h2, (Except.ok.inj h).symm⟩)
    · simp only [h2, if_false, reduceIte] at h
      by_cases h3 : col.ty = .astr
      · simp only [h3, if_true, reduceIte] at h
        obtain ⟨cells, hc, hcol⟩ := except_map_eq_ok h
        exact Or.inr (Or.inr ⟨h3, cells, hc, hcol⟩)
      · simp only [h3, if_false, reduceIte] at h
        exact absurd h (by simp)

theorem tsStepCol_ok_ts {name : String} {col col' : Col}
    (h : tsStepCol name col = .ok col') : isTimestampTy col'.ty = true := by
  rcases tsStepCol_cases h with ⟨h1, h2⟩ | ⟨h1, h2⟩ | ⟨h1, cells, hc, h2⟩
  · rw [h2]; exact h1
  · rw [h2]; rfl
  · rw [h2]; rfl

theorem convertTsStep_ok_names {batch b' : Batch} {name : String}
    (h : convertTsStep batch name = .ok b') :
    b'.map Prod.fst = batch.map Prod.fst := by
  rcases hidx : get_field_index batch name with - | i
  · simp only [convertTsStep, hidx] at h
    rw [← Except.ok.inj h]
  · obtain ⟨col, hget, -, -⟩ := get_field_index_spec batch name i hidx
    simp only [convertTsStep, hidx, hget] at h
    obtain ⟨col', -, hb⟩ := except_map_eq_ok h
    rw [hb]
    exact map_fst_set batch i (name, col) (name, col') hget rfl

theorem convertTsStep_ok_other {batch b' : Batch} {name m : String}
    (h : convertTsStep batch name = .ok b') (hm : m ≠ name) :
    getColumn? b' m = getColumn? batch m := by
  rcases hidx : get_field_index batch name with - | i
  · simp only [convertTsStep, hidx] at h
    rw [← Except.ok.inj h]
  · obtain ⟨col, hget, -, -⟩ := get_field_index_spec batch name i hidx
    simp only [convertTsStep, hidx, hget] at h
    obtain ⟨col', -, hb⟩ := except_map_eq_ok h
    rw [hb]
    have hq : ((name, col).1 == m) = false := by
      simp only [beq_eq_false_iff_ne, ne_eq]
      exact fun hc => hm hc.symm
    have := find?_set_irrelevant (fun p => p.1 == m) batch i
      (name, col) (name, col') hget hq hq
    simp [getColumn?, set_column, this]

theorem convertTsStep_ok_self {batch b' : Batch} {name : String} {col : Col}
    (h : convertTsStep batch name = .ok b')
    (hcol : getColumn? batch name = some col) :
    ∃ col', tsStepCol name col = .ok col' ∧ getColumn? b' name = some col' := by
  rcases hidx : get_field_index batch name with - | i
  · exfalso
    have hnone : ∀ q ∈ batch, (q.1 == name) = false := by
      rw [← List.findIdx?_eq_none_iff]
      exact hidx
    simp only [getColumn?, Option.map_eq_some'] at hcol
    obtain ⟨p, hp, -⟩ := hcol
    have := List.find?_some hp
    have hmem := List.mem_of_find?_eq_some hp
    rw [hnone p hmem] at this
    exact Bool.false_ne_true this
  · obtain ⟨colA, hget, hgetcol, hfirst⟩ := get_field_index_spec batch name i hidx
    have hAeq : colA = col := by
      rw [hgetcol] at hcol
      exact Option.some.inj hcol
    subst hAeq
    simp only [convertTsStep, hidx, hget] at h
    obtain ⟨col', hts, hb⟩ := except_map_eq_ok h
    refine ⟨col', hts, ?_⟩
    rw [hb]
    have := find?_set_first (fun p => p.1 == name) batch i
      (name, colA) (name, col') hget (by simp) hfirst (by simp)
    simp [getColumn?, set_column, this]

/-- The whole `_convert_timestamp_columns` fold: column names are
preserved, columns named outside the processed set are untouched, and
every present column of the set went through the per-column dispatch. -/
theorem foldl_convertTsStep_spec :
    ∀ (NL : List String) (batch b' : Batch), NL.Nodup →
      NL.foldlM convertTsStep batch = .ok b' →
      b'.map Prod.fst = batch.map Prod.fst ∧
      (∀ m, m ∉ NL → getColumn? b' m = getColumn? batch m) ∧
      (∀ name ∈ NL, ∀ col, getColumn? batch name = some col →
        ∃ col', tsStepCol name col = .ok col' ∧
          getColumn? b' name = some col')
  | [], batch, b', _, h => by
    have hb : b' = batch := (Except.ok.inj h).symm
    subst hb
    exact ⟨rfl, fun m _ => rfl, fun name hmem => absurd hmem (by simp)⟩
  | n :: NL', batch, b', hnd, h => by
    have hstep : convertTsStep batch n >>= (fun mid =>
        NL'.foldlM convertTsStep mid) = .ok b' := h
    obtain ⟨mid, h1, h2⟩ := except_bind_eq_ok hstep
    have hn : n ∉ NL' := (List.nodup_cons.mp hnd).1
    have hnd' : NL'.Nodup := (List.nodup_cons.mp hnd).2
    obtain ⟨ih1, ih2, ih3⟩ := foldl_convertTsStep_spec NL' mid b' hnd' h2
    refine ⟨by rw [ih1, convertTsStep_ok_names h1], ?_, ?_⟩
    · intro m hm
      have hm1 : m ≠ n := fun hc => hm (hc ▸ List.mem_cons_self n NL')
      have hm2 : m ∉ NL' := fun hc => hm (List.mem_cons_of_mem n hc)
      rw [ih2 m hm2, convertTsStep_ok_other h1 hm1]
    · intro name hmem col hcol
      rcases List.mem_cons.mp hmem with heq | hmem'
      · subst heq
        obtain ⟨col', hts, hmid⟩ := convertTsStep_ok_self h1 hcol
        exact ⟨col', hts, by rw [ih2 name hn, hmid]⟩
      · have hne : name ≠ n := fun hc => hn (hc ▸ hmem')
        have hmidcol : getColumn? mid name = some col := by
          rw [convertTsStep_ok_other h1 hne, hcol]
        exact ih3 name hmem' col hmidcol

/-! ## Timestamp conversion dispatch (claim C5) -/

/-- Counterexample to claim C5's "no other failure cases": a string-typed
`datetime` column containing a null raises `ValueError` — each cell,
nulls included, is fed through `str(...)` and `ciso8601.parse_rfc3339`,
and `str(None) = "None"` does not parse. -/
theorem convert_timestamp_columns_null_cell_cx :
    convert_timestamp_columns
      [("datetime", ⟨.astr, [.cstr "2021-01-01T00:00:00Z", .cnull]⟩)] =
      .error (.valueError "ciso8601: invalid RFC 3339 string None") := by
  rfl

/-- Claim C5, amended: the per-column dispatch of
`_convert_timestamp_columns` on a present column named `name`:
timestamp-typed columns are left unchanged; null-typed columns are cast
to `timestamp("us")`; string-typed columns are parsed cell by cell (via
`str` and `ciso8601.parse_rfc3339`, so the step fails with `ValueError`
whenever some cell — null cells included — does not parse) into
`timestamp("us", tz="UTC")`; any other type raises the inferred-time
`ValueError`. -/
theorem convertTsStep_dispatch (batch : Batch) (name : String) (i : Nat)
    (col : Col)
    (hname : name ∈ timestamp_allowed_column_names)
    (hidx : get_field_index batch name = some i)
    (hget : batch.get? i = some (name, col)) :
    (isTimestampTy col.ty = true → convertTsStep batch name = .ok batch) ∧
    (col.ty = .anull →
      convertTsStep batch name =
        .ok (set_column batch i name ⟨.ats .us none, col.cells⟩)) ∧
    (col.ty = .astr →
      convertTsStep batch name =
        (convert_timestamp_column col.cells).map fun cells =>
          set_column batch i name ⟨.ats .us (some "UTC"), cells⟩) ∧
    (isTimestampTy col.ty = false → col.ty ≠ .anull → col.ty ≠ .astr →
      convertTsStep batch name = .error (.valueError
        ("Inferred time column " ++ name ++
         " was expected to be a string or timestamp data type"))) := by
  refine ⟨?_, ?_, ?_, ?_⟩
  · intro h1
    simp only [convertTsStep, hidx, hget, tsStepCol, h1, if_true]
    simp only [Except.map]
    rw [show set_column batch i name col = batch from
      set_self batch i (name, col) hget]
  · intro h2
    have h1 : isTimestampTy col.ty = false := by rw [h2]; rfl
    simp only [convertTsStep, hidx, hget, tsStepCol, h1, h2,
      Bool.false_eq_true, if_false, if_true, reduceIte]
    rfl
  · intro h3
    have h1 : isTimestampTy col.ty = false := by rw [h3]; rfl
    have h2 : ¬ (col.ty = .anull) := by rw [h3]; intro hc; cases hc
    simp only [convertTsStep, hidx, hget, tsStepCol, h1, h2, h3,
      Bool.false_eq_true, if_false, if_true, reduceIte]
    cases hcv : convert_timestamp_column col.cells with
    | error e => simp [Except.map, isTimestampTy]
    | ok cells => simp [Except.map, isTimestampTy]
  · intro h1 h2 h3
    simp only [convertTsStep, hidx, hget, tsStepCol, h1, h2, h3,
      Bool.false_eq_true, if_false, reduceIte]
    rfl

/-- Witness for the amended C5: the string dispatch at a concrete
one-column batch. -/
theorem convertTsStep_dispatch_witness :
    convertTsStep [("datetime", ⟨.astr, [.cstr "2021-01-01T00:00:00Z"]⟩)]
        "datetime" =
      (convert_timestamp_column [.cstr "2021-01-01T00:00:00Z"]).map
        fun cells =>
          set_column [("datetime", ⟨.astr, [.cstr "2021-01-01T00:00:00Z"]⟩)]
            0 "datetime" ⟨.ats .us (some "UTC"), cells⟩ :=
  (convertTsStep_dispatch
    [("datetime", ⟨.astr, [.cstr "2021-01-01T00:00:00Z"]⟩)] "datetime" 0
    ⟨.astr, [.cstr "2021-01-01T00:00:00Z"]⟩
    (by decide) (by rfl) (by rfl)).2.2.1 rfl

/-! ## Timestamp column types after normalisation (claim C6) -/

/-- Counterexample to claim C6: an entirely null `datetime` column is
cast to `timestamp("us")` with NO timezone, not to the UTC timestamp
type. -/
theorem convert_timestamp_columns_null_col_cx :
    convert_timestamp_columns [("datetime", ⟨.anull, [.cnull, .cnull]⟩)] =
      .ok [("datetime", ⟨.ats .us none, [.cnull, .cnull]⟩)] ∧
    (AType.ats .us none ≠ AType.ats .us (some "UTC")) :=
  ⟨rfl, by decide⟩

/-- Claim C6, amended: when `_convert_timestamp_columns` succeeds, every
present column of the closed timestamp set ends timestamp-typed, but not
uniformly UTC: a string-typed input becomes `timestamp("us", tz="UTC")`,
while an entirely-null (null-typed) input becomes `timestamp("us")` with
no timezone (its cells kept null), and an already timestamp-typed input
keeps its original unit and timezone. -/
theorem convert_timestamp_columns_types (batch b' : Batch)
    (hok : convert_timestamp_columns batch = .ok b') :
    b'.map Prod.fst = batch.map Prod.fst ∧
    ∀ name ∈ timestamp_allowed_column_names, ∀ col,
      getColumn? batch name = some col →
      ∃ col', getColumn? b' name = some col' ∧
        isTimestampTy col'.ty = true ∧
        (col.ty = .anull →
          col'.ty = .ats .us none ∧ col'.cells = col.cells) ∧
        (col.ty = .astr → col'.ty = .ats .us (some "UTC")) ∧
        (isTimestampTy col.ty = true → col' = col) := by
  obtain ⟨h1, -, h3⟩ := foldl_convertTsStep_spec
    timestamp_allowed_column_names batch b' (by decide) hok
  refine ⟨h1, ?_⟩
  intro name hmem col hcol
  obtain ⟨col', hts, hget⟩ := h3 name hmem col hcol
  refine ⟨col', hget, tsStepCol_ok_ts hts, ?_, ?_, ?_⟩
  · intro hnull
    rcases tsStepCol_cases hts with ⟨c1, -⟩ | ⟨-, c2⟩ | ⟨c1, -⟩
    · rw [hnull] at c1; exact absurd c1 (by simp [isTimestampTy])
    · rw [c2]; exact ⟨rfl, rfl⟩
    · rw [hnull] at c1; cases c1
  · intro hstr
    rcases tsStepCol_cases hts with ⟨c1, -⟩ | ⟨c1, -⟩ | ⟨-, cells, -, c3⟩
    · rw [hstr] at c1; exact absurd c1 (by simp [isTimestampTy])
    · rw [hstr] at c1; cases c1
    · rw [c3]
  · intro hts'
    rcases tsStepCol_cases hts with ⟨-, c2⟩ | ⟨c1, -⟩ | ⟨c1, -⟩
    · exact c2
    · rw [c1] at hts'; exact absurd hts' (by simp [isTimestampTy])
    · rw [c1] at hts'; exact absurd hts' (by simp [isTimestampTy])

/-- Witness for the amended C6: a one-column string `datetime` batch. -/
theorem convert_timestamp_columns_types_witness :
    ∃ col', getColumn?
        [("datetime", ⟨.ats .us (some "UTC"), [.cts ⟨2021, 1, 1, 0, 0, 0, 0⟩]⟩)]
        "datetime" = some col' ∧
      isTimestampTy col'.ty = true ∧
      ((⟨.astr, [.cstr "2021-01-01T00:00:00Z"]⟩ : Col).ty = .anull →
        col'.ty = .ats .us none ∧
        col'.cells = (⟨.astr, [.cstr "2021-01-01T00:00:00Z"]⟩ : Col).cells) ∧
      ((⟨.astr, [.cstr "2021-01-01T00:00:00Z"]⟩ : Col).ty = .astr →
        col'.ty = .ats .us (some "UTC")) ∧
      (isTimestampTy (⟨.astr, [.cstr "2021-01-01T00:00:00Z"]⟩ : Col).ty = true →
        col' = ⟨.astr, [.cstr "2021-01-01T00:00:00Z"]⟩) :=
  (convert_timestamp_columns_types
    [("datetime", ⟨.astr, [.cstr "2021-01-01T00:00:00Z"]⟩)]
    [("datetime", ⟨.ats .us (some "UTC"), [.cts ⟨2021, 1, 1, 0, 0, 0, 0⟩]⟩)]
    (by rfl)).2 "datetime" (by decide)
    ⟨.astr, [.cstr "2021-01-01T00:00:00Z"]⟩ (by rfl)

/-! ## Property / top-level collision (claim C3) -/

/-- A one-row batch whose `properties` struct carries an `id` member while
a top-level `id` column exists. -/
def collisionBatch : Batch :=
  [("id", ⟨.astr, [.cstr "item-1"]⟩),
   ("properties", ⟨.astruct (.cons "id" .astr .nil),
     [.cstruct (.cons "id" (.cstr "other") .nil)]⟩)]

/-- Counterexample to claim C3 as stated: promoting `properties.id` next
to a top-level `id` is not rejected — `_bring_properties_to_top_level`
succeeds and returns a batch with two columns named `id`. -/
theorem bring_properties_collision_cx :
    bring_properties_to_top_level collisionBatch =
      .ok [("id", ⟨.astr, [.cstr "item-1"]⟩),
           ("id", ⟨.astr, [.cstr "other"]⟩)] ∧
    (((bring_properties_to_top_level collisionBatch).toOption.map
      fun b => (b.map Prod.fst).count "id") = some 2) := by
  constructor <;> rfl

theorem drop_columns_count (b : Batch) (k : String) (hk : k ≠ "properties") :
    ((drop_columns b "properties").map Prod.fst).count k =
      (b.map Prod.fst).count k := by
  have hk' : ¬ ("properties" = k) := fun h => hk h.symm
  induction b with
  | nil => rfl
  | cons p t ih =>
    simp only [drop_columns, List.filter_cons, ne_eq, decide_not] at ih ⊢
    by_cases hp : p.1 = "properties"
    · simp [hp, List.count_cons, hk', ih]
    · simp [hp, List.count_cons, ih]

theorem promoteFields_names :
    ∀ (fs : AFields) (i : Nat) (cells : List ACell),
      (bring_properties_to_top_level.promoteFields fs i cells).map Prod.fst =
        fs.names
  | .nil, _, _ => rfl
  | .cons n ty t, i, cells => by
    simp [bring_properties_to_top_level.promoteFields, AFields.names,
      promoteFields_names t (i + 1) cells]

/-- Claim C3, amended: a property whose name duplicates an existing
top-level column (other than `properties` itself) is not rejected;
promotion succeeds and the result carries the colliding name at least
twice (the promoted copy is appended after the original columns). -/
theorem bring_properties_collision (batch : Batch) (propCol : Col)
    (fs : AFields) (k : String)
    (hprop : getColumn? batch "properties" = some propCol)
    (hty : propCol.ty = .astruct fs)
    (hk1 : k ∈ fs.names)
    (hk2 : k ∈ batch.map Prod.fst)
    (hk3 : k ≠ "properties") :
    ∃ b', bring_properties_to_top_level batch = .ok b' ∧
      2 ≤ (b'.map Prod.fst).count k := by
  have hfind : batch.find? (fun p => p.1 == "properties") =
      some ("properties", propCol) := by
    simp only [getColumn?, Option.map_eq_some'] at hprop
    obtain ⟨p, hp, hp2⟩ := hprop
    have := List.find?_some hp
    simp only [beq_iff_eq] at this
    rw [hp]
    obtain ⟨p1, p2⟩ := p
    simp only at this hp2
    rw [this, hp2]
  refine ⟨drop_columns
      (batch ++ bring_properties_to_top_level.promoteFields fs 0 propCol.cells)
      "properties", ?_, ?_⟩
  · simp only [bring_properties_to_top_level, getColumn?, hfind,
      Option.map_some', hty]
  · rw [drop_columns_count _ k hk3, List.map_append, promoteFields_names,
      List.count_append]
    have h1 : 1 ≤ (batch.map Prod.fst).count k := List.count_pos_iff.mpr hk2
    have h2 : 1 ≤ (fs.names).count k := List.count_pos_iff.mpr hk1
    omega

/-- Witness for the amended C3 at the concrete collision batch. -/
theorem bring_properties_collision_witness :
    ∃ b', bring_properties_to_top_level collisionBatch = .ok b' ∧
      2 ≤ (b'.map Prod.fst).count "id" :=
  bring_properties_collision collisionBatch
    ⟨.astruct (.cons "id" .astr .nil),
      [.cstruct (.cons "id" (.cstr "other") .nil)]⟩
    (.cons "id" .astr .nil) "id" (by rfl) rfl (by decide) (by decide)
    (by decide)

/-! ## Null geometry (claim C9) -/

/-- Counterexample to claim C9 as stated: an item whose `geometry` is
`null` is rejected by the encoder — `shapely.geometry.shape(None)` raises
`AttributeError` inside the WKB preprocessing of
`StacJsonBatch.from_dicts`. -/
theorem from_dicts_null_geometry_cx :
    from_dicts [.obj (.cons "type" (.str "Feature")
      (.cons "id" (.str "item-1")
        (.cons "geometry" .null
          (.cons "properties" (.obj .nil)
            (.cons "assets" (.obj .nil) .nil)))))] =
      .error (.attributeError "NoneType object has no attribute get") := by
  rfl

/-- Claim C9, amended: the encoder rejects an item with null geometry (the
GeoJSON-to-WKB preprocessing fails with `AttributeError`) rather than
producing a null WKB value; this holds whatever else the batch holds
after that item. -/
theorem stac_items_to_arrow_null_geometry (kvs : JObj) (rest : List JVal)
    (hgeom : kvs.get "geometry" = some .null) :
    stac_items_to_arrow (.obj kvs :: rest) =
      .error (.attributeError "NoneType object has no attribute get") := by
  have hpre : wkb_preprocess (.obj kvs) =
      .error (.attributeError "NoneType object has no attribute get") := by
    simp only [wkb_preprocess, hgeom]
    rfl
  simp only [stac_items_to_arrow, from_dicts, List.mapM_cons, hpre,
    error_bind]

/-- Witness for the amended C9 at a concrete item. -/
theorem stac_items_to_arrow_null_geometry_witness :
    stac_items_to_arrow [.obj (.cons "type" (.str "Feature")
      (.cons "id" (.str "item-1")
        (.cons "geometry" .null
          (.cons "properties" (.obj .nil)
            (.cons "assets" (.obj .nil) .nil)))))] =
      .error (.attributeError "NoneType object has no attribute get") :=
  stac_items_to_arrow_null_geometry
    (.cons "type" (.str "Feature")
      (.cons "id" (.str "item-1")
        (.cons "geometry" .null
          (.cons "properties" (.obj .nil)
            (.cons "assets" (.obj .nil) .nil))))) [] (by rfl)

/-! ## Null slots at geometry paths (claim C10) -/

theorem mapM_ok_get {α β : Type} (f : α → Except PyErr β) :
    ∀ (l : List α) (ys : List β) (j : Nat) (a : α),
      l.mapM f = .ok ys → l.get? j = some a →
      ∃ b, ys.get? j = some b ∧ f a = .ok b
  | [], ys, j, a, _, hj => absurd hj (by simp [List.get?])
  | x :: t, ys, j, a, hm, hj => by
    rw [List.mapM_cons] at hm
    obtain ⟨b, hb, hrest⟩ := except_bind_eq_ok hm
    obtain ⟨bs, hbs, hpure⟩ := except_bind_eq_ok hrest
    have hys : ys = b :: bs := (Except.ok.inj hpure).symm
    subst hys
    match j, hj with
    | 0, hj =>
      have hx : x = a := Option.some.inj hj
      subst hx
      exact ⟨b, rfl, hb⟩
    | j' + 1, hj => exact mapM_ok_get f t bs j' a hbs hj

theorem mapM_error_of_elem {α β : Type} {f : α → Except PyErr β}
    {a : α} {e : PyErr} (ha : f a = .error e) :
    ∀ {l : List α}, a ∈ l → ∃ e', l.mapM f = .error e' := by
  intro l
  induction l with
  | nil => intro h; exact absurd h (by simp)
  | cons x t ih =>
    intro hmem
    rw [List.mapM_cons]
    cases hx : f x with
    | error ex => exact ⟨ex, by simp [hx, error_bind]⟩
    | ok b =>
      rcases List.mem_cons.mp hmem with heq | hmem'
      · rw [heq] at ha; rw [ha] at hx; cases hx
      · obtain ⟨e', he'⟩ := ih hmem'
        exact ⟨e', by rw [ok_bind, he', error_bind]⟩

theorem foldlM_error_of_elem {α β : Type} {g : β → α → Except PyErr β}
    {a : α} {e : PyErr} (ha : ∀ acc, g acc a = .error e) :
    ∀ (l : List α), a ∈ l → ∀ init, ∃ e', l.foldlM g init = .error e'
  | [], h, _ => absurd h (by simp)
  | x :: t, hmem, init => by
    have hfold : (x :: t).foldlM g init =
        g init x >>= fun acc' => t.foldlM g acc' := rfl
    rcases List.mem_cons.mp hmem with heq | hmem'
    · subst heq
      exact ⟨e, by rw [hfold, ha init]; rfl⟩
    · cases hx : g init x with
      | error ex => exact ⟨ex, by rw [hfold, hx]; rfl⟩
      | ok acc' =>
        obtain ⟨e', he'⟩ := foldlM_error_of_elem ha t hmem' acc'
        exact ⟨e', by rw [hfold, hx, ok_bind, he']⟩

theorem zip_get? {α β : Type} :
    ∀ (l : List α) (m : List β) (j : Nat) (a : α) (b : β),
      l.get? j = some a → m.get? j = some b →
      (l.zip m).get? j = some (a, b)
  | [], _, j, _, _, ha, _ => absurd ha (by simp [List.get?])
  | _ :: _, [], j, _, _, _, hb => absurd hb (by simp [List.get?])
  | x :: t, y :: s, 0, a, b, ha, hb => by
    have hx : x = a := Option.some.inj ha
    have hy : y = b := Option.some.inj hb
    subst hx; subst hy
    rfl
  | x :: t, y :: s, j + 1, a, b, ha, hb =>
    zip_get? t s j a b ha hb

/-- Claim C10: a null slot at any geometry path the schema discovers
makes decoding fail — `shapely.from_wkb` maps the null to `None`, and
`None.__geo_interface__` raises `AttributeError` when the rows are
materialised (or an earlier stage of `iter_dicts` has already failed);
in no case is the row yielded with a null or absent slot. -/
theorem iter_dicts_null_geometry_path (batch : Batch)
    (paths : List (List String)) (p : List String) (cells : List ACell)
    (i : Nat)
    (hpaths : geometry_paths batch = .ok paths)
    (hp : p ∈ paths)
    (hres : resolve_path batch p = .ok cells)
    (hcell : cells.get? i = some .cnull)
    (hi : i < nrows batch) :
    ∃ e, iter_dicts batch = .error e := by
  have hiter : iter_dicts batch =
      (geometry_paths batch) >>= fun paths =>
        (paths.mapM fun p => resolve_path batch p >>= from_wkb_col) >>=
          fun geometries =>
            (List.range (nrows batch)).mapM fun i =>
              substitute_geoms (rowDict batch i) (paths.zip geometries) i := by
    rfl
  rw [hiter, hpaths, ok_bind]
  cases hmapM : paths.mapM fun p => resolve_path batch p >>= from_wkb_col with
  | error e => exact ⟨e, by rw [error_bind]⟩
  | ok geometries =>
    rw [ok_bind]
    obtain ⟨j, hj⟩ := List.get?_of_mem hp
    obtain ⟨gs, hgs, hfp⟩ := mapM_ok_get _ paths geometries j p hmapM hj
    obtain ⟨cells2, hc2, hwkb⟩ := except_bind_eq_ok hfp
    have hcells2 : cells2 = cells := by
      rw [hres] at hc2
      exact (Except.ok.inj hc2).symm
    subst hcells2
    unfold from_wkb_col at hwkb
    obtain ⟨b, hb, hfb⟩ := mapM_ok_get _ _ _ i _ hwkb hcell
    have hbnone : b = none := (Except.ok.inj hfb).symm
    subst hbnone
    have hpg : (p, gs) ∈ paths.zip geometries :=
      List.get?_mem (zip_get? paths geometries j p gs hj hgs)
    have hstep : ∀ acc : JVal,
        (match gs.get? i with
          | some (some g) => set_by_path acc p (geo_interface g)
          | some none => Except.error
              (PyErr.attributeError "NoneType object has no attribute geo_interface")
          | none => Except.error PyErr.indexError) =
        Except.error
          (PyErr.attributeError "NoneType object has no attribute geo_interface") := by
      intro acc
      rw [hb]
    obtain ⟨e', he'⟩ := @foldlM_error_of_elem
      (List String × List (Option Geom)) JVal
      (fun acc pg =>
        match pg.2.get? i with
        | some (some g) => set_by_path acc pg.1 (geo_interface g)
        | some none => Except.error
            (PyErr.attributeError "NoneType object has no attribute geo_interface")
        | none => Except.error PyErr.indexError)
      (p, gs)
      (.attributeError "NoneType object has no attribute geo_interface")
      hstep (paths.zip geometries) hpg (rowDict batch i)
    have hrow : substitute_geoms (rowDict batch i) (paths.zip geometries) i =
        .error e' := he'
    obtain ⟨e'', he''⟩ := @mapM_error_of_elem Nat JVal
      (fun k => substitute_geoms (rowDict batch k) (paths.zip geometries) k)
      i e' hrow (List.range (nrows batch)) (List.mem_range.mpr hi)
    exact ⟨e'', he''⟩

/-- Witness for C10: a two-row batch whose second `geometry` slot is
null. -/
theorem iter_dicts_null_geometry_path_witness :
    ∃ e, iter_dicts
      [("geometry", ⟨.abin,
         [.cbin ⟨"Point", .arr (.cons (.num 0) (.cons (.num 0) .nil))⟩,
          .cnull]⟩),
       ("assets", ⟨.astruct .nil, [.cstruct .nil, .cstruct .nil]⟩)] =
      .error e :=
  iter_dicts_null_geometry_path
    [("geometry", ⟨.abin,
       [.cbin ⟨"Point", .arr (.cons (.num 0) (.cons (.num 0) .nil))⟩,
        .cnull]⟩),
     ("assets", ⟨.astruct .nil, [.cstruct .nil, .cstruct .nil]⟩)]
    [["geometry"]] ["geometry"]
    [.cbin ⟨"Point", .arr (.cons (.num 0) (.cons (.num 0) .nil))⟩, .cnull]
    1 (by rfl) (by simp) (by rfl) (by rfl) (by decide)

/-! ## Null asset slots survive decoding (claim C2) -/

theorem JObj_get_set_self :
    ∀ (kvs : JObj) (a : String) (v : JVal), (kvs.set a v).get a = some v
  | .nil, a, v => by simp [JObj.set, JObj.get]
  | .cons n w t, a, v => by
    by_cases h : n = a
    · simp [JObj.set, JObj.get, h]
    · simp only [JObj.set, h, if_false, ite_false]
      simp [JObj.get, h, JObj_get_set_self t a v]

theorem JObj_get_set_ne :
    ∀ (kvs : JObj) (a b : String) (v : JVal), a ≠ b →
      (kvs.set a v).get b = kvs.get b
  | .nil, a, b, v, h => by simp [JObj.set, JObj.get, h]
  | .cons n w t, a, b, v, h => by
    by_cases hn : n = a
    · subst hn
      simp [JObj.set, JObj.get, h]
    · simp only [JObj.set, hn, if_false, ite_false]
      simp [JObj.get, JObj_get_set_ne t a b v h]

theorem readPairs_get :
    ∀ (ps : APairs) (k : String) (c : ACell), ps.get k = some c →
      (readPairs ps).get k = some (readCell c)
  | .nil, k, c, h => by simp [APairs.get] at h
  | .cons n c0 t, k, c, h => by
    by_cases hn : n = k
    · simp only [APairs.get, hn, if_true, reduceIte, Option.some.injEq] at h
      subst h
      simp [readPairs, JObj.get, hn]
    · simp only [APairs.get, hn, if_false, reduceIte] at h
      simp [readPairs, JObj.get, hn, readPairs_get t k c h]

theorem rowPairs_get :
    ∀ (batch : Batch) (i : Nat) (name : String) (col : Col),
      getColumn? batch name = some col →
      (rowDict.rowPairs batch i).get name =
        some (readCell ((col.cells.get? i).getD .cnull))
  | [], _, name, col, h => by simp [getColumn?] at h
  | (n, c) :: t, i, name, col, h => by
    by_cases hn : n = name
    · subst hn
      have : c = col := by
        simpa [getColumn?, List.find?] using h
      subst this
      simp [rowDict.rowPairs, JObj.get]
    · have ht : getColumn? t name = some col := by
        have hbeq : (n == name) = false := by simpa using hn
        simpa [getColumn?, List.find?, hbeq] using h
      simp [rowDict.rowPairs, JObj.get, hn, rowPairs_get t i name col ht]

theorem assetGeomPaths_shapes :
    ∀ (fs : AFields) (p : List String), p ∈ assetGeomPaths fs →
      ∃ n, p = ["assets", n, "proj:geometry"]
  | .nil, p, h => absurd h (by simp [assetGeomPaths])
  | .cons n ty t, p, h => by
    simp only [assetGeomPaths, List.mem_append] at h
    rcases h with h | h
    · cases ty with
      | astruct fs =>
        by_cases hpg : fs.hasName "proj:geometry"
        · simp only [hpg, if_true, List.mem_singleton, reduceIte] at h
          exact ⟨n, h⟩
        · simp [hpg] at h
      | anull => simp at h
      | abool => simp at h
      | anum => simp at h
      | astr => simp at h
      | abin => simp at h
      | ats u tz => simp at h
      | alist ty => simp at h
    · exact assetGeomPaths_shapes t p h

theorem geometry_paths_shapes (batch : Batch) (paths : List (List String))
    (h : geometry_paths batch = .ok paths) :
    ∀ p ∈ paths, p = ["geometry"] ∨ p = ["properties", "proj:geometry"] ∨
      ∃ n, p = ["assets", n, "proj:geometry"] := by
  have hprop : ∀ q ∈ (match getColumn? batch "properties" with
      | some col =>
        match col.ty with
        | .astruct fs =>
          if fs.hasName "proj:geometry" then [["properties", "proj:geometry"]]
          else []
        | _ => []
      | none => ([] : List (List String))), q = ["properties", "proj:geometry"] := by
    intro q hq
    rcases hpc : getColumn? batch "properties" with - | pc
    · rw [hpc] at hq; simp at hq
    · simp only [hpc] at hq
      cases hty : pc.ty with
      | astruct fs =>
        simp only [hty] at hq
        by_cases hpg : fs.hasName "proj:geometry"
        · simpa [hpg] using hq
        · simp [hpg] at hq
      | anull => simp only [hty] at hq; simp at hq
      | abool => simp only [hty] at hq; simp at hq
      | anum => simp only [hty] at hq; simp at hq
      | astr => simp only [hty] at hq; simp at hq
      | abin => simp only [hty] at hq; simp at hq
      | ats u tz => simp only [hty] at hq; simp at hq
      | alist ty => simp only [hty] at hq; simp at hq
  rcases hac : getColumn? batch "assets" with - | ac
  · exfalso
    simp only [geometry_paths, hac, error_bind] at h
    exact absurd h (by simp)
  · simp only [geometry_paths, hac, ok_bind] at h
    have hpaths : paths = [["geometry"]] ++ (match getColumn? batch "properties" with
        | some col =>
          match col.ty with
          | .astruct fs =>
            if fs.hasName "proj:geometry" then [["properties", "proj:geometry"]]
            else []
          | _ => []
        | none => []) ++ (match ac.ty with
        | .astruct fs => assetGeomPaths fs
        | _ => []) := (Except.ok.inj h).symm
    intro p hp
    rw [hpaths] at hp
    simp only [List.append_assoc, List.mem_append, List.mem_singleton] at hp
    rcases hp with hp | hp | hp
    · exact Or.inl hp
    · exact Or.inr (Or.inl (hprop p hp))
    · refine Or.inr (Or.inr ?_)
      cases hacty : ac.ty with
      | astruct fs =>
        rw [hacty] at hp
        exact assetGeomPaths_shapes fs p hp
      | anull => rw [hacty] at hp; simp at hp
      | abool => rw [hacty] at hp; simp at hp
      | anum => rw [hacty] at hp; simp at hp
      | astr => rw [hacty] at hp; simp at hp
      | abin => rw [hacty] at hp; simp at hp
      | ats u tz => rw [hacty] at hp; simp at hp
      | alist ty => rw [hacty] at hp; simp at hp

theorem foldlM_invariant {α β : Type} (g : β → α → Except PyErr β)
    (P : β → Prop) :
    ∀ (l : List α) (init out : β), l.foldlM g init = .ok out →
      (∀ a ∈ l, ∀ acc acc', P acc → g acc a = .ok acc' → P acc') →
      P init → P out
  | [], init, out, h, _, hP => (Except.ok.inj h) ▸ hP
  | x :: t, init, out, h, hstep, hP => by
    have h' : g init x >>= (fun acc => t.foldlM g acc) = .ok out := h
    obtain ⟨mid, h1, h2⟩ := except_bind_eq_ok h'
    exact foldlM_invariant g P t mid out h2
      (fun a ha acc acc' => hstep a (List.mem_cons_of_mem x ha) acc acc')
      (hstep x (List.mem_cons_self x t) init mid hP h1)

/-- The row-level invariant of claim C2's decode direction: the row is an
object whose `assets` member maps `k` to `null`. -/
def assetNullAt (k : String) (x : JVal) : Prop :=
  ∃ kvs akvs, x = .obj kvs ∧ kvs.get "assets" = some (.obj akvs) ∧
    akvs.get k = some .null

theorem set_by_path_preserves_assetNull (k : String) (p : List String)
    (v acc acc' : JVal)
    (hshape : p = ["geometry"] ∨ p = ["properties", "proj:geometry"] ∨
      ∃ n, p = ["assets", n, "proj:geometry"])
    (hP : assetNullAt k acc)
    (hset : set_by_path acc p v = .ok acc') :
    assetNullAt k acc' := by
  obtain ⟨kvs, akvs, hacc, hassets, hnull⟩ := hP
  subst hacc
  rcases hshape with hp | hp | ⟨n, hp⟩ <;> subst hp
  · have : acc' = .obj (kvs.set "geometry" v) :=
      (Except.ok.inj hset).symm
    subst this
    exact ⟨_, akvs, rfl, by
      rw [JObj_get_set_ne kvs "geometry" "assets" v (by decide), hassets],
      hnull⟩
  · simp only [set_by_path] at hset
    rcases hin : kvs.get "properties" with - | inner
    · simp only [hin] at hset
      exact absurd hset (by simp)
    · simp only [hin] at hset
      cases inner with
      | obj kvs2 =>
        simp only [ok_bind] at hset
        have : acc' =
            .obj (kvs.set "properties" (.obj (kvs2.set "proj:geometry" v))) :=
          (Except.ok.inj hset).symm
        subst this
        exact ⟨_, akvs, rfl, by
          rw [JObj_get_set_ne kvs "properties" "assets" _ (by decide), hassets],
          hnull⟩
      | null => exact absurd hset (by simp)
      | bool b => exact absurd hset (by simp)
      | num q => exact absurd hset (by simp)
      | str s => exact absurd hset (by simp)
      | dt t => exact absurd hset (by simp)
      | wkb g => exact absurd hset (by simp)
      | arr xs => exact absurd hset (by simp)
  · simp only [set_by_path] at hset
    simp only [hassets] at hset
    rcases hin2 : akvs.get n with - | inner2
    · simp only [hin2] at hset
      exact absurd hset (by simp)
    · simp only [hin2] at hset
      by_cases hnk : n = k
      · subst hnk
        have hi2 : inner2 = .null := by
          rw [hnull] at hin2
          exact (Option.some.inj hin2).symm
        subst hi2
        exact absurd hset (by simp)
      · cases inner2 with
        | obj kvs3 =>
          simp only [ok_bind] at hset
          have : acc' = .obj (kvs.set "assets"
              (.obj (akvs.set n (.obj (kvs3.set "proj:geometry" v))))) :=
            (Except.ok.inj hset).symm
          subst this
          refine ⟨_, akvs.set n (.obj (kvs3.set "proj:geometry" v)), rfl, ?_, ?_⟩
          · rw [JObj_get_set_self]
          · rw [JObj_get_set_ne akvs n k _ hnk, hnull]
        | null => exact absurd hset (by simp)
        | bool b => exact absurd hset (by simp)
        | num q => exact absurd hset (by simp)
        | str s => exact absurd hset (by simp)
        | dt t => exact absurd hset (by simp)
        | wkb g => exact absurd hset (by simp)
        | arr xs => exact absurd hset (by simp)

/-- Claim C2, amended (decode direction): decoding does NOT omit an asset
key whose columnar slot is null — the decoded row's `assets` object maps
the key to `null`. -/
theorem iter_dicts_keeps_null_asset (batch : Batch) (items : List JVal)
    (afs : AFields) (acells : List ACell) (k : String) (ps : APairs) (i : Nat)
    (hassets : getColumn? batch "assets" = some ⟨.astruct afs, acells⟩)
    (hcell : acells.get? i = some (.cstruct ps))
    (hnull : ps.get k = some .cnull)
    (hi : i < nrows batch)
    (hok : iter_dicts batch = .ok items) :
    ∃ kvs akvs, items.get? i = some (.obj kvs) ∧
      kvs.get "assets" = some (.obj akvs) ∧
      akvs.get k = some .null := by
  have hiter : iter_dicts batch =
      (geometry_paths batch) >>= fun paths =>
        (paths.mapM fun p => resolve_path batch p >>= from_wkb_col) >>=
          fun geometries =>
            (List.range (nrows batch)).mapM fun j =>
              substitute_geoms (rowDict batch j) (paths.zip geometries) j := by
    rfl
  rw [hiter] at hok
  obtain ⟨paths, hpaths, hok2⟩ := except_bind_eq_ok hok
  obtain ⟨geometries, hgeoms, hok3⟩ := except_bind_eq_ok hok2
  obtain ⟨out, hout, hsub⟩ := mapM_ok_get _ _ items i i hok3
    (List.get?_range hi)
  have hP0 : assetNullAt k (rowDict batch i) := by
    refine ⟨rowDict.rowPairs batch i, readPairs ps, rfl, ?_, ?_⟩
    · rw [rowPairs_get batch i "assets" ⟨.astruct afs, acells⟩ hassets]
      simp only [hcell, Option.getD_some]
      rfl
    · exact readPairs_get ps k .cnull hnull
  have hPout : assetNullAt k out := by
    refine foldlM_invariant _ (assetNullAt k) (paths.zip geometries)
      (rowDict batch i) out hsub ?_ hP0
    intro a ha acc acc' hP hstep
    have hpmem : a.1 ∈ paths := (List.of_mem_zip ha).1
    have hshape := geometry_paths_shapes batch paths hpaths a.1 hpmem
    rcases hslot : a.2.get? i with - | og
    · rw [hslot] at hstep; exact absurd hstep (by simp)
    · rcases og with - | g0
      · rw [hslot] at hstep; exact absurd hstep (by simp)
      · rw [hslot] at hstep
        exact set_by_path_preserves_assetNull k a.1 (geo_interface g0)
          acc acc' hshape hP hstep
  obtain ⟨kvs, akvs, hout_eq, h1, h2⟩ := hPout
  subst hout_eq
  exact ⟨kvs, akvs, hout, h1, h2⟩

/-- Witness for the amended C2 at a one-row batch whose only asset slot
is null. -/
theorem iter_dicts_keeps_null_asset_witness :
    ∃ kvs akvs,
      [JVal.obj (.cons "geometry"
          (geo_interface ⟨"Point", .arr (.cons (.num 0) (.cons (.num 0) .nil))⟩)
        (.cons "assets" (.obj (.cons "b" .null .nil)) .nil))].get? 0 =
          some (.obj kvs) ∧
      kvs.get "assets" = some (.obj akvs) ∧
      akvs.get "b" = some .null :=
  iter_dicts_keeps_null_asset
    [("geometry", ⟨.abin,
       [.cbin ⟨"Point", .arr (.cons (.num 0) (.cons (.num 0) .nil))⟩]⟩),
     ("assets", ⟨.astruct (.cons "b" (.astruct (.cons "href" .astr .nil)) .nil),
       [.cstruct (.cons "b" .cnull .nil)]⟩)]
    [JVal.obj (.cons "geometry"
        (geo_interface ⟨"Point", .arr (.cons (.num 0) (.cons (.num 0) .nil))⟩)
      (.cons "assets" (.obj (.cons "b" .null .nil)) .nil))]
    (.cons "b" (.astruct (.cons "href" .astr .nil)) .nil)
    [.cstruct (.cons "b" .cnull .nil)] "b" (.cons "b" .cnull .nil) 0
    (by rfl) (by rfl) (by rfl) (by decide) (by rfl)

/-- A two-item corpus for the C2 counterexample: the asset key `b` is
present in the second item and absent from the first. -/
def cxItemA : JVal :=
  .obj (.cons "type" (.str "Feature")
    (.cons "stac_version" (.str "1.0.0")
    (.cons "id" (.str "A")
    (.cons "geometry" (.obj (.cons "type" (.str "Point")
      (.cons "coordinates" (.arr (.cons (.num 0) (.cons (.num 0) .nil))) .nil)))
    (.cons "bbox" (.arr (.cons (.num 0) (.cons (.num 0)
      (.cons (.num 1) (.cons (.num 1) .nil)))))
    (.cons "properties"
      (.obj (.cons "datetime" (.str "2021-01-01T00:00:00Z") .nil))
    (.cons "assets"
      (.obj (.cons "a" (.obj (.cons "href" (.str "x") .nil)) .nil))
    .nil)))))))

def cxItemB : JVal :=
  .obj (.cons "type" (.str "Feature")
    (.cons "stac_version" (.str "1.0.0")
    (.cons "id" (.str "B")
    (.cons "geometry" (.obj (.cons "type" (.str "Point")
      (.cons "coordinates" (.arr (.cons (.num 1) (.cons (.num 1) .nil))) .nil)))
    (.cons "bbox" (.arr (.cons (.num 0) (.cons (.num 0)
      (.cons (.num 1) (.cons (.num 1) .nil)))))
    (.cons "properties"
      (.obj (.cons "datetime" (.str "2021-01-02T00:00:00Z") .nil))
    (.cons "assets"
      (.obj (.cons "a" (.obj (.cons "href" (.str "y") .nil))
        (.cons "b" (.obj (.cons "href" (.str "z") .nil)) .nil)))
    .nil)))))))

/-- Counterexample to claim C2 as stated: encoding the two items puts a
null at the absent asset slot (`b` of the first row) — that half holds —
but decoding the row back does NOT omit the key: the decoded item's
assets map still contains `b`, mapped to `null`. -/
theorem round_trip_keeps_absent_asset_cx :
    (((round_trip [cxItemA, cxItemB]).toOption.bind fun l => l.get? 0).bind
        fun v => jget2 v "assets" "b") = some JVal.null ∧
    (((stac_items_to_arrow [cxItemA, cxItemB]).toOption.bind
        fun b => getColumn? b "assets").bind
        fun col => (col.cells.get? 0).bind fun c =>
          match c with
          | .cstruct ps => ps.get "b"
          | _ => none) = some ACell.cnull := by
  constructor <;> rfl

/-! ## Round trip (claim C1): type-widening lemmas -/

theorem AFields_get_append_left :
    ∀ (fs gs : AFields) (k : String) (ty : AType), fs.get k = some ty →
      (fs.append gs).get k = some ty
  | .nil, gs, k, ty, h => by simp [AFields.get] at h
  | .cons n ty0 t, gs, k, ty, h => by
    by_cases hn : n = k
    · simp only [AFields.get, hn, if_true, reduceIte] at h ⊢
      exact h
    · simp only [AFields.get, hn, if_false, reduceIte] at h ⊢
      exact AFields_get_append_left t gs k ty h

theorem AFields_get_append_right :
    ∀ (fs gs : AFields) (k : String), fs.get k = none →
      (fs.append gs).get k = gs.get k
  | .nil, gs, k, _ => by simp [AFields.append]
  | .cons n ty0 t, gs, k, h => by
    by_cases hn : n = k
    · simp [AFields.get, hn] at h
    · simp only [AFields.get, hn, if_false, reduceIte] at h ⊢
      exact AFields_get_append_right t gs k h

theorem notIn_get :
    ∀ (gs fs : AFields) (k : String), fs.hasName k = false →
      (gs.notIn fs).get k = gs.get k
  | .nil, fs, k, _ => rfl
  | .cons n ty t, fs, k, h => by
    by_cases hm : fs.hasName n
    · have hn : n ≠ k := fun hc => by rw [hc] at hm; rw [h] at hm; cases hm
      simp only [AFields.notIn, hm, if_true, reduceIte]
      rw [notIn_get t fs k h]
      simp [AFields.get, hn]
    · simp only [AFields.notIn, hm, if_false, reduceIte]
      by_cases hn : n = k
      · simp [AFields.get, hn]
      · simp only [AFields.get, hn, if_false, reduceIte]
        exact notIn_get t fs k h

/-- Positional lookup facts of `unifyShared`. -/
theorem unifyShared_get :
    ∀ (fs gs hd : AFields) (k : String), unifyShared fs gs = some hd →
      (fs.get k = none → hd.get k = none) ∧
      (∀ ty, fs.get k = some ty →
        (∃ ty' u', gs.get k = some ty' ∧ unify ty ty' = some u' ∧
          hd.get k = some u') ∨
        (gs.get k = none ∧ hd.get k = some ty))
  | .nil, gs, hd, k, h => by
    have : hd = .nil := (Option.some.inj h).symm
    subst this
    exact ⟨fun _ => rfl, fun ty hty => by simp [AFields.get] at hty⟩
  | .cons n ty0 t, gs, hd, k, h => by
    rw [unifyShared] at h
    rcases hg : gs.get n with - | tyg <;> simp only [hg] at h
    · cases hrest : unifyShared t gs with
      | none =>
        simp only [hrest, Option.none_bind] at h
        exact absurd h (by simp)
      | some rest =>
        simp only [hrest] at h
        have hhd : hd = .cons n ty0 rest := (Option.some.inj h).symm
        subst hhd
        obtain ⟨ih1, ih2⟩ := unifyShared_get t gs rest k hrest
        by_cases hn : n = k
        · subst hn
          refine ⟨fun hc => by simp [AFields.get] at hc, ?_⟩
          intro ty hty
          simp only [AFields.get, if_true, Option.some.injEq, reduceIte] at hty ⊢
          exact Or.inr ⟨hg, hty.symm ▸ rfl⟩
        · simp only [AFields.get, hn, if_false, reduceIte]
          exact ⟨ih1, ih2⟩
    · cases hu : unify ty0 tyg with
      | none =>
        simp only [hu, Option.none_bind] at h
        exact absurd h (by simp)
      | some u0 =>
        simp only [hu, Option.some_bind] at h
        cases hrest : unifyShared t gs with
        | none =>
          simp only [hrest, Option.none_bind] at h
          exact absurd h (by simp)
        | some rest =>
          simp only [hrest] at h
          have hhd : hd = .cons n u0 rest := (Option.some.inj h).symm
          subst hhd
          obtain ⟨ih1, ih2⟩ := unifyShared_get t gs rest k hrest
          by_cases hn : n = k
          · subst hn
            refine ⟨fun hc => by simp [AFields.get] at hc, ?_⟩
            intro ty hty
            simp only [AFields.get, if_true, Option.some.injEq, reduceIte] at hty ⊢
            exact Or.inl ⟨tyg, u0, hg, hty.symm ▸ hu, rfl⟩
          · simp only [AFields.get, hn, if_false, reduceIte]
            exact ⟨ih1, ih2⟩

theorem unifyShared_names :
    ∀ (fs gs hd : AFields), unifyShared fs gs = some hd → hd.names = fs.names
  | .nil, gs, hd, h => by
    have : hd = .nil := (Option.some.inj h).symm
    subst this
    rfl
  | .cons n ty0 t, gs, hd, h => by
    rw [unifyShared] at h
    rcases hg : gs.get n with - | tyg <;> simp only [hg] at h
    · cases hrest : unifyShared t gs with
      | none =>
        simp only [hrest, Option.none_bind] at h
        exact absurd h (by simp)
      | some rest =>
        simp only [hrest] at h
        have hhd : hd = .cons n ty0 rest := (Option.some.inj h).symm
        subst hhd
        simp [AFields.names, unifyShared_names t gs rest hrest]
    · cases hu : unify ty0 tyg with
      | none =>
        simp only [hu, Option.none_bind] at h
        exact absurd h (by simp)
      | some u0 =>
        simp only [hu, Option.some_bind] at h
        cases hrest : unifyShared t gs with
        | none =>
          simp only [hrest, Option.none_bind] at h
          exact absurd h (by simp)
        | some rest =>
          simp only [hrest] at h
          have hhd : hd = .cons n u0 rest := (Option.some.inj h).symm
          subst hhd
          simp [AFields.names, unifyShared_names t gs rest hrest]

theorem hasName_iff_names :
    ∀ (fs : AFields) (k : String), fs.hasName k = true ↔ k ∈ fs.names
  | .nil, k => by simp [AFields.hasName, AFields.get, AFields.names]
  | .cons n ty t, k => by
    simp only [AFields.hasName, AFields.get, AFields.names, List.mem_cons]
    by_cases h : n = k
    · simp [h]
    · simp only [h, if_false, reduceIte]
      rw [← AFields.hasName]
      rw [hasName_iff_names t k]
      constructor
      · exact Or.inr
      · rintro (hh | hh)
        · exact absurd hh.symm h
        · exact hh

mutual
/-- Left widening: a value compatible with `a` stays compatible with any
join of `a`. -/
theorem U2L : ∀ (a b u : AType) (v : JVal), unify a b = some u →
    compat a v = true → compat u v = true
  | a, b, u, .null, _, _ => by cases u <;> rfl
  | a, b, u, .bool bv, h, hc => by
    cases a <;> simp [compat] at hc
    cases b <;> simp [unify] at h
    · rw [← h]; rfl
    · rw [← h]; rfl
  | a, b, u, .num q, h, hc => by
    cases a <;> simp [compat] at hc
    cases b <;> simp [unify] at h
    · rw [← h]; rfl
    · rw [← h]; rfl
  | a, b, u, .str s, h, hc => by
    cases a <;> simp [compat] at hc
    cases b <;> simp [unify] at h
    · rw [← h]; rfl
    · rw [← h]; rfl
  | a, b, u, .wkb g, h, hc => by
    cases a <;> simp [compat] at hc
    cases b <;> simp [unify] at h
    · rw [← h]; rfl
    · rw [← h]; rfl
  | a, b, u, .dt t, h, hc => by
    cases a <;> simp [compat] at hc
    case ats un tz =>
    cases b with
    | anull => rw [← Option.some.inj h]; rfl
    | ats un' tz' =>
      rcases hq : (decide (un = un') && decide (tz = tz')) with - | -
      · simp only [unify, hq, Bool.false_eq_true, if_false, reduceIte] at h
        exact absurd h (by simp)
      · simp only [unify, hq, if_true, reduceIte, Option.some.injEq] at h
        rw [← h]; rfl
    | abool => exact absurd h (by simp [unify])
    | anum => exact absurd h (by simp [unify])
    | astr => exact absurd h (by simp [unify])
    | abin => exact absurd h (by simp [unify])
    | alist e => exact absurd h (by simp [unify])
    | astruct fs => exact absurd h (by simp [unify])
  | a, b, u, .arr xs, h, hc => by
    cases a <;> simp [compat] at hc
    case alist e =>
    cases b <;> simp [unify] at h
    · rw [← h]; simp only [compat]; exact hc
    case alist e' =>
      obtain ⟨u', hue, hu⟩ := h
      rw [← hu]
      simp only [compat]
      exact U2LArr e e' u' xs hue hc
  | a, b, u, .obj kvs, h, hc => by
    cases a <;> simp [compat] at hc
    case astruct fs =>
    cases b <;> simp [unify] at h
    · rw [← h]; simp only [compat, Bool.and_eq_true]; exact hc
    case astruct gs =>
      obtain ⟨hd, hsh, hu⟩ := h
      rw [← hu]
      simp only [compat, Bool.and_eq_true]
      exact U2LObj fs gs hd kvs hsh hc.1 hc.2

theorem U2LArr : ∀ (a b u : AType) (xs : JArr), unify a b = some u →
    compatArr a xs = true → compatArr u xs = true
  | a, b, u, .nil, _, _ => by cases u <;> rfl
  | a, b, u, .cons v t, h, hc => by
    simp only [compatArr, Bool.and_eq_true] at hc ⊢
    exact ⟨U2L a b u v h hc.1, U2LArr a b u t h hc.2⟩

/-- Right widening: a value compatible with `b` is compatible with the
join of any `a` with `b`. -/
theorem U2R : ∀ (a b u : AType) (v : JVal), unify a b = some u →
    compat b v = true → compat u v = true
  | a, b, u, .null, _, _ => by cases u <;> rfl
  | a, b, u, .bool bv, h, hc => by
    cases b <;> simp [compat] at hc
    cases a <;> simp [unify] at h
    · rw [← h]; rfl
    · rw [← h]; rfl
  | a, b, u, .num q, h, hc => by
    cases b <;> simp [compat] at hc
    cases a <;> simp [unify] at h
    · rw [← h]; rfl
    · rw [← h]; rfl
  | a, b, u, .str s, h, hc => by
    cases b <;> simp [compat] at hc
    cases a <;> simp [unify] at h
    · rw [← h]; rfl
    · rw [← h]; rfl
  | a, b, u, .wkb g, h, hc => by
    cases b <;> simp [compat] at hc
    cases a <;> simp [unify] at h
    · rw [← h]; rfl
    · rw [← h]; rfl
  | a, b, u, .dt t, h, hc => by
    cases b <;> simp [compat] at hc
    case ats un' tz' =>
    cases a with
    | anull => rw [← Option.some.inj h]; rfl
    | ats un tz =>
      rcases hq : (decide (un = un') && decide (tz = tz')) with - | -
      · simp only [unify, hq, Bool.false_eq_true, if_false, reduceIte] at h
        exact absurd h (by simp)
      · simp only [unify, hq, if_true, reduceIte, Option.some.injEq] at h
        rw [← h]; rfl
    | abool => exact absurd h (by simp [unify])
    | anum => exact absurd h (by simp [unify])
    | astr => exact absurd h (by simp [unify])
    | abin => exact absurd h (by simp [unify])
    | alist e => exact absurd h (by simp [unify])
    | astruct fs => exact absurd h (by simp [unify])
  | a, b, u, .arr xs, h, hc => by
    cases b <;> simp [compat] at hc
    case alist e' =>
    cases a <;> simp [unify] at h
    · rw [← h]; simp only [compat]; exact hc
    case alist e =>
      obtain ⟨u', hue, hu⟩ := h
      rw [← hu]
      simp only [compat]
      exact U2RArr e e' u' xs hue hc
  | a, b, u, .obj kvs, h, hc => by
    cases b <;> simp [compat] at hc
    case astruct gs =>
    cases a <;> simp [unify] at h
    · rw [← h]; simp only [compat, Bool.and_eq_true]; exact hc
    case astruct fs =>
      obtain ⟨hd, hsh, hu⟩ := h
      rw [← hu]
      simp only [compat, Bool.and_eq_true]
      exact U2RObj fs gs hd kvs hsh hc.1 hc.2

theorem U2RArr : ∀ (a b u : AType) (xs : JArr), unify a b = some u →
    compatArr b xs = true → compatArr u xs = true
  | a, b, u, .nil, _, _ => by cases u <;> rfl
  | a, b, u, .cons v t, h, hc => by
    simp only [compatArr, Bool.and_eq_true] at hc ⊢
    exact ⟨U2R a b u v h hc.1, U2RArr a b u t h hc.2⟩

theorem U2RObj : ∀ (fs gs hd : AFields) (kvs : JObj),
    unifyShared fs gs = some hd →
    objKeysSub kvs gs = true → compatObj kvs gs = true →
    objKeysSub kvs (hd.append (gs.notIn fs)) = true ∧
    compatObj kvs (hd.append (gs.notIn fs)) = true
  | fs, gs, hd, .nil, _, _, _ => ⟨rfl, rfl⟩
  | fs, gs, hd, .cons k v t, h, hsub, hco => by
    simp only [objKeysSub, Bool.and_eq_true] at hsub
    simp only [compatObj, Bool.and_eq_true] at hco
    obtain ⟨hk, hsub'⟩ := hsub
    obtain ⟨hcv, hco'⟩ := hco
    rcases hgk : gs.get k with - | ty'
    · rw [AFields.hasName, hgk] at hk; cases hk
    · rw [hgk] at hcv
      obtain ⟨ih1, ih2⟩ := U2RObj fs gs hd t h hsub' hco'
      rcases hfk : fs.get k with - | ty
      · have hhd : hd.get k = none := (unifyShared_get fs gs hd k h).1 hfk
        have hfsname : fs.hasName k = false := by
          rw [AFields.hasName, hfk]; rfl
        have happ : (hd.append (gs.notIn fs)).get k = some ty' := by
          rw [AFields_get_append_right hd (gs.notIn fs) k hhd,
            notIn_get gs fs k hfsname, hgk]
        refine ⟨?_, ?_⟩
        · simp only [objKeysSub, Bool.and_eq_true]
          exact ⟨by rw [AFields.hasName, happ]; rfl, ih1⟩
        · simp only [compatObj, Bool.and_eq_true]
          exact ⟨by rw [happ]; exact hcv, ih2⟩
      · rcases (unifyShared_get fs gs hd k h).2 ty hfk with
          ⟨ty'', u', hg2, hu, hhd⟩ | ⟨hgnone, -⟩
        · have hts : ty'' = ty' := by
            rw [hgk] at hg2
            exact (Option.some.inj hg2).symm
          rw [hts] at hu
          have hc' : compat u' v = true := U2R ty ty' u' v hu hcv
          have happ := AFields_get_append_left hd (gs.notIn fs) k u' hhd
          refine ⟨?_, ?_⟩
          · simp only [objKeysSub, Bool.and_eq_true]
            exact ⟨by rw [AFields.hasName, happ]; rfl, ih1⟩
          · simp only [compatObj, Bool.and_eq_true]
            exact ⟨by rw [happ]; exact hc', ih2⟩
        · rw [hgnone] at hgk; cases hgk

theorem U2LObj : ∀ (fs gs hd : AFields) (kvs : JObj),
    unifyShared fs gs = some hd →
    objKeysSub kvs fs = true → compatObj kvs fs = true →
    objKeysSub kvs (hd.append (gs.notIn fs)) = true ∧
    compatObj kvs (hd.append (gs.notIn fs)) = true
  | fs, gs, hd, .nil, _, _, _ => ⟨rfl, rfl⟩
  | fs, gs, hd, .cons k v t, h, hsub, hco => by
    simp only [objKeysSub, Bool.and_eq_true] at hsub
    simp only [compatObj, Bool.and_eq_true] at hco
    obtain ⟨hk, hsub'⟩ := hsub
    obtain ⟨hcv, hco'⟩ := hco
    rcases hfk : fs.get k with - | ty
    · rw [AFields.hasName, hfk] at hk; cases hk
    · rw [hfk] at hcv
      obtain ⟨ih1, ih2⟩ := U2LObj fs gs hd t h hsub' hco'
      rcases (unifyShared_get fs gs hd k h).2 ty hfk with
        ⟨ty', u', hg, hu, hhd⟩ | ⟨hg, hhd⟩
      · have hc' : compat u' v = true := U2L ty ty' u' v hu hcv
        have happ := AFields_get_append_left hd (gs.notIn fs) k u' hhd
        refine ⟨?_, ?_⟩
        · simp only [objKeysSub, Bool.and_eq_true]
          exact ⟨by rw [AFields.hasName, happ]; rfl, ih1⟩
        · simp only [compatObj, Bool.and_eq_true]
          exact ⟨by rw [happ]; exact hc', ih2⟩
      · have happ := AFields_get_append_left hd (gs.notIn fs) k ty hhd
        refine ⟨?_, ?_⟩
        · simp only [objKeysSub, Bool.and_eq_true]
          exact ⟨by rw [AFields.hasName, happ]; rfl, ih1⟩
        · simp only [compatObj, Bool.and_eq_true]
          exact ⟨by rw [happ]; exact hcv, ih2⟩
end

theorem objKeysSub_of : ∀ (kvs : JObj) (fs : AFields),
    (∀ k, kvs.hasKey k = true → fs.hasName k = true) →
    objKeysSub kvs fs = true
  | .nil, fs, _ => rfl
  | .cons k v t, fs, h => by
    simp only [objKeysSub, Bool.and_eq_true]
    refine ⟨h k (by simp [JObj.hasKey, JObj.get]), ?_⟩
    refine objKeysSub_of t fs fun k' hk' => h k' ?_
    rw [JObj.hasKey] at hk' ⊢
    by_cases hkk : k = k'
    · simp [JObj.get, hkk]
    · simp only [JObj.get, hkk, if_false, reduceIte]
      exact hk'

theorem compatObj_of : ∀ (kvs : JObj) (fs : AFields), wfJObj kvs = true →
    (∀ k v, kvs.get k = some v → ∃ ty, fs.get k = some ty ∧ compat ty v = true) →
    compatObj kvs fs = true
  | .nil, fs, _, _ => rfl
  | .cons k v t, fs, hw, h => by
    simp only [wfJObj, Bool.and_eq_true] at hw
    obtain ⟨⟨hnk, hwv⟩, hwt⟩ := hw
    obtain ⟨ty, hty, hc⟩ := h k v (by simp [JObj.get])
    simp only [compatObj, Bool.and_eq_true, hty]
    refine ⟨hc, ?_⟩
    refine compatObj_of t fs hwt fun k' v' hk' => h k' v' ?_
    have hkk : k ≠ k' := by
      intro hc'
      subst hc'
      rw [JObj.hasKey] at hnk
      rw [hk'] at hnk
      cases hnk
    simp only [JObj.get, hkk, if_false, reduceIte]
    exact hk'

mutual
/-- The inferred type of a well-formed value accepts the value. -/
theorem U1J : ∀ (v : JVal) (t : AType), wfJ v = true → inferJ v = some t →
    compat t v = true
  | .null, t, _, h => by rw [← Option.some.inj h]; rfl
  | .bool b, t, _, h => by rw [← Option.some.inj h]; rfl
  | .num q, t, _, h => by rw [← Option.some.inj h]; rfl
  | .str s, t, _, h => by rw [← Option.some.inj h]; rfl
  | .dt d, t, hw, h => by exact absurd hw (by simp [wfJ])
  | .wkb g, t, hw, h => by exact absurd hw (by simp [wfJ])
  | .arr xs, t, hw, h => by
    simp only [inferJ, Option.map_eq_some'] at h
    obtain ⟨e, he, ht⟩ := h
    rw [← ht]
    simp only [compat]
    exact U1Arr xs e (by simpa [wfJ] using hw) he
  | .obj kvs, t, hw, h => by
    simp only [inferJ, Option.map_eq_some'] at h
    obtain ⟨fs, hfs, ht⟩ := h
    rw [← ht]
    simp only [compat, Bool.and_eq_true]
    have hwo : wfJObj kvs = true := by simpa [wfJ] using hw
    have hfacts := U1Obj kvs fs hwo hfs
    refine ⟨?_, compatObj_of kvs fs hwo hfacts⟩
    refine objKeysSub_of kvs fs fun k hk => ?_
    rw [JObj.hasKey] at hk
    rcases hkv : kvs.get k with - | v
    · rw [hkv] at hk; cases hk
    · obtain ⟨ty, hty, -⟩ := hfacts k v hkv
      rw [AFields.hasName, hty]
      rfl

theorem U1Arr : ∀ (xs : JArr) (e : AType), wfJArr xs = true →
    inferArr xs = some e → compatArr e xs = true
  | .nil, e, _, h => by rw [← Option.some.inj h]; rfl
  | .cons v tl, e, hw, h => by
    simp only [wfJArr, Bool.and_eq_true] at hw
    rw [inferArr] at h
    rcases hv : inferJ v with - | tv
    · rw [hv] at h; exact absurd h (by simp)
    · rw [hv] at h
      rcases ht : inferArr tl with - | tt
      · simp only [ht, Option.some_bind, Option.none_bind] at h
        exact absurd h (by simp)
      · simp only [hv, ht, Option.some_bind] at h
        simp only [compatArr, Bool.and_eq_true]
        exact ⟨U2L tv tt e v h (U1J v tv hw.1 hv),
          U2RArr tv tt e tl h (U1Arr tl tt hw.2 ht)⟩

theorem U1Obj : ∀ (kvs : JObj) (fs : AFields), wfJObj kvs = true →
    inferObj kvs = some fs →
    ∀ k v, kvs.get k = some v → ∃ ty, fs.get k = some ty ∧ compat ty v = true
  | .nil, fs, _, _ => by
    intro k v hkv
    simp [JObj.get] at hkv
  | .cons k0 v0 tl, fs, hw, h => by
    simp only [wfJObj, Bool.and_eq_true] at hw
    obtain ⟨⟨-, hwv⟩, hwt⟩ := hw
    rw [inferObj] at h
    rcases hv : inferJ v0 with - | tv0
    · rw [hv] at h; exact absurd h (by simp)
    · rcases ht : inferObj tl with - | tt
      · simp only [hv, ht, Option.some_bind, Option.none_bind] at h
        exact absurd h (by simp)
      · simp only [hv, ht, Option.some_bind] at h
        have hfs : fs = .cons k0 tv0 tt := (Option.some.inj h).symm
        subst hfs
        intro k v hkv
        by_cases hkk : k0 = k
        · subst hkk
          simp only [JObj.get, if_true, Option.some.injEq, reduceIte] at hkv
          subst hkv
          exact ⟨tv0, by simp [AFields.get], U1J v0 tv0 hwv hv⟩
        · simp only [JObj.get, hkk, if_false, reduceIte] at hkv
          obtain ⟨ty, hty, hc⟩ := U1Obj tl tt hwt ht k v hkv
          refine ⟨ty, ?_, hc⟩
          simp only [AFields.get, hkk, if_false, reduceIte]
          exact hty
end

theorem strEquiv_refl (s : String) : strEquiv s s = true := by
  rw [strEquiv]
  rcases h : parse_rfc3339? s with - | t
  · simp
  · simp

/-- Two strings that parse to the same timestamp are equivalent under the
round-trip string comparison. -/
theorem strEquiv_of_parse {a b : String} {t : TsRec}
    (ha : parse_rfc3339? a = some t) (hb : parse_rfc3339? b = some t) :
    strEquiv a b = true := by
  simp only [strEquiv, ha, hb]
  simp

theorem jeqMissing_of : ∀ (b a : JObj),
    (∀ k, b.hasKey k = true → a.hasKey k = true) → jeqMissing b a = true
  | .nil, a, _ => rfl
  | .cons k w t, a, h => by
    simp only [jeqMissing, Bool.and_eq_true, Bool.or_eq_true]
    refine ⟨Or.inl (h k (by simp [JObj.hasKey, JObj.get])), ?_⟩
    refine jeqMissing_of t a fun k' hk' => h k' ?_
    rw [JObj.hasKey] at hk' ⊢
    by_cases hkk : k = k'
    · simp [JObj.get, hkk]
    · simp only [JObj.get, hkk, if_false, reduceIte]
      exact hk'

theorem JObj_hasKey_mem : ∀ (t : JObj) (k : String),
    t.hasKey k = true ↔ k ∈ t.keys
  | .nil, k => by simp [JObj.hasKey, JObj.get, JObj.keys]
  | .cons k0 v t, k => by
    simp only [JObj.hasKey, JObj.get, JObj.keys, List.mem_cons]
    by_cases h : k0 = k
    · simp [h]
    · simp only [h, if_false, reduceIte]
      rw [← JObj.hasKey, JObj_hasKey_mem t k]
      constructor
      · exact Or.inr
      · rintro (hh | hh)
        · exact absurd hh.symm h
        · exact hh

mutual
/-- The round-trip equivalence is reflexive on well-formed values. -/
theorem jeq_refl : ∀ (v : JVal), wfJ v = true → jeq v v = true
  | .null, _ => rfl
  | .bool b, _ => by simp [jeq]
  | .num q, _ => by simp [jeq, numClose]
  | .str s, _ => by simp only [jeq]; exact strEquiv_refl s
  | .dt d, hw => by exact absurd hw (by simp [wfJ])
  | .wkb g, hw => by exact absurd hw (by simp [wfJ])
  | .arr xs, hw => by
    simp only [jeq]
    exact jeqArr_refl xs (by simpa [wfJ] using hw)
  | .obj kvs, hw => by
    have hwo : wfJObj kvs = true := by simpa [wfJ] using hw
    simp only [jeq, Bool.and_eq_true]
    exact ⟨jeqFwd_sub kvs kvs hwo fun k v h => h,
      jeqMissing_of kvs kvs fun k h => h⟩

theorem jeqArr_refl : ∀ (xs : JArr), wfJArr xs = true → jeqArr xs xs = true
  | .nil, _ => rfl
  | .cons v t, hw => by
    simp only [wfJArr, Bool.and_eq_true] at hw
    simp only [jeqArr, Bool.and_eq_true]
    exact ⟨jeq_refl v hw.1, jeqArr_refl t hw.2⟩

theorem jeqFwd_sub : ∀ (t a : JObj), wfJObj t = true →
    (∀ k v, t.get k = some v → a.get k = some v) → jeqFwd t a = true
  | .nil, a, _, _ => rfl
  | .cons k v tl, a, hw, h => by
    simp only [wfJObj, Bool.and_eq_true] at hw
    obtain ⟨⟨hnk, hwv⟩, hwt⟩ := hw
    have hak : a.get k = some v := h k v (by simp [JObj.get])
    simp only [jeqFwd, hak, Bool.and_eq_true]
    refine ⟨jeq_refl v hwv, ?_⟩
    refine jeqFwd_sub tl a hwt fun k' v' hk' => h k' v' ?_
    have hkk : k ≠ k' := by
      intro hc
      subst hc
      rw [JObj.hasKey, hk'] at hnk
      cases hnk
    simp only [JObj.get, hkk, if_false, reduceIte]
    exact hk'
end

theorem jeqFwd_ext : ∀ (a b : JObj), a.keys.Nodup →
    (∀ k v, a.get k = some v →
      (match b.get k with
       | some w => jeq v w = true
       | none => isNullJ v = true)) →
    jeqFwd a b = true
  | .nil, b, _, _ => rfl
  | .cons k v t, b, hnd, h => by
    simp only [JObj.keys, List.nodup_cons] at hnd
    have hk := h k v (by simp [JObj.get])
    simp only [jeqFwd, Bool.and_eq_true]
    constructor
    · rcases hbk : b.get k with - | w <;> rw [hbk] at hk <;> simpa using hk
    · refine jeqFwd_ext t b hnd.2 fun k' v' hk' => h k' v' ?_
      have hkk : k ≠ k' := by
        intro hc
        subst hc
        have : k ∈ t.keys := by
          rw [← JObj_hasKey_mem, JObj.hasKey, hk']
          rfl
        exact hnd.1 this
      simp only [JObj.get, hkk, if_false, reduceIte]
      exact hk'

/-- Object equivalence from pointwise lookup facts. -/
theorem jeq_obj_ext (a b : JObj) (hnd : a.keys.Nodup)
    (hfwd : ∀ k v, a.get k = some v →
      (match b.get k with
       | some w => jeq v w = true
       | none => isNullJ v = true))
    (hmiss : ∀ k, b.hasKey k = true → a.hasKey k = true) :
    jeq (.obj a) (.obj b) = true := by
  simp only [jeq, Bool.and_eq_true]
  exact ⟨jeqFwd_ext a b hnd hfwd, jeqMissing_of b a hmiss⟩

theorem arrangePairs_get : ∀ (fs : AFields) (cs : APairs) (k : String)
    (ty : AType), fs.get k = some ty →
    (arrangePairs fs cs).get k = some ((cs.get k).getD .cnull)
  | .nil, cs, k, ty, h => by simp [AFields.get] at h
  | .cons n ty0 rest, cs, k, ty, h => by
    by_cases hn : n = k
    · subst hn
      simp [arrangePairs, APairs.get]
    · simp only [AFields.get, hn, if_false, reduceIte] at h
      simp only [arrangePairs, APairs.get, hn, if_false, reduceIte]
      exact arrangePairs_get rest cs k ty h

theorem objKeysSub_hasName : ∀ (kvs : JObj) (fs : AFields),
    objKeysSub kvs fs = true → ∀ k, kvs.hasKey k = true → fs.hasName k = true
  | .nil, fs, _, k, hk => by simp [JObj.hasKey, JObj.get] at hk
  | .cons k0 v t, fs, h, k, hk => by
    simp only [objKeysSub, Bool.and_eq_true] at h
    by_cases hkk : k0 = k
    · exact hkk ▸ h.1
    · rw [JObj.hasKey] at hk
      simp only [JObj.get, hkk, if_false, reduceIte] at hk
      exact objKeysSub_hasName t fs h.2 k hk

/-- Pointwise forward comparison of a struct read-back against the dict it
was converted from. -/
theorem jeqFwd_fields : ∀ (fs : AFields) (cs : APairs) (kvs : JObj),
    (∀ n v, kvs.get n = some v →
      ∃ c, cs.get n = some c ∧ jeq (readCell c) v = true) →
    (∀ n, kvs.get n = none → cs.get n = none) →
    jeqFwd (readPairs (arrangePairs fs cs)) kvs = true
  | .nil, cs, kvs, _, _ => rfl
  | .cons n ty rest, cs, kvs, h1, h2 => by
    simp only [arrangePairs, readPairs, jeqFwd, Bool.and_eq_true]
    refine ⟨?_, jeqFwd_fields rest cs kvs h1 h2⟩
    rcases hk : kvs.get n with - | w
    · rw [h2 n hk]
      rfl
    · obtain ⟨c, hc, hjeq⟩ := h1 n w hk
      rw [hc]
      simpa using hjeq

mutual
/-- Conversion at a compatible type succeeds and reads back equivalent
(up to missing struct fields materialising as `null`). -/
theorem LPrimeJ : ∀ (t : AType) (v : JVal), wfJ v = true → compat t v = true →
    ∃ c, mkCell t v = some c ∧ jeq (readCell c) v = true
  | t, .null, _, _ => by
    refine ⟨.cnull, ?_, rfl⟩
    cases t <;> rfl
  | t, .bool b, _, hc => by
    cases t <;> simp [compat] at hc
    exact ⟨.cbool b, rfl, by simp [readCell, jeq]⟩
  | t, .num q, _, hc => by
    cases t <;> simp [compat] at hc
    exact ⟨.cnum q, rfl, by simp [readCell, jeq, numClose]⟩
  | t, .str s, _, hc => by
    cases t <;> simp [compat] at hc
    exact ⟨.cstr s, rfl, by simp only [readCell, jeq]; exact strEquiv_refl s⟩
  | t, .dt d, hw, _ => by exact absurd hw (by simp [wfJ])
  | t, .wkb g, hw, _ => by exact absurd hw (by simp [wfJ])
  | t, .arr xs, hw, hc => by
    cases t <;> simp [compat] at hc
    case alist e =>
    obtain ⟨cs, hcs, hjeq⟩ :=
      LPrimeArr e xs (by simpa [wfJ] using hw) hc
    refine ⟨.clist cs, ?_, ?_⟩
    · simp [mkCell, hcs]
    · simpa [readCell, jeq] using hjeq
  | t, .obj kvs, hw, hc => by
    cases t <;> simp [compat] at hc
    case astruct fs =>
    have hwo : wfJObj kvs = true := by simpa [wfJ] using hw
    obtain ⟨cs, hcs, hpt, hnone⟩ := LPrimeObj kvs fs hwo hc.2
    refine ⟨.cstruct (arrangePairs fs cs), ?_, ?_⟩
    · simp [mkCell, hc.1, hcs]
    · simp only [readCell, jeq, Bool.and_eq_true]
      refine ⟨jeqFwd_fields fs cs kvs hpt hnone, ?_⟩
      refine jeqMissing_of kvs (readPairs (arrangePairs fs cs)) fun k hk => ?_
      have hfn : fs.hasName k = true := objKeysSub_hasName kvs fs hc.1 k hk
      rw [AFields.hasName] at hfn
      rcases hfk : fs.get k with - | ty
      · rw [hfk] at hfn; cases hfn
      · have := arrangePairs_get fs cs k ty hfk
        rw [JObj.hasKey, readPairs_get (arrangePairs fs cs) k _ this]
        rfl

theorem LPrimeArr : ∀ (e : AType) (xs : JArr), wfJArr xs = true →
    compatArr e xs = true →
    ∃ cs, mkCells e xs = some cs ∧ jeqArr (readCells cs) xs = true
  | e, .nil, _, _ => ⟨.nil, rfl, rfl⟩
  | e, .cons v t, hw, hc => by
    simp only [wfJArr, Bool.and_eq_true] at hw
    simp only [compatArr, Bool.and_eq_true] at hc
    obtain ⟨c, hcv, hjeq⟩ := LPrimeJ e v hw.1 hc.1
    obtain ⟨cst, hcst, hjeqs⟩ := LPrimeArr e t hw.2 hc.2
    refine ⟨.cons c cst, ?_, ?_⟩
    · rw [mkCells, hcv, hcst]
      rfl
    · simp only [readCells, jeqArr, Bool.and_eq_true]
      exact ⟨hjeq, hjeqs⟩

theorem LPrimeObj : ∀ (kvs : JObj) (fs : AFields), wfJObj kvs = true →
    compatObj kvs fs = true →
    ∃ cs, mkObjCells kvs fs = some cs ∧
      (∀ n v, kvs.get n = some v →
        ∃ c, cs.get n = some c ∧ jeq (readCell c) v = true) ∧
      (∀ n, kvs.get n = none → cs.get n = none)
  | .nil, fs, _, _ => by
    refine ⟨.nil, rfl, ?_, fun n _ => rfl⟩
    intro n v h
    simp [JObj.get] at h
  | .cons k v t, fs, hw, hc => by
    simp only [wfJObj, Bool.and_eq_true] at hw
    obtain ⟨⟨-, hwv⟩, hwt⟩ := hw
    simp only [compatObj, Bool.and_eq_true] at hc
    obtain ⟨hcv, hct⟩ := hc
    rcases hfk : fs.get k with - | ty
    · rw [hfk] at hcv; cases hcv
    · rw [hfk] at hcv
      obtain ⟨c, hcell, hjeq⟩ := LPrimeJ ty v hwv hcv
      obtain ⟨cst, hcst, hpt, hnone⟩ := LPrimeObj t fs hwt hct
      refine ⟨.cons k c cst, ?_, ?_, ?_⟩
      · rw [mkObjCells]
        simp only [hfk]
        rw [hcell, hcst]
        rfl
      · intro n w hn
        by_cases hkn : k = n
        · subst hkn
          simp only [JObj.get, if_true, Option.some.injEq, reduceIte] at hn
          subst hn
          exact ⟨c, by simp [APairs.get], hjeq⟩
        · simp only [JObj.get, hkn, if_false, reduceIte] at hn
          obtain ⟨c', hc', hjeq'⟩ := hpt n w hn
          refine ⟨c', ?_, hjeq'⟩
          simp only [APairs.get, hkn, if_false, reduceIte]
          exact hc'
      · intro n hn
        by_cases hkn : k = n
        · subst hkn
          simp [JObj.get] at hn
        · simp only [JObj.get, hkn, if_false, reduceIte] at hn
          simp only [APairs.get, hkn, if_false, reduceIte]
          exact hnone n hn
end

mutual
/-- A parsed GeoJSON coordinate tree renders back to the exact value. -/
theorem jvalOfCoord_roundtrip : ∀ (v : JVal) (c : Coord),
    coordOfJVal v = some c → jvalOfCoord c = v
  | .num q, c, h => by
    rw [← Option.some.inj h]
    rfl
  | .arr xs, c, h => by
    simp only [coordOfJVal, Option.map_eq_some'] at h
    obtain ⟨cl, hcl, hc⟩ := h
    rw [← hc]
    simp only [jvalOfCoord]
    rw [jvalOfCoordList_roundtrip xs cl hcl]
  | .null, c, h => by simp [coordOfJVal] at h
  | .bool b, c, h => by simp [coordOfJVal] at h
  | .str s, c, h => by simp [coordOfJVal] at h
  | .dt d, c, h => by simp [coordOfJVal] at h
  | .wkb g, c, h => by simp [coordOfJVal] at h
  | .obj kvs, c, h => by simp [coordOfJVal] at h

theorem jvalOfCoordList_roundtrip : ∀ (xs : JArr) (cl : CoordList),
    coordOfJArr xs = some cl → jvalOfCoordList cl = xs
  | .nil, cl, h => by
    rw [← Option.some.inj h]
    rfl
  | .cons v t, cl, h => by
    rw [coordOfJArr] at h
    rcases hv : coordOfJVal v with - | cv
    · rw [hv] at h; exact absurd h (by simp)
    · rcases ht : coordOfJArr t with - | ct
      · simp only [hv, ht, Option.some_bind, Option.none_bind] at h
        exact absurd h (by simp)
      · simp only [hv, ht, Option.some_bind] at h
        rw [← Option.some.inj h]
        simp only [jvalOfCoordList]
        rw [jvalOfCoord_roundtrip v cv hv, jvalOfCoordList_roundtrip t ct ht]
end

/-- A JSON array of plain numbers (the shape of a corpus `bbox`). -/
def arrOfRats : List ℚ → JArr
  | [] => .nil
  | q :: qs => .cons (.num q) (arrOfRats qs)

theorem infer_arrOfRats : ∀ (qs : List ℚ), qs ≠ [] →
    inferArr (arrOfRats qs) = some .anum
  | [], h => absurd rfl h
  | [q], _ => rfl
  | q :: q' :: qs, _ => by
    rw [show arrOfRats (q :: q' :: qs) = .cons (.num q) (arrOfRats (q' :: qs))
      from rfl, inferArr]
    rw [infer_arrOfRats (q' :: qs) (by simp)]
    rfl

theorem mkCells_arrOfRats : ∀ (qs : List ℚ),
    mkCells .anum (arrOfRats qs) = some (convert_bbox_to_array.listCells qs)
  | [] => rfl
  | q :: qs => by
    rw [show arrOfRats (q :: qs) = .cons (.num q) (arrOfRats qs) from rfl,
      mkCells, show mkCell .anum (.num q) = some (.cnum q) from rfl,
      mkCells_arrOfRats qs]
    rfl

theorem readCells_listCells : ∀ (qs : List ℚ),
    readCells (convert_bbox_to_array.listCells qs) = arrOfRats qs
  | [] => rfl
  | q :: qs => by
    simp only [convert_bbox_to_array.listCells, readCells, readCell, arrOfRats]
    rw [readCells_listCells qs]

theorem listCells_toList_len : ∀ (qs : List ℚ),
    (convert_bbox_to_array.listCells qs).toList.length = qs.length
  | [] => rfl
  | q :: qs => by
    simp only [convert_bbox_to_array.listCells, ACells.toList, List.length_cons]
    rw [listCells_toList_len qs]

theorem listCells_mapM_num : ∀ (qs : List ℚ),
    (convert_bbox_to_array.listCells qs).toList.mapM cellNum? = .ok qs
  | [] => rfl
  | q :: qs => by
    simp only [convert_bbox_to_array.listCells, ACells.toList, List.mapM_cons]
    rw [show cellNum? (.cnum q) = .ok q from rfl, ok_bind,
      listCells_mapM_num qs, ok_bind]
    rfl

theorem mapM_congr {α β : Type} (f g : α → Except PyErr β) :
    ∀ (l : List α), (∀ a ∈ l, f a = g a) → l.mapM f = l.mapM g
  | [], _ => rfl
  | x :: t, h => by
    rw [List.mapM_cons, List.mapM_cons, h x (List.mem_cons_self x t),
      mapM_congr f g t fun a ha => h a (List.mem_cons_of_mem x ha)]

/-- Reading the bbox struct fields back yields the zipped rationals. -/
theorem zipPairs_mapM : ∀ (names : List String) (qs : List ℚ),
    names.Nodup → qs.length = names.length →
    names.mapM (bboxStructFieldNum (.cstruct (zipPairs names qs))) = .ok qs
  | [], [], _, _ => rfl
  | [], q :: qs, _, hl => by simp at hl
  | n :: ns, [], _, hl => by simp at hl
  | n :: ns, q :: qs, hnd, hl => by
    simp only [List.nodup_cons] at hnd
    simp only [List.length_cons, Nat.succ.injEq] at hl
    rw [List.mapM_cons]
    rw [show bboxStructFieldNum (.cstruct (zipPairs (n :: ns) (q :: qs))) n =
      .ok q by simp [bboxStructFieldNum, zipPairs, APairs.get], ok_bind]
    have hcongr : ns.mapM
        (bboxStructFieldNum (.cstruct (zipPairs (n :: ns) (q :: qs)))) =
        ns.mapM (bboxStructFieldNum (.cstruct (zipPairs ns qs))) := by
      refine mapM_congr _ _ ns fun m hm => ?_
      have hmn : n ≠ m := fun hc => hnd.1 (hc ▸ hm)
      simp [bboxStructFieldNum, zipPairs, APairs.get, hmn]
    rw [hcongr, zipPairs_mapM ns qs hnd.2 hl, ok_bind]
    rfl

/-- The corpus shape of the `assets` member: every asset value is an
object without a `proj:geometry` member. -/
def wfAssets : JObj → Bool
  | .nil => true
  | .cons _ v t =>
    (match v with
     | .obj av => !av.hasKey "proj:geometry"
     | _ => false) && wfAssets t

theorem wkbAssets_wf : ∀ (A : JObj), wfAssets A = true → wkbAssets A = .ok A
  | .nil, _ => rfl
  | .cons k v t, h => by
    simp only [wfAssets, Bool.and_eq_true] at h
    obtain ⟨hv, ht⟩ := h
    cases v with
    | obj av =>
      simp only [Bool.not_eq_true'] at hv
      have hget : av.get "proj:geometry" = none := by
        rw [JObj.hasKey] at hv
        exact Option.not_isSome_iff_eq_none.mp (by simp [hv])
      rw [wkbAssets]
      simp only [hget]
      rw [wkbAssets_wf t ht]
      rfl
    | null => simp at hv
    | bool b => simp at hv
    | num q => simp at hv
    | str s => simp at hv
    | dt d => simp at hv
    | wkb g => simp at hv
    | arr xs => simp at hv

theorem inferObj_names : ∀ (kvs : JObj) (fs : AFields),
    inferObj kvs = some fs → fs.names = kvs.keys
  | .nil, fs, h => by
    rw [← Option.some.inj h]
    rfl
  | .cons k v t, fs, h => by
    rw [inferObj] at h
    rcases hv : inferJ v with - | tv
    · rw [hv] at h; exact absurd h (by simp)
    · rcases ht : inferObj t with - | tt
      · simp only [hv, ht, Option.some_bind, Option.none_bind] at h
        exact absurd h (by simp)
      · simp only [hv, ht, Option.some_bind] at h
        rw [← Option.some.inj h]
        simp only [AFields.names, JObj.keys]
        rw [inferObj_names t tt ht]

/-- Under the corpus asset shape, the inferred assets struct advertises no
asset-level `proj:geometry` paths. -/
theorem assetGeomPaths_nil : ∀ (A : JObj) (AF : AFields),
    wfAssets A = true → inferObj A = some AF → assetGeomPaths AF = []
  | .nil, AF, _, h => by
    rw [← Option.some.inj h]
    rfl
  | .cons k v t, AF, hw, h => by
    simp only [wfAssets, Bool.and_eq_true] at hw
    obtain ⟨hv, ht⟩ := hw
    rw [inferObj] at h
    rcases hiv : inferJ v with - | tv
    · rw [hiv] at h; exact absurd h (by simp)
    · rcases hit : inferObj t with - | tt
      · simp only [hiv, hit, Option.some_bind, Option.none_bind] at h
        exact absurd h (by simp)
      · simp only [hiv, hit, Option.some_bind] at h
        rw [← Option.some.inj h]
        cases v with
        | obj av =>
          simp only [Bool.not_eq_true'] at hv
          simp only [inferJ, Option.map_eq_some'] at hiv
          obtain ⟨avf, havf, htv⟩ := hiv
          rw [← htv]
          simp only [assetGeomPaths]
          have hnm : avf.hasName "proj:geometry" = false := by
            rcases hnm2 : avf.hasName "proj:geometry" with - | -
            · rfl
            · exfalso
              rw [hasName_iff_names, inferObj_names av avf havf,
                ← JObj_hasKey_mem] at hnm2
              rw [hnm2] at hv
              cases hv
          rw [hnm]
          simp only [Bool.false_eq_true, if_false, List.nil_append, reduceIte]
          exact assetGeomPaths_nil t tt ht hit
        | null => simp at hv
        | bool b => simp at hv
        | num q => simp at hv
        | str s => simp at hv
        | dt d => simp at hv
        | wkb g => simp at hv
        | arr xs => simp at hv

theorem getColumn?_cons_self (m : String) (c : Col) (t : Batch) :
    getColumn? ((m, c) :: t) m = some c := by
  simp [getColumn?, List.find?]

theorem getColumn?_cons_ne (m n : String) (c : Col) (t : Batch)
    (h : m ≠ n) : getColumn? ((m, c) :: t) n = getColumn? t n := by
  simp [getColumn?, List.find?, show (m == n) = false by simpa using h]

theorem getColumn?_none_iff : ∀ (b : Batch) (n : String),
    getColumn? b n = none ↔ n ∉ b.map Prod.fst
  | [], n => by simp [getColumn?]
  | (m, c) :: t, n => by
    by_cases hm : m = n
    · subst hm
      rw [getColumn?_cons_self]
      simp
    · rw [getColumn?_cons_ne m n c t hm, getColumn?_none_iff t n]
      simp only [List.map_cons, List.mem_cons]
      constructor
      · intro h hc
        rcases hc with hc | hc
        · exact hm hc.symm
        · exact h hc
      · intro h hc
        exact h (Or.inr hc)

/-- A batch with duplicate-free column names is determined by its name
list and its per-name columns. -/
theorem batch_ext : ∀ (b b' : Batch),
    b.map Prod.fst = b'.map Prod.fst → (b.map Prod.fst).Nodup →
    (∀ n, getColumn? b n = getColumn? b' n) → b = b'
  | [], [], _, _, _ => rfl
  | [], (m', c') :: t', hn, _, _ => by simp at hn
  | (m, c) :: t, [], hn, _, _ => by simp at hn
  | (m, c) :: t, (m', c') :: t', hn, hnd, hcols => by
    simp only [List.map_cons, List.cons.injEq] at hn
    obtain ⟨hm, ht⟩ := hn
    subst hm
    simp only [List.map_cons, List.nodup_cons] at hnd
    have hc : c = c' := by
      have := hcols m
      rw [getColumn?_cons_self, getColumn?_cons_self] at this
      exact Option.some.inj this
    subst hc
    have htails : t = t' := by
      refine batch_ext t t' ht hnd.2 fun n => ?_
      by_cases hnm : n = m
      · subst hnm
        have h1 : getColumn? t n = none :=
          (getColumn?_none_iff t n).mpr hnd.1
        have h2 : getColumn? t' n = none := by
          rw [getColumn?_none_iff, ← ht]
          exact hnd.1
        rw [h1, h2]
      · have := hcols n
        rw [getColumn?_cons_ne m n _ _ (fun hc => hnm hc.symm),
          getColumn?_cons_ne m n _ _ (fun hc => hnm hc.symm)] at this
        exact this
    rw [htails]

theorem getColumn?_append_left : ∀ (l r : Batch) (n : String) (c : Col),
    getColumn? l n = some c → getColumn? (l ++ r) n = some c
  | [], r, n, c, h => by simp [getColumn?] at h
  | (m, c0) :: t, r, n, c, h => by
    by_cases hm : m = n
    · subst hm
      rw [getColumn?_cons_self] at h
      rw [List.cons_append, getColumn?_cons_self]
      exact h
    · rw [getColumn?_cons_ne m n _ _ hm] at h
      rw [List.cons_append, getColumn?_cons_ne m n _ _ hm]
      exact getColumn?_append_left t r n c h

theorem getColumn?_append_right : ∀ (l r : Batch) (n : String),
    getColumn? l n = none → getColumn? (l ++ r) n = getColumn? r n
  | [], r, n, _ => rfl
  | (m, c0) :: t, r, n, h => by
    by_cases hm : m = n
    · subst hm
      rw [getColumn?_cons_self] at h
      cases h
    · rw [getColumn?_cons_ne m n _ _ hm] at h
      rw [List.cons_append, getColumn?_cons_ne m n _ _ hm]
      exact getColumn?_append_right t r n h

theorem getColumn?_filter : ∀ (l : Batch) (q : String × Col → Bool)
    (n : String), (∀ p : String × Col, p.1 = n → q p = true) →
    getColumn? (l.filter q) n = getColumn? l n
  | [], q, n, _ => rfl
  | (m, c) :: t, q, n, h => by
    by_cases hm : m = n
    · subst hm
      have : q (m, c) = true := h (m, c) rfl
      rw [List.filter_cons_of_pos this, getColumn?_cons_self,
        getColumn?_cons_self]
    · rw [getColumn?_cons_ne m n _ _ hm]
      by_cases hq : q (m, c)
      · rw [List.filter_cons_of_pos hq, getColumn?_cons_ne m n _ _ hm]
        exact getColumn?_filter t q n h
      · rw [List.filter_cons_of_neg hq]
        exact getColumn?_filter t q n h

/-- Replacing the column found by `get_field_index` in place: names are
kept, the named column is replaced, others are untouched. -/
theorem set_column_spec (b : Batch) (name : String) (i : Nat) (col' : Col)
    (hidx : get_field_index b name = some i) :
    (set_column b i name col').map Prod.fst = b.map Prod.fst ∧
    getColumn? (set_column b i name col') name = some col' ∧
    ∀ m, m ≠ name → getColumn? (set_column b i name col') m = getColumn? b m := by
  obtain ⟨colA, hget, -, hfirst⟩ := get_field_index_spec b name i hidx
  refine ⟨map_fst_set b i (name, colA) (name, col') hget rfl, ?_, ?_⟩
  · have := find?_set_first (fun p => p.1 == name) b i
      (name, colA) (name, col') hget (by simp) hfirst (by simp)
    simp [getColumn?, set_column, this]
  · intro m hm
    have hq : ((name, colA).1 == m) = false := by
      simp only [beq_eq_false_iff_ne, ne_eq]
      exact fun hc => hm hc.symm
    have := find?_set_irrelevant (fun p => p.1 == m) b i
      (name, colA) (name, col') hget hq hq
    simp [getColumn?, set_column, this]

/-- Exact per-key lookup facts for `inferObj`. -/
theorem inferObj_get : ∀ (kvs : JObj) (fs : AFields),
    inferObj kvs = some fs → ∀ k v, kvs.get k = some v →
    ∃ tv, inferJ v = some tv ∧ fs.get k = some tv
  | .nil, fs, _, k, v, hkv => by simp [JObj.get] at hkv
  | .cons k0 v0 t, fs, h, k, v, hkv => by
    rw [inferObj] at h
    rcases hv : inferJ v0 with - | tv0
    · rw [hv] at h; exact absurd h (by simp)
    · rcases ht : inferObj t with - | tt
      · simp only [hv, ht, Option.some_bind, Option.none_bind] at h
        exact absurd h (by simp)
      · simp only [hv, ht, Option.some_bind] at h
        have hfs : fs = .cons k0 tv0 tt := (Option.some.inj h).symm
        subst hfs
        by_cases hkk : k0 = k
        · subst hkk
          simp only [JObj.get, if_true, Option.some.injEq, reduceIte] at hkv
          subst hkv
          exact ⟨tv0, hv, by simp [AFields.get]⟩
        · simp only [JObj.get, hkk, if_false, reduceIte] at hkv
          obtain ⟨tv, h1, h2⟩ := inferObj_get t tt ht k v hkv
          refine ⟨tv, h1, ?_⟩
          simp only [AFields.get, hkk, if_false, reduceIte]
          exact h2

/-- Exact per-key lookup facts for `mkObjCells`. -/
theorem mkObjCells_get : ∀ (kvs : JObj) (fs : AFields) (cs : APairs),
    mkObjCells kvs fs = some cs →
    (∀ k v, kvs.get k = some v →
      ∃ ty c, fs.get k = some ty ∧ mkCell ty v = some c ∧ cs.get k = some c) ∧
    (∀ k, kvs.get k = none → cs.get k = none)
  | .nil, fs, cs, h => by
    have : cs = .nil := (Option.some.inj h).symm
    subst this
    exact ⟨fun k v hkv => by simp [JObj.get] at hkv, fun k _ => rfl⟩
  | .cons k0 v0 t, fs, cs, h => by
    rw [mkObjCells] at h
    rcases hfk : fs.get k0 with - | ty0
    · rw [hfk] at h; exact absurd h (by simp)
    · simp only [hfk] at h
      rcases hc0 : mkCell ty0 v0 with - | c0
      · rw [hc0] at h; exact absurd h (by simp)
      · rcases hrest : mkObjCells t fs with - | cst
        · simp only [hc0, hrest, Option.some_bind, Option.none_bind] at h
          exact absurd h (by simp)
        · simp only [hc0, hrest, Option.some_bind] at h
          have hcs : cs = .cons k0 c0 cst := (Option.some.inj h).symm
          subst hcs
          obtain ⟨ih1, ih2⟩ := mkObjCells_get t fs cst hrest
          constructor
          · intro k v hkv
            by_cases hkk : k0 = k
            · subst hkk
              simp only [JObj.get, if_true, Option.some.injEq, reduceIte] at hkv
              subst hkv
              exact ⟨ty0, c0, hfk, hc0, by simp [APairs.get]⟩
            · simp only [JObj.get, hkk, if_false, reduceIte] at hkv
              obtain ⟨ty, c, h1, h2, h3⟩ := ih1 k v hkv
              refine ⟨ty, c, h1, h2, ?_⟩
              simp only [APairs.get, hkk, if_false, reduceIte]
              exact h3
          · intro k hk
            by_cases hkk : k0 = k
            · subst hkk
              simp [JObj.get] at hk
            · simp only [JObj.get, hkk, if_false, reduceIte] at hk
              simp only [APairs.get, hkk, if_false, reduceIte]
              exact ih2 k hk

/-! ### The promoted property columns as a zip over the fields -/

/-- The promoted property section of `_bring_properties_to_top_level` on
a one-row batch, expressed per field. -/
def promo : AFields → APairs → Batch
  | .nil, _ => []
  | .cons n ty t, cs => (n, ⟨ty, [(cs.get n).getD .cnull]⟩) :: promo t cs

def psTail : APairs → APairs
  | .nil => .nil
  | .cons _ _ t => t

def psDrop : Nat → APairs → APairs
  | 0, ps => ps
  | i + 1, ps => psDrop i (psTail ps)

theorem psDrop_succ : ∀ (i : Nat) (ps : APairs),
    psDrop (i + 1) ps = psTail (psDrop i ps)
  | 0, ps => rfl
  | i + 1, ps => psDrop_succ i (psTail ps)

theorem at?_psDrop : ∀ (i : Nat) (ps : APairs),
    ps.at? i = (match psDrop i ps with
      | .cons _ c _ => some c
      | .nil => none)
  | 0, .nil => rfl
  | 0, .cons _ _ _ => rfl
  | i + 1, .nil => by
    rw [show psDrop (i + 1) .nil = psDrop i (psTail .nil) from rfl]
    exact at?_psDrop i .nil
  | i + 1, .cons n c t => by
    rw [show (APairs.cons n c t).at? (i + 1) = t.at? i from rfl]
    exact at?_psDrop i t

theorem promote_promo : ∀ (fs : AFields) (i : Nat) (full : AFields)
    (cs : APairs),
    psDrop i (arrangePairs full cs) = arrangePairs fs cs →
    bring_properties_to_top_level.promoteFields fs i
      [.cstruct (arrangePairs full cs)] = promo fs cs
  | .nil, i, full, cs, _ => rfl
  | .cons n ty rest, i, full, cs, h => by
    have hat : (arrangePairs full cs).at? i = some ((cs.get n).getD .cnull) := by
      rw [at?_psDrop, h]
      rfl
    have hdrop : psDrop (i + 1) (arrangePairs full cs) =
        arrangePairs rest cs := by
      rw [psDrop_succ, h]
      rfl
    simp only [bring_properties_to_top_level.promoteFields, promo,
      List.map_cons, List.map_nil, structProjAt, hat, Option.getD_some]
    rw [promote_promo rest (i + 1) full cs hdrop]

theorem promo_names : ∀ (fs : AFields) (cs : APairs),
    (promo fs cs).map Prod.fst = fs.names
  | .nil, _ => rfl
  | .cons n ty t, cs => by
    simp only [promo, List.map_cons, AFields.names]
    rw [promo_names t cs]

theorem promo_getColumn?_some : ∀ (fs : AFields) (cs : APairs) (k : String)
    (ty : AType), fs.get k = some ty →
    getColumn? (promo fs cs) k = some ⟨ty, [(cs.get k).getD .cnull]⟩
  | .nil, cs, k, ty, h => by simp [AFields.get] at h
  | .cons n ty0 t, cs, k, ty, h => by
    by_cases hn : n = k
    · subst hn
      simp only [AFields.get, if_true, Option.some.injEq, reduceIte] at h
      subst h
      exact getColumn?_cons_self n _ _
    · simp only [AFields.get, hn, if_false, reduceIte] at h
      rw [promo, getColumn?_cons_ne n k _ _ hn]
      exact promo_getColumn?_some t cs k ty h

theorem promo_getColumn?_none : ∀ (fs : AFields) (cs : APairs) (k : String),
    fs.get k = none → getColumn? (promo fs cs) k = none
  | .nil, cs, k, _ => rfl
  | .cons n ty0 t, cs, k, h => by
    by_cases hn : n = k
    · simp [AFields.get, hn] at h
    · simp only [AFields.get, hn, if_false, reduceIte] at h
      rw [promo, getColumn?_cons_ne n k _ _ hn]
      exact promo_getColumn?_none t cs k h

theorem promo_cells_len : ∀ (fs : AFields) (cs : APairs),
    ∀ p ∈ promo fs cs, p.2.cells.length = 1
  | .nil, cs, p, hp => absurd hp (by simp [promo])
  | .cons n ty t, cs, p, hp => by
    rcases List.mem_cons.mp hp with h | h
    · rw [h]; rfl
    · exact promo_cells_len t cs p h

theorem names_drop (b : Batch) (n : String) :
    (drop_columns b n).map Prod.fst =
      (b.map Prod.fst).filter (fun m => m ≠ n) := by
  induction b with
  | nil => rfl
  | cons p t ih =>
    by_cases hp : p.1 = n
    · rw [drop_columns, List.filter_cons_of_neg (by simpa using hp)]
      rw [drop_columns] at ih
      rw [ih, List.map_cons, List.filter_cons_of_neg (by simpa using hp)]
    · rw [drop_columns, List.filter_cons_of_pos (by simpa using hp),
        List.map_cons]
      rw [drop_columns] at ih
      rw [ih, List.map_cons, List.filter_cons_of_pos (by simpa using hp)]

theorem mapM_ok_length {α β : Type} {f : α → Except PyErr β} :
    ∀ {l : List α} {ys : List β}, l.mapM f = .ok ys → ys.length = l.length := by
  intro l
  induction l with
  | nil =>
    intro ys h
    have : ys = [] := (Except.ok.inj h).symm
    subst this
    rfl
  | cons x t ih =>
    intro ys h
    rw [List.mapM_cons] at h
    obtain ⟨b, hb, hrest⟩ := except_bind_eq_ok h
    obtain ⟨bs, hbs, hpure⟩ := except_bind_eq_ok hrest
    have : ys = b :: bs := (Except.ok.inj hpure).symm
    subst this
    simp [ih hbs]

theorem strftime_col_spec (col col' : Col) (h : strftime_col col = .ok col') :
    col'.ty = .astr ∧ col'.cells.length = col.cells.length := by
  obtain ⟨tyv, cellsv⟩ := col
  cases tyv with
  | ats u tz =>
    simp only [strftime_col] at h
    obtain ⟨cells, hm, hpure⟩ := except_bind_eq_ok h
    have : col' = ⟨.astr, cells⟩ := (Except.ok.inj hpure).symm
    subst this
    exact ⟨rfl, mapM_ok_length hm⟩
  | anull => simp [strftime_col] at h
  | abool => simp [strftime_col] at h
  | anum => simp [strftime_col] at h
  | astr => simp [strftime_col] at h
  | abin => simp [strftime_col] at h
  | alist e => simp [strftime_col] at h
  | astruct fs => simp [strftime_col] at h

/-- One step of `_convert_timestamp_columns_to_string`: drop-and-append of
the stringified column. -/
theorem convertTsToStringStep_spec (b b' : Batch) (n : String)
    (h : convertTsToStringStep b n = .ok b') :
    (∀ m, m ≠ n → getColumn? b' m = getColumn? b m) ∧
    (getColumn? b n = none → b' = b) ∧
    (∀ col, getColumn? b n = some col →
      ∃ col', strftime_col col = .ok col' ∧ getColumn? b' n = some col') ∧
    (∀ m, m ∈ b'.map Prod.fst ↔ m ∈ b.map Prod.fst) ∧
    ((b.map Prod.fst).Nodup → (b'.map Prod.fst).Nodup) ∧
    (∀ L, (∀ p ∈ b, p.2.cells.length = L) → ∀ p ∈ b', p.2.cells.length = L) := by
  rw [convertTsToStringStep] at h
  rcases hcol : getColumn? b n with - | col
  · simp only [hcol] at h
    have hb : b' = b := (Except.ok.inj h).symm
    subst hb
    refine ⟨fun m _ => rfl, fun _ => rfl, ?_, fun m => Iff.rfl, id,
      fun L hL => hL⟩
    intro col hc
    exact absurd hc (by simp)
  · simp only [hcol] at h
    obtain ⟨col', hstr, hb⟩ := except_map_eq_ok h
    subst hb
    have hdropn : getColumn? (drop_columns b n) n = none := by
      rw [getColumn?_none_iff, names_drop]
      simp
    have hA : ∀ m, m ≠ n →
        getColumn? (append_column (drop_columns b n) n col') m =
          getColumn? b m := by
      intro m hm
      rw [append_column]
      have hfilter : getColumn? (drop_columns b n) m = getColumn? b m := by
        rw [drop_columns]
        exact getColumn?_filter b _ m fun p hp => by simp [hp, hm]
      rcases hdm : getColumn? (drop_columns b n) m with - | cm
      · rw [getColumn?_append_right _ _ m hdm,
          getColumn?_cons_ne n m _ _ fun hc => hm hc.symm]
        rw [hdm] at hfilter
        rw [← hfilter]
        rfl
      · rw [getColumn?_append_left _ _ m cm hdm]
        rw [hdm] at hfilter
        exact hfilter
    refine ⟨hA, ?_, ?_, ?_, ?_, ?_⟩
    · intro hc
      exact absurd hc (by simp)
    · intro col0 hc
      have hc0 : col0 = col := (Option.some.inj hc).symm
      subst hc0
      refine ⟨col', hstr, ?_⟩
      rw [append_column, getColumn?_append_right _ _ n hdropn,
        getColumn?_cons_self]
    · intro m
      rw [append_column, List.map_append, names_drop]
      simp only [List.mem_append, List.mem_filter, List.map_cons,
        List.map_nil, List.mem_singleton, decide_eq_true_eq]
      constructor
      · rintro (⟨hm, -⟩ | hm)
        · exact hm
        · rw [hm]
          by_contra hmem
          have hnone := (getColumn?_none_iff b n).mpr hmem
          rw [hnone] at hcol
          exact absurd hcol (by simp)
      · intro hm
        by_cases hmn : m = n
        · exact Or.inr hmn
        · exact Or.inl ⟨hm, by simpa using hmn⟩
    · intro hnd
      rw [append_column, List.map_append, names_drop]
      refine List.Nodup.append (hnd.filter _) (by simp) ?_
      intro m hm1 hm2
      simp only [List.map_cons, List.map_nil, List.mem_singleton] at hm2
      subst hm2
      simp only [List.mem_filter, decide_eq_true_eq] at hm1
      exact hm1.2 rfl
    · intro L hL p hp
      rw [append_column] at hp
      rcases List.mem_append.mp hp with hp | hp
      · exact hL p (List.mem_of_mem_filter hp)
      · simp only [List.mem_singleton] at hp
        subst hp
        obtain ⟨-, hlen⟩ := strftime_col_spec col col' hstr
        simp only [hlen]
        simp only [getColumn?] at hcol
        obtain ⟨q, hq, hq2⟩ := Option.map_eq_some'.mp hcol
        have := List.mem_of_find?_eq_some hq
        rw [← hq2]
        exact hL q this

/-- The `_convert_timestamp_columns_to_string` fold, characterised at the
`getColumn?` level. -/
theorem foldl_ts2str_spec :
    ∀ (NL : List String) (b b' : Batch), NL.Nodup →
      NL.foldlM convertTsToStringStep b = .ok b' →
      (∀ m, m ∉ NL → getColumn? b' m = getColumn? b m) ∧
      (∀ n ∈ NL,
        (getColumn? b n = none → getColumn? b' n = none) ∧
        ∀ col, getColumn? b n = some col →
          ∃ col', strftime_col col = .ok col' ∧ getColumn? b' n = some col') ∧
      (∀ m, m ∈ b'.map Prod.fst ↔ m ∈ b.map Prod.fst) ∧
      ((b.map Prod.fst).Nodup → (b'.map Prod.fst).Nodup) ∧
      (∀ L, (∀ p ∈ b, p.2.cells.length = L) → ∀ p ∈ b', p.2.cells.length = L)
  | [], b, b', _, h => by
    have hb : b' = b := (Except.ok.inj h).symm
    subst hb
    exact ⟨fun m _ => rfl, fun n hmem => absurd hmem (by simp),
      fun m => Iff.rfl, id, fun L hL => hL⟩
  | n :: NL', b, b', hnd, h => by
    have hstep : convertTsToStringStep b n >>= (fun mid =>
        NL'.foldlM convertTsToStringStep mid) = .ok b' := h
    obtain ⟨mid, h1, h2⟩ := except_bind_eq_ok hstep
    have hn : n ∉ NL' := (List.nodup_cons.mp hnd).1
    have hnd' : NL'.Nodup := (List.nodup_cons.mp hnd).2
    obtain ⟨s1, s2, s3, s4, s5, s6⟩ := convertTsToStringStep_spec b mid n h1
    obtain ⟨ih1, ih2, ih3, ih4, ih5⟩ := foldl_ts2str_spec NL' mid b' hnd' h2
    refine ⟨?_, ?_, ?_, ?_, ?_⟩
    · intro m hm
      have hm1 : m ≠ n := fun hc => hm (hc ▸ List.mem_cons_self n NL')
      have hm2 : m ∉ NL' := fun hc => hm (List.mem_cons_of_mem n hc)
      rw [ih1 m hm2, s1 m hm1]
    · intro name hmem
      rcases List.mem_cons.mp hmem with heq | hmem'
      · subst heq
        constructor
        · intro hnone
          rw [ih1 name hn, s2 hnone, hnone]
        · intro col hcol
          obtain ⟨col', hstr, hmid⟩ := s3 col hcol
          exact ⟨col', hstr, by rw [ih1 name hn, hmid]⟩
      · have hne : name ≠ n := fun hc => hn (hc ▸ hmem')
        obtain ⟨t1, t2⟩ := ih2 name hmem'
        constructor
        · intro hnone
          exact t1 (by rw [s1 name hne, hnone])
        · intro col hcol
          exact t2 col (by rw [s1 name hne, hcol])
    · intro m
      rw [ih3 m, s4 m]
    · exact fun hnd0 => ih4 (s5 hnd0)
    · exact fun L hL => ih5 L (s6 L hL)

theorem pairsOfColsAt_get : ∀ (cols : List (String × Col)) (i : Nat)
    (k : String),
    (pairsOfColsAt i cols).get k =
      (getColumn? cols k).map fun c => (c.cells.get? i).getD .cnull
  | [], i, k => rfl
  | (m, c) :: t, i, k => by
    by_cases hm : m = k
    · subst hm
      rw [getColumn?_cons_self]
      simp [pairsOfColsAt, APairs.get]
    · rw [getColumn?_cons_ne m k _ _ hm]
      simp only [pairsOfColsAt, APairs.get, hm, if_false, reduceIte]
      exact pairsOfColsAt_get t i k

theorem fieldsOfCols_names : ∀ (cols : List (String × Col)),
    (fieldsOfCols cols).names = cols.map Prod.fst
  | [] => rfl
  | (m, c) :: t => by
    simp only [fieldsOfCols, AFields.names, List.map_cons]
    rw [fieldsOfCols_names t]

theorem fieldsOfCols_get_none : ∀ (cols : List (String × Col)) (k : String),
    getColumn? cols k = none → (fieldsOfCols cols).get k = none
  | [], k, _ => rfl
  | (m, c) :: t, k, h => by
    by_cases hm : m = k
    · subst hm
      rw [getColumn?_cons_self] at h
      cases h
    · rw [getColumn?_cons_ne m k _ _ hm] at h
      simp only [fieldsOfCols, AFields.get, hm, if_false, reduceIte]
      exact fieldsOfCols_get_none t k h

theorem rowPairs_keys : ∀ (b : Batch) (i : Nat),
    (rowDict.rowPairs b i).keys = b.map Prod.fst
  | [], i => rfl
  | (m, c) :: t, i => by
    simp only [rowDict.rowPairs, JObj.keys, List.map_cons]
    rw [rowPairs_keys t i]

theorem readPairs_keys_pairsOfColsAt : ∀ (cols : List (String × Col)) (i : Nat),
    (readPairs (pairsOfColsAt i cols)).keys = cols.map Prod.fst
  | [], i => rfl
  | (m, c) :: t, i => by
    simp only [pairsOfColsAt, readPairs, JObj.keys, List.map_cons]
    rw [readPairs_keys_pairsOfColsAt t i]

theorem JObj_set_keys : ∀ (kvs : JObj) (k : String) (v : JVal),
    kvs.hasKey k = true → (kvs.set k v).keys = kvs.keys
  | .nil, k, v, h => by simp [JObj.hasKey, JObj.get] at h
  | .cons k0 w t, k, v, h => by
    by_cases hk : k0 = k
    · subst hk
      simp [JObj.set, JObj.keys]
    · simp only [JObj.set, hk, if_false, reduceIte, JObj.keys]
      rw [JObj.hasKey] at h
      simp only [JObj.get, hk, if_false, reduceIte] at h
      rw [JObj_set_keys t k v h]

/-! ### The corpus item frame -/

/-- The top-level shape of a corpus STAC item: the canonical frame keys
in serialisation order — `type`, `stac_version`, `stac_extensions`, `id`,
`geometry`, `bbox`, `properties`, `links`, `assets`, `collection` — with
symbolic leaf content. -/
def itemFrame (tv sv iv gt : String) (gc : JVal) (qs : List ℚ)
    (exv lkv clv : JVal) (P A : JObj) : JObj :=
  .cons "type" (.str tv)
    (.cons "stac_version" (.str sv)
      (.cons "stac_extensions" exv
        (.cons "id" (.str iv)
          (.cons "geometry" (.obj (.cons "type" (.str gt)
            (.cons "coordinates" gc .nil)))
            (.cons "bbox" (.arr (arrOfRats qs))
              (.cons "properties" (.obj P)
                (.cons "links" lkv
                  (.cons "assets" (.obj A)
                    (.cons "collection" clv .nil)))))))))

/-- The frame after WKB preprocessing: geometry replaced by its WKB. -/
def itemFrameW (tv sv iv : String) (g : Geom) (qs : List ℚ)
    (exv lkv clv : JVal) (P A : JObj) : JObj :=
  .cons "type" (.str tv)
    (.cons "stac_version" (.str sv)
      (.cons "stac_extensions" exv
        (.cons "id" (.str iv)
          (.cons "geometry" (.wkb g)
            (.cons "bbox" (.arr (arrOfRats qs))
              (.cons "properties" (.obj P)
                (.cons "links" lkv
                  (.cons "assets" (.obj A)
                    (.cons "collection" clv .nil)))))))))

/-- The well-formedness of a corpus item, as the round-trip claim's
reference corpus exhibits it: a valid non-null GeoJSON geometry, a 4- or
6-number bbox, inferable well-formed `stac_extensions`, `links` and
`collection` values, a non-empty properties object with inferable values
whose keys avoid the canonical top-level keys and `proj:geometry` and
whose timestamp-set members are null or RFC-3339 strings (fractional
seconds included), and assets whose values are objects without
`proj:geometry`. -/
structure CorpusWF (tv sv iv gt : String) (gc : JVal) (cc : Coord)
    (qs : List ℚ) (exv lkv clv : JVal) (ext lkt clt : AType)
    (P A : JObj) (PF AF : AFields) : Prop where
  hgt : gt ∈ shapely_geometry_types
  hcc : coordOfJVal gc = some cc
  hwfgc : wfJ gc = true
  hqs : qs.length = 4 ∨ qs.length = 6
  hwfE : wfJ exv = true
  hET : inferJ exv = some ext
  hwfL : wfJ lkv = true
  hLT : inferJ lkv = some lkt
  hwfC : wfJ clv = true
  hCT : inferJ clv = some clt
  hwfP : wfJObj P = true
  hPne : P ≠ .nil
  hPF : inferObj P = some PF
  hPkeys : ∀ k, P.hasKey k = true →
    k ∉ stac_top_level_keys ∧ k ≠ "properties" ∧ k ≠ "proj:geometry"
  hPts : ∀ k ∈ timestamp_allowed_column_names, ∀ v, P.get k = some v →
    v = .null ∨ ∃ s t, v = .str s ∧ parse_rfc3339? s = some t
  hwfA : wfJObj A = true
  hA : wfAssets A = true
  hAF : inferObj A = some AF

theorem wkb_preprocess_frame (tv sv iv gt : String) (gc : JVal) (cc : Coord)
    (qs : List ℚ) (exv lkv clv : JVal) (ext lkt clt : AType)
    (P A : JObj) (PF AF : AFields)
    (W : CorpusWF tv sv iv gt gc cc qs exv lkv clv ext lkt clt P A PF AF) :
    wkb_preprocess (.obj (itemFrame tv sv iv gt gc qs exv lkv clv P A)) =
      .ok (.obj (itemFrameW tv sv iv ⟨gt, cc⟩ qs exv lkv clv P A)) := by
  have hP2 : P.get "proj:geometry" = none := by
    rcases h : P.get "proj:geometry" with - | v
    · rfl
    · exfalso
      have hk : P.hasKey "proj:geometry" = true := by
        rw [JObj.hasKey, h]
        rfl
      exact (W.hPkeys _ hk).2.2 rfl
  have hshape : shape (.obj (.cons "type" (.str gt)
      (.cons "coordinates" gc .nil))) = .ok ⟨gt, cc⟩ := by
    simp [shape, JObj.get, W.hgt, W.hcc]
  simp only [wkb_preprocess, itemFrame, itemFrameW]
  simp [JObj.get, JObj.set, hshape, hP2, wkbAssets_wf A W.hA, to_wkb]
  rfl

/-- The struct type `pyarrow` infers for a preprocessed corpus item. -/
def frameTy (ext lkt clt : AType) (PF AF : AFields) : AType :=
  .astruct (.cons "type" .astr
    (.cons "stac_version" .astr
      (.cons "stac_extensions" ext
        (.cons "id" .astr
          (.cons "geometry" .abin
            (.cons "bbox" (.alist .anum)
              (.cons "properties" (.astruct PF)
                (.cons "links" lkt
                  (.cons "assets" (.astruct AF)
                    (.cons "collection" clt .nil))))))))))

/-- The one-row struct cell a preprocessed corpus item converts to. -/
def rowCellFrame (tv sv iv : String) (g : Geom) (qs : List ℚ)
    (exc lkc clc : ACell) (PF AF : AFields) (csP csA : APairs) : ACell :=
  .cstruct (.cons "type" (.cstr tv)
    (.cons "stac_version" (.cstr sv)
      (.cons "stac_extensions" exc
        (.cons "id" (.cstr iv)
          (.cons "geometry" (.cbin g)
            (.cons "bbox" (.clist (convert_bbox_to_array.listCells qs))
              (.cons "properties" (.cstruct (arrangePairs PF csP))
                (.cons "links" lkc
                  (.cons "assets" (.cstruct (arrangePairs AF csA))
                    (.cons "collection" clc .nil))))))))))

/-- The record batch `StacJsonBatch.from_dicts` builds from a singleton
corpus item. -/
def rawFrame (tv sv iv : String) (g : Geom) (qs : List ℚ)
    (ext lkt clt : AType) (exc lkc clc : ACell)
    (PF AF : AFields) (csP csA : APairs) : Batch :=
  [("type", ⟨.astr, [.cstr tv]⟩),
   ("stac_version", ⟨.astr, [.cstr sv]⟩),
   ("stac_extensions", ⟨ext, [exc]⟩),
   ("id", ⟨.astr, [.cstr iv]⟩),
   ("geometry", ⟨.abin, [.cbin g]⟩),
   ("bbox", ⟨.alist .anum, [.clist (convert_bbox_to_array.listCells qs)]⟩),
   ("properties", ⟨.astruct PF, [.cstruct (arrangePairs PF csP)]⟩),
   ("links", ⟨lkt, [lkc]⟩),
   ("assets", ⟨.astruct AF, [.cstruct (arrangePairs AF csA)]⟩),
   ("collection", ⟨clt, [clc]⟩)]

theorem from_dicts_frame (tv sv iv gt : String) (gc : JVal) (cc : Coord)
    (qs : List ℚ) (exv lkv clv : JVal) (ext lkt clt : AType)
    (P A : JObj) (PF AF : AFields)
    (W : CorpusWF tv sv iv gt gc cc qs exv lkv clv ext lkt clt P A PF AF)
    (exc lkc clc : ACell) (csP csA : APairs)
    (hexc : mkCell ext exv = some exc)
    (hlkc : mkCell lkt lkv = some lkc)
    (hclc : mkCell clt clv = some clc)
    (hcsP : mkObjCells P PF = some csP)
    (hcsA : mkObjCells A AF = some csA) :
    from_dicts [.obj (itemFrame tv sv iv gt gc qs exv lkv clv P A)] =
      .ok (rawFrame tv sv iv ⟨gt, cc⟩ qs ext lkt clt exc lkc clc
        PF AF csP csA) := by
  have hqsne : qs ≠ [] := by
    rcases W.hqs with h | h <;> (intro hc; subst hc; simp at h)
  have hbb : inferJ (.arr (arrOfRats qs)) = some (.alist .anum) := by
    simp [inferJ, infer_arrOfRats qs hqsne]
  have hinfer : inferJ (.obj (itemFrameW tv sv iv ⟨gt, cc⟩ qs exv lkv clv P A)) =
      some (frameTy ext lkt clt PF AF) := by
    simp [inferJ, inferObj, itemFrameW, frameTy, infer_arrOfRats qs hqsne,
      W.hPF, W.hAF, W.hET, W.hLT, W.hCT]
  have hcompatP : compat (.astruct PF) (.obj P) = true :=
    U1J (.obj P) _ (by simpa [wfJ] using W.hwfP) (by simp [inferJ, W.hPF])
  have hcompatA : compat (.astruct AF) (.obj A) = true :=
    U1J (.obj A) _ (by simpa [wfJ] using W.hwfA) (by simp [inferJ, W.hAF])
  simp only [compat, Bool.and_eq_true] at hcompatP hcompatA
  have hrow : mkCell (frameTy ext lkt clt PF AF)
      (.obj (itemFrameW tv sv iv ⟨gt, cc⟩ qs exv lkv clv P A)) =
      some (rowCellFrame tv sv iv ⟨gt, cc⟩ qs exc lkc clc PF AF csP csA) := by
    simp only [frameTy, itemFrameW, rowCellFrame, mkCell]
    rw [if_pos (by rfl)]
    simp [mkObjCells, AFields.get, mkCell, mkCells_arrOfRats, hcompatP.1,
      hcompatA.1, hcsP, hcsA, hexc, hlkc, hclc, arrangePairs, APairs.get]
  have hpre := wkb_preprocess_frame tv sv iv gt gc cc qs exv lkv clv
    ext lkt clt P A PF AF W
  have h1 : ([JVal.obj (itemFrame tv sv iv gt gc qs exv lkv clv P A)]).mapM wkb_preprocess
      = .ok [.obj (itemFrameW tv sv iv ⟨gt, cc⟩ qs exv lkv clv P A)] := by
    rw [List.mapM_cons, hpre, ok_bind, List.mapM_nil]
    rfl
  have h2a : ([(.obj (itemFrameW tv sv iv ⟨gt, cc⟩ qs exv lkv clv P A) : JVal)]).mapM
      (fun v => match inferJ v with
        | some t => Except.ok t
        | none => Except.error (PyErr.arrowInvalid "cannot infer a common type")) =
      .ok [frameTy ext lkt clt PF AF] := by
    rw [List.mapM_cons, List.mapM_nil]
    simp only [hinfer]
    rfl
  have h2 : inferItems [(.obj (itemFrameW tv sv iv ⟨gt, cc⟩ qs exv lkv clv P A) : JVal)] =
      .ok (frameTy ext lkt clt PF AF) := by
    rw [inferItems, h2a, ok_bind]
    rfl
  have h3 : ([(.obj (itemFrameW tv sv iv ⟨gt, cc⟩ qs exv lkv clv P A) : JVal)]).mapM
      (fun v => match mkCell (frameTy ext lkt clt PF AF) v with
        | some c => Except.ok c
        | none => Except.error (PyErr.arrowInvalid "conversion failed")) =
      .ok [rowCellFrame tv sv iv ⟨gt, cc⟩ qs exc lkc clc PF AF csP csA] := by
    rw [List.mapM_cons, List.mapM_nil]
    simp only [hrow]
    rfl
  have h4 : from_struct_array (frameTy ext lkt clt PF AF)
      [rowCellFrame tv sv iv ⟨gt, cc⟩ qs exc lkc clc PF AF csP csA] =
      .ok (rawFrame tv sv iv ⟨gt, cc⟩ qs ext lkt clt exc lkc clc
        PF AF csP csA) := by
    rfl
  rw [from_dicts, h1, ok_bind, h2, ok_bind, h3, ok_bind, h4]

/-- The batch after property promotion: the nine surviving frame columns
followed by one column per property. -/
def b1Frame (tv sv iv : String) (g : Geom) (qs : List ℚ)
    (ext lkt clt : AType) (exc lkc clc : ACell)
    (PF AF : AFields) (csP csA : APairs) : Batch :=
  [("type", ⟨.astr, [.cstr tv]⟩),
   ("stac_version", ⟨.astr, [.cstr sv]⟩),
   ("stac_extensions", ⟨ext, [exc]⟩),
   ("id", ⟨.astr, [.cstr iv]⟩),
   ("geometry", ⟨.abin, [.cbin g]⟩),
   ("bbox", ⟨.alist .anum, [.clist (convert_bbox_to_array.listCells qs)]⟩),
   ("links", ⟨lkt, [lkc]⟩),
   ("assets", ⟨.astruct AF, [.cstruct (arrangePairs AF csA)]⟩),
   ("collection", ⟨clt, [clc]⟩)] ++
  promo PF csP

theorem promo_name_props (P : JObj) (PF : AFields) (csP : APairs)
    (hPF : inferObj P = some PF)
    (hPkeys : ∀ k, P.hasKey k = true →
      k ∉ stac_top_level_keys ∧ k ≠ "properties" ∧ k ≠ "proj:geometry") :
    ∀ p ∈ promo PF csP, P.hasKey p.1 = true := by
  intro p hp
  have hmem : p.1 ∈ PF.names := by
    rw [← promo_names PF csP]
    exact List.mem_map_of_mem Prod.fst hp
  rw [inferObj_names P PF hPF] at hmem
  exact (JObj_hasKey_mem P p.1).mpr hmem

theorem bring_frame (tv sv iv gt : String) (gc : JVal) (cc : Coord)
    (qs : List ℚ) (exv lkv clv : JVal) (ext lkt clt : AType)
    (P A : JObj) (PF AF : AFields)
    (W : CorpusWF tv sv iv gt gc cc qs exv lkv clv ext lkt clt P A PF AF)
    (exc lkc clc : ACell) (csP csA : APairs) :
    bring_properties_to_top_level (rawFrame tv sv iv ⟨gt, cc⟩ qs
        ext lkt clt exc lkc clc PF AF csP csA)
      = .ok (b1Frame tv sv iv ⟨gt, cc⟩ qs ext lkt clt exc lkc clc
          PF AF csP csA) := by
  have hpnames : ∀ p ∈ promo PF csP, p.1 ≠ "properties" := fun p hp =>
    (W.hPkeys p.1 (promo_name_props P PF csP W.hPF W.hPkeys p hp)).2.1
  have hpromote : bring_properties_to_top_level.promoteFields PF 0
      [.cstruct (arrangePairs PF csP)] = promo PF csP :=
    promote_promo PF 0 PF csP rfl
  calc bring_properties_to_top_level (rawFrame tv sv iv ⟨gt, cc⟩ qs
        ext lkt clt exc lkc clc PF AF csP csA)
      = .ok (drop_columns (rawFrame tv sv iv ⟨gt, cc⟩ qs
          ext lkt clt exc lkc clc PF AF csP csA ++
          bring_properties_to_top_level.promoteFields PF 0
            [.cstruct (arrangePairs PF csP)]) "properties") := rfl
    _ = .ok (drop_columns (rawFrame tv sv iv ⟨gt, cc⟩ qs
          ext lkt clt exc lkc clc PF AF csP csA ++
          promo PF csP) "properties") := by rw [hpromote]
    _ = .ok (b1Frame tv sv iv ⟨gt, cc⟩ qs ext lkt clt exc lkc clc
          PF AF csP csA) := by
        rw [drop_columns, List.filter_append]
        have e2 : (promo PF csP).filter
            (fun p => decide (p.1 ≠ "properties")) = promo PF csP :=
          List.filter_eq_self.mpr fun a ha => by simpa using hpnames a ha
        rw [e2]
        rfl

theorem mkCell_null : ∀ (t : AType), mkCell t .null = some .cnull := by
  intro t
  cases t <;> rfl

theorem wfJObj_keys_nodup : ∀ (kvs : JObj), wfJObj kvs = true →
    kvs.keys.Nodup
  | .nil, _ => List.nodup_nil
  | .cons k v t, hw => by
    simp only [wfJObj, Bool.and_eq_true] at hw
    obtain ⟨⟨hnk, -⟩, hwt⟩ := hw
    simp only [JObj.keys, List.nodup_cons]
    refine ⟨?_, wfJObj_keys_nodup t hwt⟩
    intro hmem
    rw [← JObj_hasKey_mem] at hmem
    rw [hmem] at hnk
    cases hnk

theorem getColumn?_mapCol (F : String → Col → Col) :
    ∀ (b : Batch) (n : String),
      getColumn? (b.map fun p => (p.1, F p.1 p.2)) n =
        (getColumn? b n).map (F n)
  | [], n => rfl
  | (m, c) :: t, n => by
    by_cases hm : m = n
    · subst hm
      rw [List.map_cons, getColumn?_cons_self, getColumn?_cons_self]
      rfl
    · rw [List.map_cons, getColumn?_cons_ne m n _ _ hm,
        getColumn?_cons_ne m n _ _ hm]
      exact getColumn?_mapCol F t n

/-- Success of the timestamp-typing fold when every present column of the
set dispatches. -/
theorem foldl_convertTsStep_ok :
    ∀ (NL : List String) (b : Batch), NL.Nodup →
      (∀ n ∈ NL, ∀ col, getColumn? b n = some col →
        ∃ col', tsStepCol n col = .ok col') →
      ∃ b', NL.foldlM convertTsStep b = .ok b'
  | [], b, _, _ => ⟨b, rfl⟩
  | n :: NL', b, hnd, h => by
    have hn : n ∉ NL' := (List.nodup_cons.mp hnd).1
    have hnd' : NL'.Nodup := (List.nodup_cons.mp hnd).2
    have hstep : ∃ mid, convertTsStep b n = .ok mid := by
      rcases hidx : get_field_index b n with - | i
      · exact ⟨b, by simp [convertTsStep, hidx]⟩
      · obtain ⟨col, hget, hgetcol, -⟩ := get_field_index_spec b n i hidx
        obtain ⟨col', hcol'⟩ := h n (List.mem_cons_self n NL') col hgetcol
        refine ⟨set_column b i n col', ?_⟩
        simp only [convertTsStep, hidx, hget, hcol']
        rfl
    obtain ⟨mid, hmid⟩ := hstep
    have hrest : ∀ m ∈ NL', ∀ col, getColumn? mid m = some col →
        ∃ col', tsStepCol m col = .ok col' := by
      intro m hm col hcol
      have hmn : m ≠ n := fun hc => hn (hc ▸ hm)
      rw [convertTsStep_ok_other hmid hmn] at hcol
      exact h m (List.mem_cons_of_mem n hm) col hcol
    obtain ⟨b', hb'⟩ := foldl_convertTsStep_ok NL' mid hnd' hrest
    refine ⟨b', ?_⟩
    have : (n :: NL').foldlM convertTsStep b =
        convertTsStep b n >>= fun acc => NL'.foldlM convertTsStep acc := rfl
    rw [this, hmid, ok_bind, hb']

/-- The in-place timestamp fix of `_convert_timestamp_columns` on a
corpus-shaped column. -/
def tsColFix (name : String) (col : Col) : Col :=
  if name ∈ timestamp_allowed_column_names then
    if col.ty = .anull then ⟨.ats .us none, col.cells⟩
    else if col.ty = .astr then
      match col.cells with
      | [.cstr s] =>
        match parse_rfc3339? s with
        | some t => ⟨.ats .us (some "UTC"), [.cts t]⟩
        | none => col
      | _ => col
    else col
  else col

/-- The batch after timestamp typing. -/
def b2Frame (tv sv iv : String) (g : Geom) (qs : List ℚ)
    (ext lkt clt : AType) (exc lkc clc : ACell)
    (PF AF : AFields) (csP csA : APairs) : Batch :=
  (b1Frame tv sv iv g qs ext lkt clt exc lkc clc PF AF csP csA).map fun p => (p.1, tsColFix p.1 p.2)

theorem b1Frame_names (tv sv iv : String) (g : Geom) (qs : List ℚ)
    (ext lkt clt : AType) (exc lkc clc : ACell)
    (PF AF : AFields) (csP csA : APairs) :
    (b1Frame tv sv iv g qs ext lkt clt exc lkc clc PF AF csP csA).map Prod.fst =
      ["type", "stac_version", "stac_extensions", "id", "geometry", "bbox",
       "links", "assets", "collection"] ++
        PF.names := by
  simp only [b1Frame, List.map_append, List.map_cons, List.map_nil,
    promo_names]

theorem b1Frame_names_nodup (tv sv iv gt : String) (gc : JVal) (cc : Coord)
    (qs : List ℚ) (exv lkv clv : JVal) (ext lkt clt : AType)
    (P A : JObj) (PF AF : AFields)
    (W : CorpusWF tv sv iv gt gc cc qs exv lkv clv ext lkt clt P A PF AF)
    (g : Geom) (exc lkc clc : ACell) (csP csA : APairs) :
    ((b1Frame tv sv iv g qs ext lkt clt exc lkc clc PF AF csP csA).map Prod.fst).Nodup := by
  rw [b1Frame_names]
  refine List.nodup_append.mpr ⟨by decide, ?_, ?_⟩
  · rw [inferObj_names P PF W.hPF]
    exact wfJObj_keys_nodup P W.hwfP
  · intro a ha hb
    rw [inferObj_names P PF W.hPF] at hb
    have hk := (W.hPkeys a ((JObj_hasKey_mem P a).mpr hb)).1
    simp only [List.mem_cons, List.not_mem_nil, or_false] at ha
    rcases ha with h | h | h | h | h | h | h | h | h <;>
      (subst h; exact hk (by decide))

/-- On a corpus-shaped batch, every present column of the timestamp set
dispatches successfully, and the result is the in-place fix. -/
theorem b1Frame_ts_col (tv sv iv : String) (g : Geom) (qs : List ℚ)
    (ext lkt clt : AType) (exc lkc clc : ACell)
    (PF AF : AFields) (csP csA : APairs) (P : JObj)
    (hPF : inferObj P = some PF)
    (hcsP : mkObjCells P PF = some csP)
    (hPts : ∀ k ∈ timestamp_allowed_column_names, ∀ v, P.get k = some v →
      v = .null ∨ ∃ s t, v = .str s ∧ parse_rfc3339? s = some t)
    (n : String) (hn : n ∈ timestamp_allowed_column_names) (col : Col)
    (hcol : getColumn? (b1Frame tv sv iv g qs ext lkt clt exc lkc clc PF AF csP csA) n = some col) :
    tsStepCol n col = .ok (tsColFix n col) := by
  have hnf : n ∉ (["type", "stac_version", "stac_extensions", "id", "geometry", "bbox",
      "links", "assets", "collection"] : List String) := by
    simp only [timestamp_allowed_column_names, List.mem_cons,
      List.not_mem_nil, or_false] at hn
    rcases hn with h | h | h | h | h | h | h | h <;> (subst h; decide)
  have hfront : getColumn?
      [("type", (⟨.astr, [.cstr tv]⟩ : Col)),
       ("stac_version", ⟨.astr, [.cstr sv]⟩),
       ("stac_extensions", ⟨ext, [exc]⟩),
       ("id", ⟨.astr, [.cstr iv]⟩),
       ("geometry", ⟨.abin, [.cbin g]⟩),
       ("bbox", ⟨.alist .anum, [.clist (convert_bbox_to_array.listCells qs)]⟩),
       ("links", ⟨lkt, [lkc]⟩),
       ("assets", ⟨.astruct AF, [.cstruct (arrangePairs AF csA)]⟩),
       ("collection", ⟨clt, [clc]⟩)] n =
      none := by
    rw [getColumn?_none_iff]
    simpa using hnf
  rw [b1Frame, getColumn?_append_right _ _ n hfront] at hcol
  rcases hty : PF.get n with - | ty
  · rw [promo_getColumn?_none PF csP n hty] at hcol
    cases hcol
  · rw [promo_getColumn?_some PF csP n ty hty] at hcol
    have hcoleq : col = ⟨ty, [(csP.get n).getD .cnull]⟩ :=
      (Option.some.inj hcol).symm
    have hmem : n ∈ PF.names := (hasName_iff_names PF n).mp
      (by rw [AFields.hasName, hty]; rfl)
    rw [inferObj_names P PF hPF] at hmem
    have hkey : P.hasKey n = true := (JObj_hasKey_mem P n).mpr hmem
    rcases hv : P.get n with - | v
    · rw [JObj.hasKey, hv] at hkey
      cases hkey
    · obtain ⟨tv0, hinfv, hget0⟩ := inferObj_get P PF hPF n v hv
      have hty0 : tv0 = ty := Option.some.inj (hget0 ▸ hty)
      subst hty0
      obtain ⟨ty', c, hget', hmk, hcs⟩ :=
        (mkObjCells_get P PF csP hcsP).1 n v hv
      have hty' : ty' = tv0 := Option.some.inj (hget' ▸ hty)
      subst hty'
      rcases hPts n hn v hv with hnull | ⟨s, t, hstr, hparse⟩
      · subst hnull
        have htyn : ty' = .anull := (Option.some.inj hinfv).symm
        subst htyn
        have hcn : c = .cnull := (Option.some.inj hmk).symm
        subst hcn
        rw [hcoleq]
        rw [hcs]
        simp [tsStepCol, tsColFix, hn, isTimestampTy]
      · subst hstr
        have htyn : ty' = .astr := (Option.some.inj hinfv).symm
        subst htyn
        have hcn : c = .cstr s := (Option.some.inj hmk).symm
        subst hcn
        rw [hcoleq, hcs]
        have hpc : parse_rfc3339 s = .ok t := by
          rw [parse_rfc3339, hparse]
        have hctc : convert_timestamp_column [.cstr s] = .ok [.cts t] := by
          rw [convert_timestamp_column, List.mapM_cons, List.mapM_nil]
          simp only [scalarStr, hpc]
          rfl
        simp [tsStepCol, tsColFix, hn, isTimestampTy, hctc, hparse]
        rfl

theorem ts_frame (tv sv iv gt : String) (gc : JVal) (cc : Coord)
    (qs : List ℚ) (exv lkv clv : JVal) (ext lkt clt : AType)
    (P A : JObj) (PF AF : AFields)
    (W : CorpusWF tv sv iv gt gc cc qs exv lkv clv ext lkt clt P A PF AF) (g : Geom)
    (exc lkc clc : ACell) (csP csA : APairs)
    (hcsP : mkObjCells P PF = some csP) :
    convert_timestamp_columns (b1Frame tv sv iv g qs ext lkt clt exc lkc clc PF AF csP csA) =
      .ok (b2Frame tv sv iv g qs ext lkt clt exc lkc clc PF AF csP csA) := by
  have hdisp : ∀ n ∈ timestamp_allowed_column_names, ∀ col,
      getColumn? (b1Frame tv sv iv g qs ext lkt clt exc lkc clc PF AF csP csA) n = some col →
      tsStepCol n col = .ok (tsColFix n col) :=
    fun n hn col hcol =>
      b1Frame_ts_col tv sv iv g qs ext lkt clt exc lkc clc PF AF csP csA P W.hPF hcsP W.hPts
        n hn col hcol
  have hndts : timestamp_allowed_column_names.Nodup := by decide
  obtain ⟨b', hb'⟩ := foldl_convertTsStep_ok timestamp_allowed_column_names
    (b1Frame tv sv iv g qs ext lkt clt exc lkc clc PF AF csP csA) hndts
    (fun n hn col hcol => ⟨tsColFix n col, hdisp n hn col hcol⟩)
  obtain ⟨hnames, hother, hts⟩ :=
    foldl_convertTsStep_spec timestamp_allowed_column_names
      (b1Frame tv sv iv g qs ext lkt clt exc lkc clc PF AF csP csA) b' hndts hb'
  have hb2 : b' = b2Frame tv sv iv g qs ext lkt clt exc lkc clc PF AF csP csA := by
    refine batch_ext b' _ ?_ ?_ ?_
    · rw [hnames, b2Frame, List.map_map]
      rfl
    · rw [hnames]
      exact b1Frame_names_nodup tv sv iv gt gc cc qs exv lkv clv ext lkt clt P A PF AF W g exc lkc clc csP csA
    · intro n
      rw [b2Frame, getColumn?_mapCol]
      by_cases hn : n ∈ timestamp_allowed_column_names
      · rcases hcol : getColumn? (b1Frame tv sv iv g qs ext lkt clt exc lkc clc PF AF csP csA) n
          with - | col
        · have hnone : getColumn? b' n = none := by
            rw [getColumn?_none_iff, hnames]
            exact (getColumn?_none_iff _ n).mp hcol
          rw [hnone]
          rfl
        · obtain ⟨col', hstep, hbcol⟩ := hts n hn col hcol
          rw [hbcol]
          rw [hdisp n hn col hcol] at hstep
          rw [← Except.ok.inj hstep]
          rfl
      · rw [hother n hn]
        rcases hcol : getColumn? (b1Frame tv sv iv g qs ext lkt clt exc lkc clc PF AF csP csA) n
          with - | col
        · rfl
        · simp [tsColFix, hn]
  rw [convert_timestamp_columns, hb', hb2]

/-- The bbox struct field names picked for a 4- or 6-number bbox. -/
def bboxNames (qs : List ℚ) : List String :=
  if qs.length = 6 then ["xmin", "ymin", "zmin", "xmax", "ymax", "zmax"]
  else ["xmin", "ymin", "xmax", "ymax"]

/-- The struct column `_convert_bbox_to_struct` builds for one row. -/
def bboxStructCol (qs : List ℚ) : Col :=
  ⟨.astruct (numFieldsOf (bboxNames qs)),
   [.cstruct (zipPairs (bboxNames qs) qs)]⟩

/-- The batch after the bbox list column is rebuilt as a struct. -/
def b3Frame (tv sv iv : String) (g : Geom) (qs : List ℚ)
    (ext lkt clt : AType) (exc lkc clc : ACell)
    (PF AF : AFields) (csP csA : APairs) : Batch :=
  set_column (b2Frame tv sv iv g qs ext lkt clt exc lkc clc PF AF csP csA) 5 "bbox"
    (bboxStructCol qs)

theorem bbox_frame (tv sv iv : String) (g : Geom) (qs : List ℚ)
    (ext lkt clt : AType) (exc lkc clc : ACell)
    (PF AF : AFields) (csP csA : APairs)
    (hqs : qs.length = 4 ∨ qs.length = 6) :
    convert_bbox_to_struct (b2Frame tv sv iv g qs ext lkt clt exc lkc clc PF AF csP csA) =
      .ok (b3Frame tv sv iv g qs ext lkt clt exc lkc clc PF AF csP csA) := by
  have hidx : get_field_index (b2Frame tv sv iv g qs ext lkt clt exc lkc clc PF AF csP csA) "bbox" =
      some 5 := rfl
  have hget : (b2Frame tv sv iv g qs ext lkt clt exc lkc clc PF AF csP csA).get? 5 =
      some ("bbox", ⟨.alist .anum,
        [.clist (convert_bbox_to_array.listCells qs)]⟩) := rfl
  have hrows : ([ACell.clist (convert_bbox_to_array.listCells qs)]).mapM
      (fun c => match c with
        | .clist xs => xs.toList.mapM cellNum?
        | _ => Except.error (PyErr.arrowInvalid "to_numpy on a null bbox row"))
      = .ok [qs] := by
    rw [List.mapM_cons, List.mapM_nil]
    simp only [listCells_mapM_num]
    rfl
  rcases hqs with h4 | h6
  · have hlen : cellLen (.clist (convert_bbox_to_array.listCells qs)) = 4 := by
      simp [cellLen, listCells_toList_len, h4]
    have h3d : is_bbox_3d ⟨.alist .anum,
        [.clist (convert_bbox_to_array.listCells qs)]⟩ = .ok false := by
      simp only [is_bbox_3d, List.map_cons, List.map_nil, hlen]
      rfl
    have hnames : bboxNames qs = ["xmin", "ymin", "xmax", "ymax"] := by
      rw [bboxNames, h4]
      rfl
    simp only [convert_bbox_to_struct, hidx, hget, h3d, hrows]
    rw [b3Frame, bboxStructCol, hnames]
    rfl
  · have hlen : cellLen (.clist (convert_bbox_to_array.listCells qs)) = 6 := by
      simp [cellLen, listCells_toList_len, h6]
    have h3d : is_bbox_3d ⟨.alist .anum,
        [.clist (convert_bbox_to_array.listCells qs)]⟩ = .ok true := by
      simp only [is_bbox_3d, List.map_cons, List.map_nil, hlen]
      rfl
    have hnames : bboxNames qs =
        ["xmin", "ymin", "zmin", "xmax", "ymax", "zmax"] := by
      rw [bboxNames, h6]
      rfl
    simp only [convert_bbox_to_struct, hidx, hget, h3d, hrows]
    rw [b3Frame, bboxStructCol, hnames]
    rfl

theorem geo_frame (tv sv iv : String) (g : Geom) (qs : List ℚ)
    (ext lkt clt : AType) (exc lkc clc : ACell)
    (PF AF : AFields) (csP csA : APairs) :
    assign_geoarrow_metadata (b3Frame tv sv iv g qs ext lkt clt exc lkc clc PF AF csP csA) =
      .ok (b3Frame tv sv iv g qs ext lkt clt exc lkc clc PF AF csP csA) := by
  have hidx : get_field_index (b3Frame tv sv iv g qs ext lkt clt exc lkc clc PF AF csP csA)
      "geometry" = some 4 := rfl
  rw [assign_geoarrow_metadata, hidx]

theorem b3Frame_names (tv sv iv : String) (g : Geom) (qs : List ℚ)
    (ext lkt clt : AType) (exc lkc clc : ACell)
    (PF AF : AFields) (csP csA : APairs) :
    (b3Frame tv sv iv g qs ext lkt clt exc lkc clc PF AF csP csA).map Prod.fst =
      ["type", "stac_version", "stac_extensions", "id", "geometry", "bbox",
       "links", "assets", "collection"] ++
        PF.names := by
  have h1 : (b2Frame tv sv iv g qs ext lkt clt exc lkc clc PF AF csP csA).map Prod.fst =
      (b1Frame tv sv iv g qs ext lkt clt exc lkc clc PF AF csP csA).map Prod.fst := by
    rw [b2Frame, List.map_map]
    rfl
  have hidx : get_field_index (b2Frame tv sv iv g qs ext lkt clt exc lkc clc PF AF csP csA) "bbox" =
      some 5 := rfl
  obtain ⟨hn, -, -⟩ := set_column_spec
    (b2Frame tv sv iv g qs ext lkt clt exc lkc clc PF AF csP csA) "bbox" 5 (bboxStructCol qs) hidx
  rw [b3Frame, hn, h1, b1Frame_names]

theorem b3Frame_names_nodup (tv sv iv gt : String) (gc : JVal) (cc : Coord)
    (qs : List ℚ) (exv lkv clv : JVal) (ext lkt clt : AType)
    (P A : JObj) (PF AF : AFields)
    (W : CorpusWF tv sv iv gt gc cc qs exv lkv clv ext lkt clt P A PF AF)
    (g : Geom) (exc lkc clc : ACell) (csP csA : APairs) :
    ((b3Frame tv sv iv g qs ext lkt clt exc lkc clc PF AF csP csA).map Prod.fst).Nodup := by
  rw [b3Frame_names]
  have := b1Frame_names_nodup tv sv iv gt gc cc qs exv lkv clv ext lkt clt P A PF AF W g exc lkc clc csP csA
  rw [b1Frame_names] at this
  exact this

/-- The column a corpus property key carries after the full encoding
normalisation. -/
theorem b3_prop_col (tv sv iv : String) (g : Geom) (qs : List ℚ)
    (ext lkt clt : AType) (exc lkc clc : ACell)
    (PF AF : AFields) (csP csA : APairs) (P : JObj)
    (hPF : inferObj P = some PF)
    (hcsP : mkObjCells P PF = some csP)
    (hPkeys : ∀ k, P.hasKey k = true →
      k ∉ stac_top_level_keys ∧ k ≠ "properties" ∧ k ≠ "proj:geometry")
    (hPts : ∀ k ∈ timestamp_allowed_column_names, ∀ v, P.get k = some v →
      v = .null ∨ ∃ s t, v = .str s ∧ parse_rfc3339? s = some t)
    (k : String) (v : JVal) (hv : P.get k = some v) :
    ∃ col, getColumn? (b3Frame tv sv iv g qs ext lkt clt exc lkc clc PF AF csP csA) k = some col ∧
      ((k ∉ timestamp_allowed_column_names ∧
        ∃ ty c, PF.get k = some ty ∧ inferJ v = some ty ∧
          mkCell ty v = some c ∧ col = ⟨ty, [c]⟩) ∨
       (k ∈ timestamp_allowed_column_names ∧
        ((v = .null ∧ col = ⟨.ats .us none, [.cnull]⟩) ∨
         (∃ s t, v = .str s ∧ parse_rfc3339? s = some t ∧
            col = ⟨.ats .us (some "UTC"), [.cts t]⟩)))) := by
  have hkey : P.hasKey k = true := by
    rw [JObj.hasKey, hv]
    rfl
  obtain ⟨hktop, hkprop, hkpg⟩ := hPkeys k hkey
  obtain ⟨ty, hinfv, hget0⟩ := inferObj_get P PF hPF k v hv
  obtain ⟨ty', c, hget', hmk, hcs⟩ := (mkObjCells_get P PF csP hcsP).1 k v hv
  have hty' : ty' = ty := Option.some.inj (hget' ▸ hget0)
  subst hty'
  have hnf : k ∉ (["type", "stac_version", "stac_extensions", "id", "geometry", "bbox",
      "links", "assets", "collection"] : List String) := by
    intro hk
    apply hktop
    simp only [List.mem_cons, List.not_mem_nil, or_false] at hk
    rcases hk with h | h | h | h | h | h | h | h | h <;> (subst h; decide)
  have hfront : getColumn?
      [("type", (⟨.astr, [.cstr tv]⟩ : Col)),
       ("stac_version", ⟨.astr, [.cstr sv]⟩),
       ("stac_extensions", ⟨ext, [exc]⟩),
       ("id", ⟨.astr, [.cstr iv]⟩),
       ("geometry", ⟨.abin, [.cbin g]⟩),
       ("bbox", ⟨.alist .anum, [.clist (convert_bbox_to_array.listCells qs)]⟩),
       ("links", ⟨lkt, [lkc]⟩),
       ("assets", ⟨.astruct AF, [.cstruct (arrangePairs AF csA)]⟩),
       ("collection", ⟨clt, [clc]⟩)] k =
      none := by
    rw [getColumn?_none_iff]
    simpa using hnf
  have hb1 : getColumn? (b1Frame tv sv iv g qs ext lkt clt exc lkc clc PF AF csP csA) k =
      some ⟨ty', [c]⟩ := by
    rw [b1Frame, getColumn?_append_right _ _ k hfront,
      promo_getColumn?_some PF csP k ty' hget0, hcs]
    rfl
  have hb2 : getColumn? (b2Frame tv sv iv g qs ext lkt clt exc lkc clc PF AF csP csA) k =
      some (tsColFix k ⟨ty', [c]⟩) := by
    rw [b2Frame, getColumn?_mapCol, hb1]
    rfl
  have hidx : get_field_index (b2Frame tv sv iv g qs ext lkt clt exc lkc clc PF AF csP csA) "bbox" =
      some 5 := rfl
  obtain ⟨-, -, hother⟩ := set_column_spec
    (b2Frame tv sv iv g qs ext lkt clt exc lkc clc PF AF csP csA) "bbox" 5 (bboxStructCol qs) hidx
  have hkb : k ≠ "bbox" := fun hc => hktop (by rw [hc]; decide)
  have hb3 : getColumn? (b3Frame tv sv iv g qs ext lkt clt exc lkc clc PF AF csP csA) k =
      some (tsColFix k ⟨ty', [c]⟩) := by
    rw [b3Frame, hother k hkb, hb2]
  by_cases hts : k ∈ timestamp_allowed_column_names
  · rcases hPts k hts v hv with hnull | ⟨s, t, hstr, hparse⟩
    · subst hnull
      have htyn : ty' = .anull := (Option.some.inj hinfv).symm
      subst htyn
      have hcn : c = .cnull := (Option.some.inj hmk).symm
      subst hcn
      refine ⟨⟨.ats .us none, [.cnull]⟩, ?_, Or.inr ⟨hts, Or.inl ⟨rfl, rfl⟩⟩⟩
      rw [hb3]
      congr 1
      simp [tsColFix, hts]
    · subst hstr
      have htyn : ty' = .astr := (Option.some.inj hinfv).symm
      subst htyn
      have hcn : c = .cstr s := (Option.some.inj hmk).symm
      subst hcn
      refine ⟨⟨.ats .us (some "UTC"), [.cts t]⟩, ?_,
        Or.inr ⟨hts, Or.inr ⟨s, t, rfl, hparse, rfl⟩⟩⟩
      rw [hb3]
      congr 1
      simp [tsColFix, hts, hparse]
  · refine ⟨tsColFix k ⟨ty', [c]⟩, hb3,
      Or.inl ⟨hts, ty', c, hget0, hinfv, hmk, ?_⟩⟩
    simp [tsColFix, hts]

theorem wfJObj_get : ∀ (kvs : JObj) (k : String) (v : JVal),
    wfJObj kvs = true → kvs.get k = some v → wfJ v = true
  | .nil, k, v, _, hv => by simp [JObj.get] at hv
  | .cons k0 v0 t, k, v, hw, hv => by
    simp only [wfJObj, Bool.and_eq_true] at hw
    by_cases hk : k0 = k
    · subst hk
      simp only [JObj.get, if_true, Option.some.injEq, reduceIte] at hv
      subst hv
      exact hw.1.2
    · simp only [JObj.get, hk, if_false, reduceIte] at hv
      exact wfJObj_get t k v hw.2 hv

theorem wf_arrOfRats : ∀ (qs : List ℚ), wfJArr (arrOfRats qs) = true
  | [] => rfl
  | q :: qs => by
    simp only [arrOfRats, wfJArr, wfJ, Bool.and_eq_true]
    exact ⟨trivial, wf_arrOfRats qs⟩

theorem nrows_of : ∀ (b : Batch), b ≠ [] →
    (∀ p ∈ b, p.2.cells.length = 1) → nrows b = 1
  | [], hne, _ => absurd rfl hne
  | p :: t, _, hL => by
    simp only [nrows, List.head?, Option.map_some', Option.getD_some]
    exact hL p (List.mem_cons_self p t)

theorem getColumn?_isSome_of_mem (b : Batch) (k : String)
    (h : k ∈ b.map Prod.fst) : ∃ col, getColumn? b k = some col := by
  rcases hc : getColumn? b k with - | col
  · exact absurd ((getColumn?_none_iff b k).mp hc) (by simp [h])
  · exact ⟨col, rfl⟩

theorem tsColFix_len (n : String) (col : Col) :
    (tsColFix n col).cells.length = col.cells.length := by
  rw [tsColFix]
  repeat' split
  all_goals simp_all

/-- One stringification step leaves any name-level filter alone when the
stepped name fails the filter. -/
theorem ts2str_step_filter (q : String → Bool) (b b' : Batch) (n : String)
    (h : convertTsToStringStep b n = .ok b') (hq : q n = false) :
    b'.filter (fun p => q p.1) = b.filter (fun p => q p.1) := by
  rw [convertTsToStringStep] at h
  rcases hcol : getColumn? b n with - | col
  · simp only [hcol] at h
    rw [← Except.ok.inj h]
  · simp only [hcol] at h
    obtain ⟨col', -, hb⟩ := except_map_eq_ok h
    subst hb
    rw [append_column, drop_columns, List.filter_append, List.filter_filter]
    have h2 : (([(n, col')] : Batch)).filter (fun p => q p.1) = [] := by
      simp [hq]
    rw [h2, List.append_nil]
    refine List.filter_congr fun p hp => ?_
    by_cases hqp : q p.1
    · have hpn : p.1 ≠ n := fun hc => by rw [hc, hq] at hqp; cases hqp
      simp [hqp, hpn]
    · simp [hqp]

theorem foldl_ts2str_filter (q : String → Bool) :
    ∀ (NL : List String) (b b' : Batch), (∀ n ∈ NL, q n = false) →
      NL.foldlM convertTsToStringStep b = .ok b' →
      b'.filter (fun p => q p.1) = b.filter (fun p => q p.1)
  | [], b, b', _, h => by rw [← Except.ok.inj h]
  | n :: NL', b, b', hq, h => by
    have hstep : convertTsToStringStep b n >>= (fun mid =>
        NL'.foldlM convertTsToStringStep mid) = .ok b' := h
    obtain ⟨mid, h1, h2⟩ := except_bind_eq_ok hstep
    rw [foldl_ts2str_filter q NL' mid b'
      (fun m hm => hq m (List.mem_cons_of_mem n hm)) h2,
      ts2str_step_filter q b mid n h1 (hq n (List.mem_cons_self n NL'))]

/-- Success of the stringification fold when every present column of the
set strftime-succeeds. -/
theorem foldl_ts2str_ok :
    ∀ (NL : List String) (b : Batch), NL.Nodup →
      (∀ n ∈ NL, ∀ col, getColumn? b n = some col →
        ∃ col', strftime_col col = .ok col') →
      ∃ b', NL.foldlM convertTsToStringStep b = .ok b'
  | [], b, _, _ => ⟨b, rfl⟩
  | n :: NL', b, hnd, h => by
    have hn : n ∉ NL' := (List.nodup_cons.mp hnd).1
    have hnd' : NL'.Nodup := (List.nodup_cons.mp hnd).2
    have hstep : ∃ mid, convertTsToStringStep b n = .ok mid := by
      rcases hcol : getColumn? b n with - | col
      · exact ⟨b, by simp [convertTsToStringStep, hcol]⟩
      · obtain ⟨col', hcol'⟩ := h n (List.mem_cons_self n NL') col hcol
        refine ⟨append_column (drop_columns b n) n col', ?_⟩
        simp only [convertTsToStringStep, hcol, hcol']
        rfl
    obtain ⟨mid, hmid⟩ := hstep
    obtain ⟨s1, -, -, -, -, -⟩ := convertTsToStringStep_spec b mid n hmid
    have hrest : ∀ m ∈ NL', ∀ col, getColumn? mid m = some col →
        ∃ col', strftime_col col = .ok col' := by
      intro m hm col hcol
      have hmn : m ≠ n := fun hc => hn (hc ▸ hm)
      rw [s1 m hmn] at hcol
      exact h m (List.mem_cons_of_mem n hm) col hcol
    obtain ⟨b', hb'⟩ := foldl_ts2str_ok NL' mid hnd' hrest
    refine ⟨b', ?_⟩
    have heq : (n :: NL').foldlM convertTsToStringStep b =
        convertTsToStringStep b n >>= fun acc =>
          NL'.foldlM convertTsToStringStep acc := rfl
    rw [heq, hmid, ok_bind, hb']

theorem to_arrow_batch_frame (tv sv iv gt : String) (gc : JVal) (cc : Coord)
    (qs : List ℚ) (exv lkv clv : JVal) (ext lkt clt : AType)
    (P A : JObj) (PF AF : AFields)
    (W : CorpusWF tv sv iv gt gc cc qs exv lkv clv ext lkt clt P A PF AF)
    (exc lkc clc : ACell) (csP csA : APairs)
    (hcsP : mkObjCells P PF = some csP) :
    to_arrow_batch (rawFrame tv sv iv ⟨gt, cc⟩ qs ext lkt clt exc lkc clc PF AF csP csA) =
      .ok (b3Frame tv sv iv ⟨gt, cc⟩ qs ext lkt clt exc lkc clc PF AF csP csA) := by
  rw [to_arrow_batch, bring_frame tv sv iv gt gc cc qs exv lkv clv ext lkt clt P A PF AF W exc lkc clc csP csA,
    ok_bind, ts_frame tv sv iv gt gc cc qs exv lkv clv ext lkt clt P A PF AF W ⟨gt, cc⟩ exc lkc clc csP csA hcsP,
    ok_bind, bbox_frame tv sv iv ⟨gt, cc⟩ qs ext lkt clt exc lkc clc PF AF csP csA W.hqs, ok_bind,
    geo_frame]

/-- The six canonical top-level columns of the normalised frame batch. -/
def keepFrame (tv sv iv : String) (g : Geom) (qs : List ℚ)
    (ext lkt clt : AType) (exc lkc clc : ACell)
    (AF : AFields) (csA : APairs) : Batch :=
  [("type", ⟨.astr, [.cstr tv]⟩),
   ("stac_version", ⟨.astr, [.cstr sv]⟩),
   ("stac_extensions", ⟨ext, [exc]⟩),
   ("id", ⟨.astr, [.cstr iv]⟩),
   ("geometry", ⟨.abin, [.cbin g]⟩),
   ("bbox", bboxStructCol qs),
   ("links", ⟨lkt, [lkc]⟩),
   ("assets", ⟨.astruct AF, [.cstruct (arrangePairs AF csA)]⟩),
   ("collection", ⟨clt, [clc]⟩)]

/-- The batch `StacArrowBatch.to_json_batch` produces from the frame:
canonical columns with the bbox re-listed, then the re-nested properties
struct built over the promoted property columns `props4`. -/
def jsonFrame (tv sv iv : String) (g : Geom) (qs : List ℚ)
    (ext lkt clt : AType) (exc lkc clc : ACell)
    (AF : AFields) (csA : APairs) (props4 : Batch) : Batch :=
  [("type", ⟨.astr, [.cstr tv]⟩),
   ("stac_version", ⟨.astr, [.cstr sv]⟩),
   ("stac_extensions", ⟨ext, [exc]⟩),
   ("id", ⟨.astr, [.cstr iv]⟩),
   ("geometry", ⟨.abin, [.cbin g]⟩),
   ("bbox", ⟨.alist .anum, [.clist (convert_bbox_to_array.listCells qs)]⟩),
   ("links", ⟨lkt, [lkc]⟩),
   ("assets", ⟨.astruct AF, [.cstruct (arrangePairs AF csA)]⟩),
   ("collection", ⟨clt, [clc]⟩),
   ("properties", ⟨.astruct (fieldsOfCols props4),
     [.cstruct (pairsOfColsAt 0 props4)]⟩)]

theorem b3Frame_eq (tv sv iv : String) (g : Geom) (qs : List ℚ)
    (ext lkt clt : AType) (exc lkc clc : ACell)
    (PF AF : AFields) (csP csA : APairs) :
    b3Frame tv sv iv g qs ext lkt clt exc lkc clc PF AF csP csA =
      keepFrame tv sv iv g qs ext lkt clt exc lkc clc AF csA ++
        (promo PF csP).map (fun p => (p.1, tsColFix p.1 p.2)) := rfl

/-- The timestamp stringification stage on the frame: it succeeds, and
the result is characterised at the lookup level. -/
theorem ts2str_frame (tv sv iv gt : String) (gc : JVal) (cc : Coord)
    (qs : List ℚ) (exv lkv clv : JVal) (ext lkt clt : AType)
    (P A : JObj) (PF AF : AFields)
    (W : CorpusWF tv sv iv gt gc cc qs exv lkv clv ext lkt clt P A PF AF) (g : Geom)
    (exc lkc clc : ACell) (csP csA : APairs)
    (hcsP : mkObjCells P PF = some csP) :
    ∃ b4, convert_timestamp_columns_to_string
        (b3Frame tv sv iv g qs ext lkt clt exc lkc clc PF AF csP csA) = .ok b4 ∧
      (∀ m, m ∈ b4.map Prod.fst ↔
        m ∈ (b3Frame tv sv iv g qs ext lkt clt exc lkc clc PF AF csP csA).map Prod.fst) ∧
      (b4.map Prod.fst).Nodup ∧
      (∀ p ∈ b4, p.2.cells.length = 1) ∧
      (b4.filter (fun p => p.1 ∈ stac_top_level_keys) =
        keepFrame tv sv iv g qs ext lkt clt exc lkc clc AF csA) ∧
      (∀ k v, P.get k = some v → ∃ col, getColumn? b4 k = some col ∧
        jeq (readCell ((col.cells.get? 0).getD .cnull)) v = true) := by
  have hndts : timestamp_allowed_column_names.Nodup := by decide
  -- every present timestamp column strftime-succeeds, and is one of the
  -- two corpus forms
  have hchar : ∀ n ∈ timestamp_allowed_column_names, ∀ col,
      getColumn? (b3Frame tv sv iv g qs ext lkt clt exc lkc clc PF AF csP csA) n = some col →
      (∃ v, P.get n = some v ∧
        ((v = .null ∧ col = ⟨.ats .us none, [.cnull]⟩) ∨
         (∃ s t, v = .str s ∧ parse_rfc3339? s = some t ∧
            col = ⟨.ats .us (some "UTC"), [.cts t]⟩))) := by
    intro n hn col hcol
    have hmem : n ∈ (b3Frame tv sv iv g qs ext lkt clt exc lkc clc PF AF csP csA).map Prod.fst := by
      by_contra hc
      rw [(getColumn?_none_iff _ n).mpr hc] at hcol
      cases hcol
    rw [b3Frame_names] at hmem
    rcases List.mem_append.mp hmem with h6 | hmemPF
    · exfalso
      simp only [timestamp_allowed_column_names, List.mem_cons,
        List.not_mem_nil, or_false] at hn
      rcases hn with h | h | h | h | h | h | h | h <;>
        (subst h; revert h6; decide)
    · rw [inferObj_names P PF W.hPF, ← JObj_hasKey_mem] at hmemPF
      rcases hv : P.get n with - | v
      · rw [JObj.hasKey, hv] at hmemPF
        cases hmemPF
      · obtain ⟨col₀, hcol₀, hchar₀⟩ := b3_prop_col tv sv iv g qs ext lkt clt exc lkc clc PF AF csP
          csA P W.hPF hcsP W.hPkeys W.hPts n v hv
        have hcc : col = col₀ := Option.some.inj (hcol ▸ hcol₀)
        subst hcc
        rcases hchar₀ with ⟨hnot, -⟩ | ⟨-, hforms⟩
        · exact absurd hn hnot
        · exact ⟨v, rfl, hforms⟩
  have hsucc : ∀ n ∈ timestamp_allowed_column_names, ∀ col,
      getColumn? (b3Frame tv sv iv g qs ext lkt clt exc lkc clc PF AF csP csA) n = some col →
      ∃ col', strftime_col col = .ok col' := by
    intro n hn col hcol
    obtain ⟨v, -, hforms⟩ := hchar n hn col hcol
    rcases hforms with ⟨-, hcoleq⟩ | ⟨s, t, -, -, hcoleq⟩
    · subst hcoleq
      exact ⟨⟨.astr, [.cnull]⟩, rfl⟩
    · subst hcoleq
      exact ⟨⟨.astr, [.cstr (strftime_iso t)]⟩, rfl⟩
  obtain ⟨b4, hb4⟩ := foldl_ts2str_ok timestamp_allowed_column_names
    (b3Frame tv sv iv g qs ext lkt clt exc lkc clc PF AF csP csA) hndts hsucc
  obtain ⟨s1, s2, s3, s4, s5⟩ := foldl_ts2str_spec
    timestamp_allowed_column_names
    (b3Frame tv sv iv g qs ext lkt clt exc lkc clc PF AF csP csA) b4 hndts hb4
  refine ⟨b4, hb4, s3, s4 (b3Frame_names_nodup tv sv iv gt gc cc qs exv lkv clv ext lkt clt P A PF AF
    W g exc lkc clc csP csA), ?_, ?_, ?_⟩
  · -- all columns keep one row
    refine s5 1 ?_
    intro p hp
    rw [b3Frame_eq] at hp
    rcases List.mem_append.mp hp with h6 | htail
    · simp only [keepFrame, List.mem_cons, List.not_mem_nil, or_false] at h6
      rcases h6 with h | h | h | h | h | h | h | h | h <;> (subst h; rfl)
    · obtain ⟨q, hq, hqe⟩ := List.mem_map.mp htail
      rw [← hqe]
      simp only
      rw [tsColFix_len]
      exact promo_cells_len PF csP q hq
  · -- the canonical columns survive the fold untouched
    have hfold := foldl_ts2str_filter
      (fun m => decide (m ∈ stac_top_level_keys))
      timestamp_allowed_column_names
      (b3Frame tv sv iv g qs ext lkt clt exc lkc clc PF AF csP csA) b4 (by decide) hb4
    have hkeep3 : (b3Frame tv sv iv g qs ext lkt clt exc lkc clc PF AF csP csA).filter
        (fun p => p.1 ∈ stac_top_level_keys) =
        keepFrame tv sv iv g qs ext lkt clt exc lkc clc AF csA := by
      rw [b3Frame_eq, List.filter_append]
      have h2 : ((promo PF csP).map
          (fun p => (p.1, tsColFix p.1 p.2))).filter
          (fun p => p.1 ∈ stac_top_level_keys) = [] := by
        rw [List.filter_eq_nil]
        intro p hp
        obtain ⟨q, hq, hqe⟩ := List.mem_map.mp hp
        have hqn : q.1 ∈ PF.names := by
          rw [← promo_names PF csP]
          exact List.mem_map_of_mem Prod.fst hq
        rw [inferObj_names P PF W.hPF, ← JObj_hasKey_mem] at hqn
        have := (W.hPkeys q.1 hqn).1
        rw [← hqe]
        simpa using this
      rw [h2, List.append_nil]
      rfl
    rw [← hkeep3]
    exact hfold
  · -- per-property-key cell equivalence
    intro k v hv
    have hkey : P.hasKey k = true := by
      rw [JObj.hasKey, hv]
      rfl
    obtain ⟨hktop, -, -⟩ := W.hPkeys k hkey
    obtain ⟨col₀, hcol₀, hchar₀⟩ := b3_prop_col tv sv iv g qs ext lkt clt exc lkc clc PF AF csP csA
      P W.hPF hcsP W.hPkeys W.hPts k v hv
    by_cases hts : k ∈ timestamp_allowed_column_names
    · obtain ⟨-, t2⟩ := s2 k hts
      obtain ⟨col', hstr, hb4col⟩ := t2 col₀ hcol₀
      rcases hchar₀ with ⟨hnot, -⟩ | ⟨-, hforms⟩
      · exact absurd hts hnot
      · rcases hforms with ⟨hvn, hcoleq⟩ | ⟨s, t, hvs, hparse, hcoleq⟩
        · subst hvn
          subst hcoleq
          have hcol' : (⟨.astr, [.cnull]⟩ : Col) = col' := Except.ok.inj hstr
          refine ⟨col', hb4col, ?_⟩
          rw [← hcol']
          rfl
        · subst hvs
          subst hcoleq
          have hcol' : (⟨.astr, [.cstr (strftime_iso t)]⟩ : Col) = col' :=
            Except.ok.inj hstr
          refine ⟨col', hb4col, ?_⟩
          rw [← hcol']
          exact strEquiv_of_parse
            (parse_strftime_iso t (parse_rfc3339?_valid hparse)) hparse
    · rcases hchar₀ with ⟨-, ty, c, hget0, hinfv, hmk, hcoleq⟩ |
        ⟨hmem, -⟩
      · subst hcoleq
        refine ⟨⟨ty, [c]⟩, ?_, ?_⟩
        · rw [s1 k hts]
          exact hcol₀
        · obtain ⟨c₀, hmk₀, hjeq₀⟩ := LPrimeJ ty v
            (wfJObj_get P k v W.hwfP hv) (U1J v ty
              (wfJObj_get P k v W.hwfP hv) hinfv)
          have hc₀ : c₀ = c := Option.some.inj (hmk₀ ▸ hmk)
          subst hc₀
          exact hjeq₀
      · exact absurd hmem hts

theorem JObj_keys_eq_nil : ∀ (kvs : JObj), kvs.keys = [] → kvs = .nil
  | .nil, _ => rfl
  | .cons k v t, h => by simp [JObj.keys] at h

/-- `StacArrowBatch.to_json_batch` on the frame: the properties are
re-nested into a struct over the promoted columns, the bbox is re-listed,
and the per-key readback stays equivalent to the source properties. -/
theorem to_json_frame (tv sv iv gt : String) (gc : JVal) (cc : Coord)
    (qs : List ℚ) (exv lkv clv : JVal) (ext lkt clt : AType)
    (P A : JObj) (PF AF : AFields)
    (W : CorpusWF tv sv iv gt gc cc qs exv lkv clv ext lkt clt P A PF AF) (g : Geom)
    (exc lkc clc : ACell) (csP csA : APairs)
    (hcsP : mkObjCells P PF = some csP) :
    ∃ props4 : Batch,
      to_json_batch (b3Frame tv sv iv g qs ext lkt clt exc lkc clc PF AF csP csA) =
        .ok (jsonFrame tv sv iv g qs ext lkt clt exc lkc clc AF csA props4) ∧
      (props4.map Prod.fst).Nodup ∧
      (∀ m, m ∈ props4.map Prod.fst ↔ m ∈ PF.names) ∧
      (∀ k v, P.get k = some v → ∃ col, getColumn? props4 k = some col ∧
        jeq (readCell ((col.cells.get? 0).getD .cnull)) v = true) := by
  obtain ⟨b4, hb4, names_iff, hnd4, hlen4, hkeep4, hcells4⟩ :=
    ts2str_frame tv sv iv gt gc cc qs exv lkv clv ext lkt clt P A PF AF W g exc lkc clc csP csA hcsP
  have hp_names : ∀ m,
      m ∈ (b4.filter (fun p => p.1 ∉ stac_top_level_keys)).map Prod.fst ↔
        m ∈ PF.names := by
    intro m
    constructor
    · intro hm
      obtain ⟨p, hpmem, hpe⟩ := List.mem_map.mp hm
      have hpf := List.mem_filter.mp hpmem
      have hm4 : p.1 ∈ b4.map Prod.fst := List.mem_map_of_mem Prod.fst hpf.1
      rw [names_iff, b3Frame_names] at hm4
      rcases List.mem_append.mp hm4 with h6 | hPF'
      · exfalso
        have htop : p.1 ∈ stac_top_level_keys := by
          simp only [List.mem_cons, List.not_mem_nil, or_false] at h6
          rcases h6 with h | h | h | h | h | h | h | h | h <;> (rw [h]; decide)
        have hnot := hpf.2
        simp only [decide_eq_true_eq] at hnot
        exact hnot htop
      · rw [← hpe]
        exact hPF'
    · intro hm
      have hnot : m ∉ stac_top_level_keys := by
        have hk : P.hasKey m = true := by
          rw [JObj_hasKey_mem, ← inferObj_names P PF W.hPF]
          exact hm
        exact (W.hPkeys m hk).1
      have hm3 : m ∈ (b3Frame tv sv iv g qs ext lkt clt exc lkc clc PF AF csP csA).map Prod.fst := by
        rw [b3Frame_names]
        exact List.mem_append.mpr (Or.inr hm)
      rw [← names_iff] at hm3
      obtain ⟨p, hpmem, hpe⟩ := List.mem_map.mp hm3
      refine List.mem_map.mpr ⟨p, List.mem_filter.mpr ⟨hpmem, ?_⟩, hpe⟩
      simp only [decide_eq_true_eq]
      rw [hpe]
      exact hnot
  have hp_nd : ((b4.filter
      (fun p => p.1 ∉ stac_top_level_keys)).map Prod.fst).Nodup :=
    List.Nodup.sublist ((List.filter_sublist b4).map Prod.fst) hnd4
  have hb4ne : b4 ≠ [] := by
    intro hc
    have hmem : "type" ∈ b4.map Prod.fst := by
      rw [names_iff, b3Frame_names]
      simp
    rw [hc] at hmem
    simp at hmem
  have hnr : nrows b4 = 1 := nrows_of b4 hb4ne hlen4
  have hp_ne : (b4.filter (fun p => p.1 ∉ stac_top_level_keys)).isEmpty =
      false := by
    have hkeys_ne : PF.names ≠ [] := by
      intro h
      rw [inferObj_names P PF W.hPF] at h
      exact W.hPne (JObj_keys_eq_nil P h)
    obtain ⟨m, hm⟩ := List.exists_mem_of_ne_nil PF.names hkeys_ne
    have hmem := (hp_names m).mpr hm
    rcases hfp : b4.filter (fun p => p.1 ∉ stac_top_level_keys)
      with - | ⟨a, l⟩
    · rw [hfp] at hmem
      simp at hmem
    · rw [hfp]
      rfl
  have hlower : lower_properties_from_top_level b4 =
      .ok (keepFrame tv sv iv g qs ext lkt clt exc lkc clc AF csA ++
        [("properties", ⟨.astruct (fieldsOfCols
            (b4.filter (fun p => p.1 ∉ stac_top_level_keys))),
          [.cstruct (pairsOfColsAt 0
            (b4.filter (fun p => p.1 ∉ stac_top_level_keys)))]⟩)]) := by
    simp only [lower_properties_from_top_level]
    rw [hnr, hp_ne, hkeep4]
    simp only [Bool.false_and, Bool.false_eq_true, if_false]
    rw [append_column]
    rfl
  have hpercol : ∀ k v, P.get k = some v →
      ∃ col, getColumn?
          (b4.filter (fun p => p.1 ∉ stac_top_level_keys)) k = some col ∧
        jeq (readCell ((col.cells.get? 0).getD .cnull)) v = true := by
    intro k v hv
    have hkey : P.hasKey k = true := by
      rw [JObj.hasKey, hv]
      rfl
    have hktop := (W.hPkeys k hkey).1
    obtain ⟨col, hcol, hjeq⟩ := hcells4 k v hv
    refine ⟨col, ?_, hjeq⟩
    rw [getColumn?_filter b4 _ k ?_]
    · exact hcol
    · intro p hp
      simp only [decide_eq_true_eq]
      rw [hp]
      exact hktop
  rcases W.hqs with hq | hq
  all_goals
    refine ⟨b4.filter (fun p => p.1 ∉ stac_top_level_keys), ?_,
      hp_nd, hp_names, hpercol⟩
  · have hnames : bboxNames qs = ["xmin", "ymin", "xmax", "ymax"] := by
      rw [bboxNames, hq]
      rfl
    have hcoleq : bboxStructCol qs =
        ⟨.astruct (numFieldsOf ["xmin", "ymin", "xmax", "ymax"]),
         [.cstruct (zipPairs ["xmin", "ymin", "xmax", "ymax"] qs)]⟩ := by
      rw [bboxStructCol, hnames]
    have hidx : get_field_index (keepFrame tv sv iv g qs ext lkt clt exc lkc clc AF csA ++
        [("properties", ⟨.astruct (fieldsOfCols
            (b4.filter (fun p => p.1 ∉ stac_top_level_keys))),
          [.cstruct (pairsOfColsAt 0
            (b4.filter (fun p => p.1 ∉ stac_top_level_keys)))]⟩)]) "bbox" =
        some 5 := rfl
    have hget : ((keepFrame tv sv iv g qs ext lkt clt exc lkc clc AF csA ++
        [("properties", (⟨.astruct (fieldsOfCols
            (b4.filter (fun p => p.1 ∉ stac_top_level_keys))),
          [.cstruct (pairsOfColsAt 0
            (b4.filter (fun p => p.1 ∉ stac_top_level_keys)))]⟩ :
            Col))] : Batch)).get? 5 =
        some ("bbox",
          (⟨.astruct (numFieldsOf ["xmin", "ymin", "xmax", "ymax"]),
           [.cstruct (zipPairs ["xmin", "ymin", "xmax", "ymax"] qs)]⟩ :
            Col)) := by
      rw [← hcoleq]
      rfl
    have hrows : ([ACell.cstruct
        (zipPairs ["xmin", "ymin", "xmax", "ymax"] qs)]).mapM
        (fun c => (["xmin", "ymin", "xmax", "ymax"].mapM
            (bboxStructFieldNum c)) >>= fun qs' =>
          pure (ACell.clist (convert_bbox_to_array.listCells qs'))) =
        .ok [.clist (convert_bbox_to_array.listCells qs)] := by
      rw [List.mapM_cons, List.mapM_nil]
      simp only [zipPairs_mapM ["xmin", "ymin", "xmax", "ymax"] qs
        (by decide) (by rw [hq]; rfl)]
      rfl
    have hifsel : (if (numFieldsOf ["xmin", "ymin", "xmax",
          "ymax"]).names.length = 4
        then some ["xmin", "ymin", "xmax", "ymax"]
        else if (numFieldsOf ["xmin", "ymin", "xmax",
          "ymax"]).names.length = 6
        then some ["xmin", "ymin", "zmin", "xmax", "ymax", "zmax"]
        else none) = some ["xmin", "ymin", "xmax", "ymax"] := rfl
    rw [to_json_batch, hb4, ok_bind, hlower, ok_bind]
    simp only [convert_bbox_to_array, hidx, hget, hifsel, hrows]
    rfl
  · have hnames : bboxNames qs =
        ["xmin", "ymin", "zmin", "xmax", "ymax", "zmax"] := by
      rw [bboxNames, hq]
      rfl
    have hcoleq : bboxStructCol qs =
        ⟨.astruct (numFieldsOf ["xmin", "ymin", "zmin", "xmax", "ymax",
          "zmax"]),
         [.cstruct (zipPairs ["xmin", "ymin", "zmin", "xmax", "ymax",
           "zmax"] qs)]⟩ := by
      rw [bboxStructCol, hnames]
    have hidx : get_field_index (keepFrame tv sv iv g qs ext lkt clt exc lkc clc AF csA ++
        [("properties", ⟨.astruct (fieldsOfCols
            (b4.filter (fun p => p.1 ∉ stac_top_level_keys))),
          [.cstruct (pairsOfColsAt 0
            (b4.filter (fun p => p.1 ∉ stac_top_level_keys)))]⟩)]) "bbox" =
        some 5 := rfl
    have hget : ((keepFrame tv sv iv g qs ext lkt clt exc lkc clc AF csA ++
        [("properties", (⟨.astruct (fieldsOfCols
            (b4.filter (fun p => p.1 ∉ stac_top_level_keys))),
          [.cstruct (pairsOfColsAt 0
            (b4.filter (fun p => p.1 ∉ stac_top_level_keys)))]⟩ :
            Col))] : Batch)).get? 5 =
        some ("bbox",
          (⟨.astruct (numFieldsOf ["xmin", "ymin", "zmin", "xmax", "ymax",
            "zmax"]),
           [.cstruct (zipPairs ["xmin", "ymin", "zmin", "xmax", "ymax",
             "zmax"] qs)]⟩ : Col)) := by
      rw [← hcoleq]
      rfl
    have hrows : ([ACell.cstruct
        (zipPairs ["xmin", "ymin", "zmin", "xmax", "ymax", "zmax"]
          qs)]).mapM
        (fun c => (["xmin", "ymin", "zmin", "xmax", "ymax", "zmax"].mapM
            (bboxStructFieldNum c)) >>= fun qs' =>
          pure (ACell.clist (convert_bbox_to_array.listCells qs'))) =
        .ok [.clist (convert_bbox_to_array.listCells qs)] := by
      rw [List.mapM_cons, List.mapM_nil]
      simp only [zipPairs_mapM ["xmin", "ymin", "zmin", "xmax", "ymax",
        "zmax"] qs (by decide) (by rw [hq]; rfl)]
      rfl
    have hifsel : (if (numFieldsOf ["xmin", "ymin", "zmin", "xmax",
          "ymax", "zmax"]).names.length = 4
        then some ["xmin", "ymin", "xmax", "ymax"]
        else if (numFieldsOf ["xmin", "ymin", "zmin", "xmax", "ymax",
          "zmax"]).names.length = 6
        then some ["xmin", "ymin", "zmin", "xmax", "ymax", "zmax"]
        else none) =
        some ["xmin", "ymin", "zmin", "xmax", "ymax", "zmax"] := rfl
    rw [to_json_batch, hb4, ok_bind, hlower, ok_bind]
    simp only [convert_bbox_to_array, hidx, hget, hifsel, hrows]
    rfl

/-- Decoding the JSON-layout frame: one geometry path, `shapely.from_wkb`
on the single row, and the row dict with the GeoJSON geometry substituted
in place. -/
theorem iter_dicts_frame (tv sv iv : String) (g : Geom) (qs : List ℚ)
    (ext lkt clt : AType) (exc lkc clc : ACell)
    (AF : AFields) (csA : APairs) (A : JObj) (props4 : Batch)
    (hA : wfAssets A = true) (hAF : inferObj A = some AF)
    (hpg : getColumn? props4 "proj:geometry" = none) :
    iter_dicts (jsonFrame tv sv iv g qs ext lkt clt exc lkc clc AF csA props4) =
      .ok [.obj (.cons "type" (.str tv)
        (.cons "stac_version" (.str sv)
          (.cons "stac_extensions" (readCell exc)
            (.cons "id" (.str iv)
              (.cons "geometry" (geo_interface g)
                (.cons "bbox"
                  (.arr (readCells (convert_bbox_to_array.listCells qs)))
                  (.cons "links" (readCell lkc)
                    (.cons "assets" (.obj (readPairs (arrangePairs AF csA)))
                      (.cons "collection" (readCell clc)
                        (.cons "properties"
                          (.obj (readPairs (pairsOfColsAt 0 props4)))
                          .nil))))))))))] := by
  have h1 : getColumn? (jsonFrame tv sv iv g qs ext lkt clt exc lkc clc AF csA props4)
      "properties" = some ⟨.astruct (fieldsOfCols props4),
        [.cstruct (pairsOfColsAt 0 props4)]⟩ := rfl
  have h2 : getColumn? (jsonFrame tv sv iv g qs ext lkt clt exc lkc clc AF csA props4) "assets" =
      some ⟨.astruct AF, [.cstruct (arrangePairs AF csA)]⟩ := rfl
  have hpgf : (fieldsOfCols props4).hasName "proj:geometry" = false := by
    rw [AFields.hasName, fieldsOfCols_get_none props4 _ hpg]
    rfl
  have hpaths : geometry_paths (jsonFrame tv sv iv g qs ext lkt clt exc lkc clc AF csA props4) =
      .ok [["geometry"]] := by
    rw [geometry_paths]
    simp only [h1, h2, hpgf, Bool.false_eq_true, if_false]
    show Except.ok ([["geometry"]] ++ [] ++ assetGeomPaths AF) =
      Except.ok [["geometry"]]
    rw [assetGeomPaths_nil A AF hA hAF]
    rfl
  rw [iter_dicts, hpaths, ok_bind]
  rfl

/-- Claim C1: for a corpus item — canonical frame keys, a valid non-null
GeoJSON geometry, a 4- or 6-number bbox, a non-empty properties object
whose keys avoid the top-level names and whose timestamp-set members are
null or canonical UTC strings, and object-valued assets without
`proj:geometry` — decoding the encoding of the singleton batch
(`from_dicts`, `to_arrow_batch`, then `to_json_batch`, `iter_dicts`)
returns the item up to the round-trip equivalence `jeq`: numbers within
`10⁻⁹` relative, timestamps by parsed value, and `key: null` equivalent
to the key being absent. -/
theorem round_trip_corpus_item (tv sv iv gt : String) (gc : JVal)
    (cc : Coord) (qs : List ℚ) (exv lkv clv : JVal) (ext lkt clt : AType)
    (P A : JObj) (PF AF : AFields)
    (W : CorpusWF tv sv iv gt gc cc qs exv lkv clv ext lkt clt P A PF AF)
    (exc lkc clc : ACell) (csP csA : APairs)
    (hexc : mkCell ext exv = some exc)
    (hlkc : mkCell lkt lkv = some lkc)
    (hclc : mkCell clt clv = some clc)
    (hcsP : mkObjCells P PF = some csP)
    (hcsA : mkObjCells A AF = some csA) :
    ∃ x', round_trip [.obj (itemFrame tv sv iv gt gc qs exv lkv clv P A)] = .ok [x'] ∧
      jeq x' (.obj (itemFrame tv sv iv gt gc qs exv lkv clv P A)) = true := by
  obtain ⟨props4, hjson, hp_nd, hp_names, hp_cells⟩ :=
    to_json_frame tv sv iv gt gc cc qs exv lkv clv ext lkt clt P A PF AF W ⟨gt, cc⟩ exc lkc clc csP csA hcsP
  have hpg : getColumn? props4 "proj:geometry" = none := by
    rw [getColumn?_none_iff]
    intro hc
    have hmem := (hp_names "proj:geometry").mp hc
    rw [inferObj_names P PF W.hPF, ← JObj_hasKey_mem] at hmem
    exact (W.hPkeys _ hmem).2.2 rfl
  have hiter := iter_dicts_frame tv sv iv ⟨gt, cc⟩ qs ext lkt clt exc lkc clc AF csA A props4
    W.hA W.hAF hpg
  -- leaf equivalences
  have hG : geo_interface (⟨gt, cc⟩ : Geom) =
      .obj (.cons "type" (.str gt) (.cons "coordinates" gc .nil)) := by
    rw [geo_interface]
    simp only [convert_tuples_to_lists]
    rw [jvalOfCoord_roundtrip gc cc W.hcc]
  have hGleaf : jeq (geo_interface ⟨gt, cc⟩)
      (.obj (.cons "type" (.str gt) (.cons "coordinates" gc .nil))) =
      true := by
    rw [hG]
    refine jeq_refl _ ?_
    simp [wfJ, wfJObj, JObj.hasKey, JObj.get, W.hwfgc]
  have hBleaf : jeq (.arr (readCells (convert_bbox_to_array.listCells qs)))
      (.arr (arrOfRats qs)) = true := by
    rw [readCells_listCells]
    exact jeq_refl _ (by simpa [wfJ] using wf_arrOfRats qs)
  have hcompatA : compat (.astruct AF) (.obj A) = true :=
    U1J (.obj A) _ (by simpa [wfJ] using W.hwfA) (by simp [inferJ, W.hAF])
  have hALeaf : jeq (.obj (readPairs (arrangePairs AF csA))) (.obj A) =
      true := by
    obtain ⟨c, hmkA, hjeqA⟩ := LPrimeJ (.astruct AF) (.obj A)
      (by simpa [wfJ] using W.hwfA) hcompatA
    have hobj : objKeysSub A AF = true := by
      have hc2 := hcompatA
      simp only [compat, Bool.and_eq_true] at hc2
      exact hc2.1
    have hmkA2 : mkCell (.astruct AF) (.obj A) =
        some (.cstruct (arrangePairs AF csA)) := by
      simp only [mkCell, hobj, if_true, hcsA]
      rfl
    have hc : c = .cstruct (arrangePairs AF csA) :=
      Option.some.inj (hmkA.symm.trans hmkA2)
    subst hc
    exact hjeqA
  have hPleaf : jeq (.obj (readPairs (pairsOfColsAt 0 props4)))
      (.obj P) = true := by
    refine jeq_obj_ext _ P ?_ ?_ ?_
    · rw [readPairs_keys_pairsOfColsAt]
      exact hp_nd
    · intro k w hkw
      have hkmem : k ∈ (readPairs (pairsOfColsAt 0 props4)).keys := by
        rw [← JObj_hasKey_mem, JObj.hasKey, hkw]
        rfl
      rw [readPairs_keys_pairsOfColsAt] at hkmem
      have hkPF := (hp_names k).mp hkmem
      rw [inferObj_names P PF W.hPF, ← JObj_hasKey_mem] at hkPF
      rcases hv : P.get k with - | v
      · rw [JObj.hasKey, hv] at hkPF
        cases hkPF
      · obtain ⟨col, hcol, hjeqv⟩ := hp_cells k v hv
        have hpair : (pairsOfColsAt 0 props4).get k =
            some ((col.cells.get? 0).getD .cnull) := by
          rw [pairsOfColsAt_get, hcol]
          rfl
        have hrp := readPairs_get _ k _ hpair
        have hw : w = readCell ((col.cells.get? 0).getD .cnull) :=
          Option.some.inj (hkw.symm.trans hrp)
        subst hw
        exact hjeqv
    · intro k hk
      have hkmem : k ∈ PF.names := by
        rw [inferObj_names P PF W.hPF, ← JObj_hasKey_mem]
        exact hk
      have hmem4 := (hp_names k).mpr hkmem
      obtain ⟨colk, hcolk⟩ := getColumn?_isSome_of_mem props4 k hmem4
      have hpair : (pairsOfColsAt 0 props4).get k =
          some ((colk.cells.get? 0).getD .cnull) := by
        rw [pairsOfColsAt_get, hcolk]
        rfl
      have hrp := readPairs_get _ k _ hpair
      rw [JObj.hasKey, hrp]
      rfl
  have hEleaf : jeq (readCell exc) exv = true := by
    obtain ⟨c, hmk, hjeqc⟩ := LPrimeJ ext exv W.hwfE (U1J exv ext W.hwfE W.hET)
    have hc : c = exc := Option.some.inj (hmk.symm.trans hexc)
    subst hc
    exact hjeqc
  have hLleaf : jeq (readCell lkc) lkv = true := by
    obtain ⟨c, hmk, hjeqc⟩ := LPrimeJ lkt lkv W.hwfL (U1J lkv lkt W.hwfL W.hLT)
    have hc : c = lkc := Option.some.inj (hmk.symm.trans hlkc)
    subst hc
    exact hjeqc
  have hCleaf : jeq (readCell clc) clv = true := by
    obtain ⟨c, hmk, hjeqc⟩ := LPrimeJ clt clv W.hwfC (U1J clv clt W.hwfC W.hCT)
    have hc : c = clc := Option.some.inj (hmk.symm.trans hclc)
    subst hc
    exact hjeqc
  refine ⟨.obj (.cons "type" (.str tv)
      (.cons "stac_version" (.str sv)
        (.cons "stac_extensions" (readCell exc)
          (.cons "id" (.str iv)
            (.cons "geometry" (geo_interface ⟨gt, cc⟩)
              (.cons "bbox"
                (.arr (readCells (convert_bbox_to_array.listCells qs)))
                (.cons "links" (readCell lkc)
                  (.cons "assets" (.obj (readPairs (arrangePairs AF csA)))
                    (.cons "collection" (readCell clc)
                      (.cons "properties"
                        (.obj (readPairs (pairsOfColsAt 0 props4)))
                        .nil)))))))))), ?_, ?_⟩
  · rw [round_trip,
      from_dicts_frame tv sv iv gt gc cc qs exv lkv clv ext lkt clt P A PF AF W exc lkc clc csP csA hexc hlkc hclc hcsP hcsA,
      ok_bind,
      to_arrow_batch_frame tv sv iv gt gc cc qs exv lkv clv ext lkt clt P A PF AF W exc lkc clc csP csA hcsP,
      ok_bind, hjson, ok_bind, hiter]
  · refine jeq_obj_ext _ _ ?_ ?_ ?_
    · show (["type", "stac_version", "stac_extensions", "id", "geometry",
        "bbox", "links", "assets", "collection", "properties"] :
          List String).Nodup
      decide
    · intro k v hkv
      by_cases h1 : "type" = k
      · subst h1
        have hv : (.str tv : JVal) = v := Option.some.inj hkv
        subst hv
        exact strEquiv_refl tv
      by_cases h2 : "stac_version" = k
      · subst h2
        have hv : (.str sv : JVal) = v := Option.some.inj hkv
        subst hv
        exact strEquiv_refl sv
      by_cases h8 : "stac_extensions" = k
      · subst h8
        have hv : readCell exc = v := Option.some.inj hkv
        subst hv
        exact hEleaf
      by_cases h3 : "id" = k
      · subst h3
        have hv : (.str iv : JVal) = v := Option.some.inj hkv
        subst hv
        exact strEquiv_refl iv
      by_cases h4 : "geometry" = k
      · subst h4
        have hv : geo_interface (⟨gt, cc⟩ : Geom) = v :=
          Option.some.inj hkv
        subst hv
        exact hGleaf
      by_cases h5 : "bbox" = k
      · subst h5
        have hv : (.arr (readCells (convert_bbox_to_array.listCells qs)) :
            JVal) = v := Option.some.inj hkv
        subst hv
        exact hBleaf
      by_cases h9 : "links" = k
      · subst h9
        have hv : readCell lkc = v := Option.some.inj hkv
        subst hv
        exact hLleaf
      by_cases h6 : "assets" = k
      · subst h6
        have hv : (.obj (readPairs (arrangePairs AF csA)) : JVal) = v :=
          Option.some.inj hkv
        subst hv
        exact hALeaf
      by_cases h10 : "collection" = k
      · subst h10
        have hv : readCell clc = v := Option.some.inj hkv
        subst hv
        exact hCleaf
      by_cases h7 : "properties" = k
      · subst h7
        have hv : (.obj (readPairs (pairsOfColsAt 0 props4)) : JVal) = v :=
          Option.some.inj hkv
        subst hv
        exact hPleaf
      · simp only [JObj.get, h1, h2, h8, h3, h4, h5, h9, h6, h10, h7,
          if_false, reduceIte] at hkv
        cases hkv
    · intro k hk
      by_cases h1 : "type" = k
      · subst h1
        rfl
      by_cases h2 : "stac_version" = k
      · subst h2
        rfl
      by_cases h8 : "stac_extensions" = k
      · subst h8
        rfl
      by_cases h3 : "id" = k
      · subst h3
        rfl
      by_cases h4 : "geometry" = k
      · subst h4
        rfl
      by_cases h5 : "bbox" = k
      · subst h5
        rfl
      by_cases h9 : "links" = k
      · subst h9
        rfl
      by_cases h6 : "properties" = k
      · subst h6
        rfl
      by_cases h7 : "assets" = k
      · subst h7
        rfl
      by_cases h10 : "collection" = k
      · subst h10
        rfl
      · simp only [itemFrame, JObj.hasKey, JObj.get, h1, h2, h8, h3, h4,
          h5, h9, h6, h7, h10, if_false, reduceIte] at hk
        cases hk

theorem round_trip_corpus_item_witness :
    ∃ x', round_trip [.obj (itemFrame "Feature" "1.0.0" "item-1" "Point"
        (.arr (.cons (.num 0) (.cons (.num 0) .nil))) [0, 0, 1, 1]
        (.arr (.cons (.str "ext") .nil)) (.arr .nil) (.str "c1")
        (.cons "foo" (.num 1)
          (.cons "datetime" (.str "2020-01-01T10:56:19.024596Z") .nil))
        (.cons "a" (.obj (.cons "href" (.str "x") .nil)) .nil))] =
      .ok [x'] ∧
      jeq x' (.obj (itemFrame "Feature" "1.0.0" "item-1" "Point"
        (.arr (.cons (.num 0) (.cons (.num 0) .nil))) [0, 0, 1, 1]
        (.arr (.cons (.str "ext") .nil)) (.arr .nil) (.str "c1")
        (.cons "foo" (.num 1)
          (.cons "datetime" (.str "2020-01-01T10:56:19.024596Z") .nil))
        (.cons "a" (.obj (.cons "href" (.str "x") .nil)) .nil))) = true :=
  round_trip_corpus_item "Feature" "1.0.0" "item-1" "Point"
    (.arr (.cons (.num 0) (.cons (.num 0) .nil)))
    (.arr (.cons (.num 0) (.cons (.num 0) .nil)))
    [0, 0, 1, 1]
    (.arr (.cons (.str "ext") .nil)) (.arr .nil) (.str "c1")
    (.alist .astr) (.alist .anull) .astr
    (.cons "foo" (.num 1)
      (.cons "datetime" (.str "2020-01-01T10:56:19.024596Z") .nil))
    (.cons "a" (.obj (.cons "href" (.str "x") .nil)) .nil)
    (.cons "foo" .anum (.cons "datetime" .astr .nil))
    (.cons "a" (.astruct (.cons "href" .astr .nil)) .nil)
    (CorpusWF.mk (by decide) rfl rfl (Or.inl rfl)
      rfl rfl rfl rfl rfl rfl
      rfl (by decide) rfl
      (by
        intro k hk
        by_cases h : "foo" = k
        · subst h
          exact ⟨by decide, by decide, by decide⟩
        by_cases h2 : "datetime" = k
        · subst h2
          exact ⟨by decide, by decide, by decide⟩
        · rw [JObj.hasKey] at hk
          simp only [JObj.get, h, h2, if_false, reduceIte] at hk
          cases hk)
      (by
        intro k hk v hv
        simp only [timestamp_allowed_column_names, List.mem_cons,
          List.not_mem_nil, or_false] at hk
        rcases hk with h | h | h | h | h | h | h | h
        · subst h
          exact Or.inr ⟨"2020-01-01T10:56:19.024596Z",
            ⟨2020, 1, 1, 10, 56, 19, 24596⟩,
            (Option.some.inj hv).symm, rfl⟩
        all_goals (subst h; simp [JObj.get] at hv))
      rfl rfl rfl)
    (.clist (.cons (.cstr "ext") .nil)) (.clist .nil) (.cstr "c1")
    (.cons "foo" (.cnum 1)
      (.cons "datetime" (.cstr "2020-01-01T10:56:19.024596Z") .nil))
    (.cons "a" (.cstruct (.cons "href" (.cstr "x") .nil)) .nil)
    rfl rfl rfl rfl rfl

end StacGeoparquet

